import Mathlib

/-! # ibus-hangul engine: text reconciliation, candidate commit and key dispatch

A shallow embedding of `src/engine.c`.  The engine is a state machine over
`IBusHangulEngine`; every host call it issues (`ibus_engine_commit_text`,
`ibus_engine_delete_surrounding_text`, ...) is recorded, in order, as a `Cmd`.
The jamo composer (libhangul), the dictionary and the ibus library are external
collaborators: the composer and the dictionary are parameters of the model, the
few ibus facts the engine relies on are stated where they are used.
-/

namespace IBusHangul

/-! ## Constants of the ibus headers (ibustypes.h, ibuskeysyms.h) -/

def IBUS_SHIFT_MASK : Nat := 1
def IBUS_LOCK_MASK : Nat := 2
def IBUS_CONTROL_MASK : Nat := 4
def IBUS_MOD1_MASK : Nat := 8
def IBUS_MOD2_MASK : Nat := 16
def IBUS_MOD3_MASK : Nat := 32
def IBUS_MOD4_MASK : Nat := 64
def IBUS_MOD5_MASK : Nat := 128
def IBUS_SUPER_MASK : Nat := 2 ^ 26
def IBUS_HYPER_MASK : Nat := 2 ^ 27
def IBUS_META_MASK : Nat := 2 ^ 28
def IBUS_RELEASE_MASK : Nat := 2 ^ 30

def IBUS_BackSpace : Nat := 0xff08
def IBUS_Return : Nat := 0xff0d
def IBUS_Escape : Nat := 0xff1b
def IBUS_Hangul : Nat := 0xff31
def IBUS_Hangul_Hanja : Nat := 0xff34
def IBUS_Left : Nat := 0xff51
def IBUS_Up : Nat := 0xff52
def IBUS_Right : Nat := 0xff53
def IBUS_Down : Nat := 0xff54
def IBUS_Page_Up : Nat := 0xff55
def IBUS_Page_Down : Nat := 0xff56
def IBUS_F9 : Nat := 0xffc6
def IBUS_Shift_L : Nat := 0xffe1
def IBUS_Shift_R : Nat := 0xffe2
def IBUS_Control_L : Nat := 0xffe3
def IBUS_Control_R : Nat := 0xffe4
def IBUS_Meta_L : Nat := 0xffe7
def IBUS_Meta_R : Nat := 0xffe8
def IBUS_Alt_L : Nat := 0xffe9
def IBUS_Alt_R : Nat := 0xffea
def IBUS_Super_L : Nat := 0xffeb
def IBUS_Super_R : Nat := 0xffec
def IBUS_Hyper_L : Nat := 0xffed
def IBUS_Hyper_R : Nat := 0xffee
def IBUS_space : Nat := 0x20
def IBUS_1 : Nat := 0x31
def IBUS_9 : Nat := 0x39
def IBUS_h : Nat := 0x68
def IBUS_j : Nat := 0x6a
def IBUS_k : Nat := 0x6b
def IBUS_l : Nat := 0x6c

def IBUS_INPUT_PURPOSE_FREE_FORM : Nat := 0
def IBUS_INPUT_PURPOSE_PASSWORD : Nat := 8
def IBUS_CAP_SURROUNDING_TEXT : Nat := 2 ^ 5

/-! ## Enumerations of engine.c -/

def INPUT_MODE_HANGUL : Int := 0
def INPUT_MODE_LATIN : Int := 1
def INPUT_MODE_COUNT : Int := 2

/-- The three preedit modes (`IBusHangulPreeditMode`). -/
inductive IBusHangulPreeditMode where
  | PREEDIT_MODE_NONE
  | PREEDIT_MODE_SYLLABLE
  | PREEDIT_MODE_WORD
  deriving DecidableEq, Repr

/-- The lookup methods (`LOOKUP_METHOD_EXACT`, ...), kept in `last_lookup_method`. -/
inductive LookupMethod where
  | LOOKUP_METHOD_EXACT
  | LOOKUP_METHOD_PREFIX
  | LOOKUP_METHOD_SUFFIX
  deriving DecidableEq, Repr

open IBusHangulPreeditMode LookupMethod

/-! ## UString -/

/-- Modelled from the spec: `UString` (ustring.c is not among the sources) is the
PendingBuffer, "an ordered sequence of Unicode scalar values", "mutated by
append/erase operations keyed by codepoint offsets". -/
abbrev UString := List Nat

/-- Modelled from the spec: number of codepoints of a `UString`. -/
def ustring_length (s : UString) : Nat := s.length

/-- Modelled from the spec: append codepoints at the tail. -/
def ustring_append_ucs4 (s : UString) (t : List Nat) : UString := s ++ t

/-- Modelled from the spec: erase `len` codepoints starting at offset `pos`
(a range that does not fit leaves the string alone, as `g_array_remove_range`
does). -/
def ustring_erase (s : UString) (pos len : Nat) : UString :=
  if pos + len ≤ s.length then s.take pos ++ s.drop (pos + len) else s

/-- Modelled from the spec: "compare codepoint-for-codepoint"; the engine only
uses whether the result is zero. -/
def ustring_compare (a b : UString) : Int := if a = b then 0 else 1

/-! ## The composer (libhangul), an external collaborator -/

/-- The operations of the opaque composer over its own state type `σ`
(`hangul_ic_process`, `hangul_ic_backspace`, ...). -/
structure Composer (σ : Type) where
  hangul_ic_process : σ → Nat → σ × Bool
  hangul_ic_backspace : σ → σ × Bool
  hangul_ic_flush : σ → σ × List Nat
  hangul_ic_reset : σ → σ
  hangul_ic_get_preedit_string : σ → List Nat
  hangul_ic_get_commit_string : σ → List Nat
  hangul_ic_is_transliteration : σ → Bool
  hangul_ic_has_jungseong : σ → Bool
  hangul_ic_has_jongseong : σ → Bool

/-! ## Dictionary (libhangul hanja tables), an external collaborator -/

/-- One dictionary match: `(key, value, comment)`. -/
structure Hanja where
  key : List Nat
  value : List Nat
  comment : List Nat
  deriving DecidableEq, Repr

abbrev HanjaList := List Hanja

/-- A dictionary table with its three match functions; `none` is a NULL list. -/
structure HanjaTable where
  hanja_table_match_exact : List Nat → Option HanjaList
  hanja_table_match_prefix : List Nat → Option HanjaList
  hanja_table_match_suffix : List Nat → Option HanjaList

def hanja_list_get_nth_key (l : HanjaList) (n : Nat) : Option (List Nat) :=
  l[n]?.map Hanja.key

def hanja_list_get_nth_value (l : HanjaList) (n : Nat) : Option (List Nat) :=
  l[n]?.map Hanja.value

def hanja_list_get_nth_comment (l : HanjaList) (n : Nat) : Option (List Nat) :=
  l[n]?.map Hanja.comment

/-! ## Host commands -/

inductive IBusPreeditFocusMode where
  | IBUS_ENGINE_PREEDIT_CLEAR
  | IBUS_ENGINE_PREEDIT_COMMIT
  deriving DecidableEq, Repr

inductive IBusAttrType where
  | IBUS_ATTR_TYPE_UNDERLINE
  | IBUS_ATTR_TYPE_FOREGROUND
  | IBUS_ATTR_TYPE_BACKGROUND
  deriving DecidableEq, Repr

/-- One styled range of a preedit text, as given to `ibus_text_append_attribute`. -/
structure IBusAttribute where
  type : IBusAttrType
  value : Nat
  start_index : Int
  end_index : Int
  deriving DecidableEq, Repr

/-- The calls the engine makes on the host, in the order issued. -/
inductive Cmd where
  | delete_surrounding_text (offset : Int) (nchars : Int)
  | commit_text (text : List Nat)
  | update_preedit_text (text : List Nat) (attrs : List IBusAttribute)
      (cursor_pos : Nat) (visible : Bool) (mode : IBusPreeditFocusMode)
  | forward_key_event (keyval keycode modifiers : Nat)
  | update_lookup_table (candidates : List (List Nat)) (cursor_pos : Nat) (visible : Bool)
  | update_auxiliary_text (text : List Nat) (visible : Bool)
  | hide_lookup_table
  | hide_auxiliary_text
  | update_property_input_mode (input_mode : Int) (checked : Bool)
  deriving DecidableEq, Repr

/-- What `ibus_engine_get_surrounding_text` hands back: the text (`none` when
`ibus_text_get_text` is NULL), the caret offset and the selection anchor. -/
structure SurroundingText where
  text : Option (List Nat)
  cursor_pos : Nat
  anchor_pos : Nat
  deriving DecidableEq, Repr

/-! ## Lookup table (ibus) -/

/-- The fields of `IBusLookupTable` the engine touches, with the "visible"
datum the engine attaches to it. -/
structure IBusLookupTable where
  page_size : Nat
  cursor_pos : Nat
  candidates : List (List Nat)
  visible : Bool
  deriving DecidableEq, Repr

def lookup_table_set_visible (t : IBusLookupTable) (flag : Bool) : IBusLookupTable :=
  { t with visible := flag }

def lookup_table_is_visible (t : IBusLookupTable) : Bool := t.visible

def ibus_lookup_table_get_cursor_pos (t : IBusLookupTable) : Nat := t.cursor_pos

def ibus_lookup_table_get_page_size (t : IBusLookupTable) : Nat := t.page_size

def ibus_lookup_table_set_cursor_pos (t : IBusLookupTable) (pos : Nat) : IBusLookupTable :=
  { t with cursor_pos := pos }

/-- Behaviour of ibus: drop all candidates and put the cursor back at 0. -/
def ibus_lookup_table_clear (t : IBusLookupTable) : IBusLookupTable :=
  { t with candidates := [], cursor_pos := 0 }

def ibus_lookup_table_append_candidate (t : IBusLookupTable) (c : List Nat) : IBusLookupTable :=
  { t with candidates := t.candidates ++ [c] }

/-- Behaviour of ibus for a table created with `round = FALSE`. -/
def ibus_lookup_table_cursor_up (t : IBusLookupTable) : IBusLookupTable :=
  if t.cursor_pos = 0 then t else { t with cursor_pos := t.cursor_pos - 1 }

/-- Behaviour of ibus for a table created with `round = FALSE`. -/
def ibus_lookup_table_cursor_down (t : IBusLookupTable) : IBusLookupTable :=
  if t.cursor_pos + 1 ≥ t.candidates.length then t else { t with cursor_pos := t.cursor_pos + 1 }

/-- Behaviour of ibus for a table created with `round = FALSE`. -/
def ibus_lookup_table_page_up (t : IBusLookupTable) : IBusLookupTable :=
  if t.cursor_pos < t.page_size then t else { t with cursor_pos := t.cursor_pos - t.page_size }

/-- Behaviour of ibus for a table created with `round = FALSE`. -/
def ibus_lookup_table_page_down (t : IBusLookupTable) : IBusLookupTable :=
  let ncandidates := t.candidates.length
  let page := t.cursor_pos / t.page_size
  let pos_in_page := t.cursor_pos % t.page_size
  let page_count := (ncandidates + t.page_size - 1) / t.page_size
  if page + 1 ≥ page_count then t
  else { t with cursor_pos := min ((page + 1) * t.page_size + pos_in_page) (ncandidates - 1) }

/-! ## Hotkey lists -/

structure KeyEvent where
  keyval : Nat
  modifiers : Nat
  deriving DecidableEq, Repr

structure HotkeyList where
  all_modifiers : Nat
  keys : List KeyEvent
  deriving DecidableEq, Repr

def key_event_list_append (list : List KeyEvent) (keyval modifiers : Nat) : List KeyEvent :=
  list ++ [{ keyval := keyval, modifiers := modifiers }]

def key_event_list_match (list : List KeyEvent) (keyval modifiers : Nat) : Bool :=
  let mask := IBUS_SHIFT_MASK ||| IBUS_CONTROL_MASK ||| IBUS_MOD1_MASK |||
    IBUS_MOD3_MASK ||| IBUS_MOD4_MASK ||| IBUS_MOD5_MASK
  let modifiers := modifiers &&& mask
  list.any (fun ev => ev.keyval == keyval && ev.modifiers == modifiers)

def hotkey_list_init : HotkeyList := { all_modifiers := 0, keys := [] }

def hotkey_list_append (list : HotkeyList) (keyval modifiers : Nat) : HotkeyList :=
  { all_modifiers := list.all_modifiers ||| modifiers,
    keys := key_event_list_append list.keys keyval modifiers }

def hotkey_list_match (list : HotkeyList) (keyval modifiers : Nat) : Bool :=
  key_event_list_match list.keys keyval modifiers

def hotkey_list_has_modifier (list : HotkeyList) (keyval : Nat) : Bool :=
  if list.all_modifiers &&& IBUS_CONTROL_MASK ≠ 0 ∧
      (keyval = IBUS_Control_L ∨ keyval = IBUS_Control_R) then true
  else if list.all_modifiers &&& IBUS_MOD1_MASK ≠ 0 ∧
      (keyval = IBUS_Alt_L ∨ keyval = IBUS_Alt_R) then true
  else if list.all_modifiers &&& IBUS_SUPER_MASK ≠ 0 ∧
      (keyval = IBUS_Super_L ∨ keyval = IBUS_Super_R) then true
  else if list.all_modifiers &&& IBUS_HYPER_MASK ≠ 0 ∧
      (keyval = IBUS_Hyper_L ∨ keyval = IBUS_Hyper_R) then true
  else if list.all_modifiers &&& IBUS_META_MASK ≠ 0 ∧
      (keyval = IBUS_Meta_L ∨ keyval = IBUS_Meta_R) then true
  else false

/-! ## UTF-8 strings (glib) -/

/-- The UTF-8 bytes of one codepoint, as `g_ucs4_to_utf8` writes them. -/
def utf8_encode_char (c : Nat) : List Nat :=
  if c < 0x80 then [c]
  else if c < 0x800 then [0xC0 + c / 64, 0x80 + c % 64]
  else if c < 0x10000 then [0xE0 + c / 4096, 0x80 + c / 64 % 64, 0x80 + c % 64]
  else [0xF0 + c / 262144, 0x80 + c / 4096 % 64, 0x80 + c / 64 % 64, 0x80 + c % 64]

/-- The UTF-8 bytes of a codepoint sequence (`ustring_to_utf8`, and the bytes
the host text occupies). -/
def ustring_to_utf8 : List Nat → List Nat
  | [] => []
  | c :: cs => utf8_encode_char c ++ ustring_to_utf8 cs

/-- Whether `strncmp (a, b, n)` is 0, on byte strings without an inner NUL:
the first `n` bytes agree, a string that ends earlier agreeing only with one
that ends at the same place. -/
def strncmp_eq (a b : List Nat) (n : Nat) : Bool := a.take n == b.take n

/-- C `isupper` on a key value (C locale). -/
def isupper (c : Nat) : Bool := decide (0x41 ≤ c ∧ c ≤ 0x5a)

/-- C `tolower` on a key value (C locale). -/
def tolower (c : Nat) : Nat := if 0x41 ≤ c ∧ c ≤ 0x5a then c + 32 else c

/-- C `toupper` on a key value (C locale). -/
def toupper (c : Nat) : Nat := if 0x61 ≤ c ∧ c ≤ 0x7a then c - 32 else c

/-! ## Engine state, process-wide settings, per-event environment -/

/-- The members of `struct _IBusHangulEngine` that carry state. -/
structure IBusHangulEngine (σ : Type) where
  context : σ
  preedit : UString
  preedit_mode : IBusHangulPreeditMode
  input_mode : Int
  input_purpose : Nat
  hanja_mode : Bool
  hanja_list : Option HanjaList
  last_lookup_method : LookupMethod
  caps : Nat
  table : IBusLookupTable
  deriving DecidableEq

/-- The process-wide static variables of engine.c. -/
structure Config where
  hanja_table : Option HanjaTable
  symbol_table : Option HanjaTable
  hanja_keys : HotkeyList
  switch_keys : HotkeyList
  on_keys : HotkeyList
  off_keys : HotkeyList
  lookup_table_orientation : Int
  keymap : Option (Nat → Nat → Nat)
  word_commit : Bool
  auto_reorder : Bool
  disable_latin_mode : Bool
  initial_input_mode : Int
  use_event_forwarding : Bool
  use_client_commit : Bool
  global_preedit_mode : IBusHangulPreeditMode

/-- What the surroundings answer during one key event: the surrounding text
read by the caret check, the surrounding text read by the candidate lookup,
and the verdict of the parent class (`IBusEngineSimple`) when the key is handed
to the plain pass-through behaviour. -/
structure Env where
  surrounding_text_check : SurroundingText
  surrounding_text_lookup : SurroundingText
  parent_process_key_event : Bool

/-- Result of handling one key: the new engine state, the host calls issued and
the value returned to the host (TRUE = consumed). -/
structure Outcome (σ : Type) where
  engine : IBusHangulEngine σ
  cmds : List Cmd
  retval : Bool

section Engine

variable {σ : Type} (ic : Composer σ)

/-- Reset of composer and PendingBuffer (`hangul_ic_reset` followed by
`ustring_clear`), a pair of statements several functions share. -/
def reset_context_and_preedit (h : IBusHangulEngine σ) : IBusHangulEngine σ :=
  { h with context := ic.hangul_ic_reset h.context, preedit := [] }

/-- The caret check.  `none` is the out-of-bounds run of the code when
`cursor_pos - 1` lies past the end of the text: there is no bound test before
`g_utf8_offset_to_pointer (text, cursor_pos - 1)` (engine.c 762), which then
walks over the terminating NUL, and `strncmp` reads from there.  An offset equal
to the length of the text points at the NUL, so the comparison is with the empty
text. -/
def ibus_hangul_engine_check_caret_pos_sanity (st : SurroundingText)
    (h : IBusHangulEngine σ) : Option (IBusHangulEngine σ) :=
  let preedit_len := ustring_length h.preedit
  if preedit_len = 0 then some h
  else
    match st.text with
    | none => some h
    | some text =>
      if st.cursor_pos = 0 then some h
      else if st.cursor_pos - 1 > text.length then none
      else
        let text_on_cursor := ustring_to_utf8 (text.drop (st.cursor_pos - 1))
        let preedit_utf8 := ustring_to_utf8 h.preedit
        let n := preedit_utf8.length
        if strncmp_eq preedit_utf8 text_on_cursor n = false then
          some (reset_context_and_preedit ic h)
        else some h

def ibus_hangul_engine_update_preedit_mode (cfg : Config)
    (h : IBusHangulEngine σ) : IBusHangulEngine σ :=
  if cfg.global_preedit_mode = PREEDIT_MODE_NONE ∧ h.caps &&& IBUS_CAP_SURROUNDING_TEXT = 0 then
    { h with preedit_mode := PREEDIT_MODE_SYLLABLE }
  else { h with preedit_mode := cfg.global_preedit_mode }

/-- The call `ibus_engine_update_preedit_text (engine, "", 0, FALSE)`; ibus sends
it with focus mode CLEAR. -/
def ibus_hangul_engine_clear_preedit_text : List Cmd :=
  [Cmd.update_preedit_text [] [] 0 false IBusPreeditFocusMode.IBUS_ENGINE_PREEDIT_CLEAR]

def ibus_hangul_engine_update_preedit_text (h : IBusHangulEngine σ) : List Cmd :=
  if h.preedit_mode = PREEDIT_MODE_NONE then []
  else
    let hic_preedit := ic.hangul_ic_get_preedit_string h.context
    let preedit_len := ustring_length h.preedit
    let preedit := ustring_append_ucs4 h.preedit hic_preedit
    if ustring_length preedit > 0 then
      let preedit_option :=
        if h.hanja_list ≠ none then IBusPreeditFocusMode.IBUS_ENGINE_PREEDIT_CLEAR
        else IBusPreeditFocusMode.IBUS_ENGINE_PREEDIT_COMMIT
      [Cmd.update_preedit_text preedit
        [{ type := IBusAttrType.IBUS_ATTR_TYPE_UNDERLINE, value := 1,
           start_index := 0, end_index := preedit_len },
         { type := IBusAttrType.IBUS_ATTR_TYPE_FOREGROUND, value := 0x00ffffff,
           start_index := preedit_len, end_index := -1 },
         { type := IBusAttrType.IBUS_ATTR_TYPE_BACKGROUND, value := 0x00000000,
           start_index := preedit_len, end_index := -1 }]
        (ustring_length preedit) true preedit_option]
    else
      [Cmd.update_preedit_text [] [] 0 false IBusPreeditFocusMode.IBUS_ENGINE_PREEDIT_CLEAR]

def ibus_hangul_engine_process_commit_and_edit (h : IBusHangulEngine σ) :
    IBusHangulEngine σ × List Cmd :=
  let hic_commit_text := ic.hangul_ic_get_commit_string h.context
  let hic_preedit_text := ic.hangul_ic_get_preedit_string h.context
  let commit_text := ustring_append_ucs4 (ustring_append_ucs4 [] hic_commit_text) hic_preedit_text
  let cmds :=
    if ustring_compare commit_text h.preedit ≠ 0 then
      let preedit_text_len := ustring_length h.preedit
      [Cmd.delete_surrounding_text (-(preedit_text_len : Int)) preedit_text_len,
       Cmd.commit_text commit_text]
    else []
  ({ h with preedit := ustring_append_ucs4 [] hic_preedit_text }, cmds)

def ibus_hangul_engine_process_edit_and_commit (h : IBusHangulEngine σ) :
    IBusHangulEngine σ × List Cmd :=
  let hic_commit_text := ic.hangul_ic_get_commit_string h.context
  let hic_preedit_text := ic.hangul_ic_get_preedit_string h.context
  let r : IBusHangulEngine σ × List Cmd :=
    if h.preedit_mode = PREEDIT_MODE_WORD ∨ h.hanja_mode = true then
      let h1 := { h with preedit := ustring_append_ucs4 h.preedit hic_commit_text }
      if hic_preedit_text = [] then
        if ustring_length h1.preedit > 0 then
          ({ h1 with preedit := [] },
            ibus_hangul_engine_clear_preedit_text ++ [Cmd.commit_text h1.preedit])
        else (h1, [])
      else (h1, [])
    else
      if hic_commit_text ≠ [] then
        (h, ibus_hangul_engine_clear_preedit_text ++ [Cmd.commit_text hic_commit_text])
      else (h, [])
  (r.1, r.2 ++ ibus_hangul_engine_update_preedit_text ic r.1)

/-- The body of `ibus_hangul_engine_commit_current_candidate` once the
candidate at the cursor has been read: `key` and `value` are its key and value
as codepoints (`key_len = g_utf8_strlen (key, -1)`). -/
def commit_candidate (h : IBusHangulEngine σ) (key value : List Nat) :
    IBusHangulEngine σ × List Cmd :=
  let hic_preedit := ic.hangul_ic_get_preedit_string h.context
  let key_len : Int := key.length
  let preedit_len : Int := ustring_length h.preedit
  let hic_preedit_len : Int := hic_preedit.length
  let r : IBusHangulEngine σ × List Cmd :=
    if h.last_lookup_method = LOOKUP_METHOD_PREFIX then
      if preedit_len = 0 ∧ hic_preedit_len = 0 then
        -- remove surrounding_text
        (h, if key_len > 0 then [Cmd.delete_surrounding_text (-key_len) key_len] else [])
      else
        -- remove ibus preedit text
        let h1 :=
          if key_len > 0 then
            { h with preedit := ustring_erase h.preedit 0 (min key_len preedit_len).toNat }
          else h
        let key_len1 := if key_len > 0 then key_len - preedit_len else key_len
        -- remove hic preedit text
        let h2 :=
          if key_len1 > 0 then { h1 with context := ic.hangul_ic_reset h1.context } else h1
        (h2, [])
    else
      -- remove hic preedit text
      let h1 :=
        if hic_preedit_len > 0 then
          let hr := { h with context := ic.hangul_ic_reset h.context }
          if h.preedit_mode = PREEDIT_MODE_NONE then
            if preedit_len > hic_preedit_len then
              let pos := (preedit_len - hic_preedit_len).toNat
              { hr with preedit := ustring_erase hr.preedit pos hic_preedit_len.toNat }
            else { hr with preedit := [] }
          else hr
        else h
      let preedit_len1 : Int :=
        if hic_preedit_len > 0 ∧ h.preedit_mode = PREEDIT_MODE_NONE then
          ustring_length h1.preedit
        else preedit_len
      let key_len1 :=
        if hic_preedit_len > 0 ∧ h.preedit_mode ≠ PREEDIT_MODE_NONE then
          key_len - hic_preedit_len
        else key_len
      -- remove ibus preedit text
      let h2 :=
        if key_len1 > preedit_len1 then
          { h1 with preedit := ustring_erase h1.preedit 0 preedit_len1.toNat }
        else if key_len1 > 0 then
          { h1 with preedit := ustring_erase h1.preedit 0 key_len1.toNat }
        else h1
      let key_len2 :=
        if key_len1 > preedit_len1 then key_len1 - preedit_len1
        else if key_len1 > 0 then 0
        else key_len1
      -- remove surrounding_text
      (h2, if key_len2 > 0 then [Cmd.delete_surrounding_text (-key_len2) key_len2] else [])
  (r.1, r.2 ++ ibus_hangul_engine_clear_preedit_text ++ [Cmd.commit_text value] ++
    ibus_hangul_engine_update_preedit_text ic r.1)

/-- Candidate commit.  `none` is the abort of `ibus_text_new_from_string`
(`g_assert (str)`) when there is no candidate at the cursor, so that
`hanja_list_get_nth_value` gives NULL. -/
def ibus_hangul_engine_commit_current_candidate (h : IBusHangulEngine σ) :
    Option (IBusHangulEngine σ × List Cmd) :=
  let cursor_pos := ibus_lookup_table_get_cursor_pos h.table
  match h.hanja_list with
  | none => none
  | some list =>
    match hanja_list_get_nth_key list cursor_pos, hanja_list_get_nth_value list cursor_pos with
    | some key, some value => some (commit_candidate ic h key value)
    | _, _ => none

/-- Substring of the surrounding text between codepoint offsets `p1` and `p2`.
The result `some none` is the return value NULL.  The result `none` is the
out-of-bounds run of the code when `pos` exceeds `limit`: the clipped length
`n = limit - pos` is negative, `g_utf8_offset_to_pointer (text, pos)` walks past
the terminating NUL and `g_strndup` is given a negative length (engine.c
1054-1060).  For `pos` up to `limit` the pointers stay within one byte past the
NUL and `g_strndup` stops at the NUL, so the text is clipped at its end. -/
def h_ibus_text_get_substring (text : Option (List Nat)) (p1 p2 : Int) :
    Option (Option (List Nat)) :=
  match text with
  | none => some none
  | some t =>
    let limit : Int := (t.length : Int) + 1
    if limit = 0 then some none
    else
      let p1 := max 0 p1
      let p2 := max 0 p2
      let pos := min p1 p2
      let n : Int := ((p2 - p1).natAbs : Int)
      let n := if pos + n > limit then limit - pos else n
      if n < 0 then none
      else some (some ((t.drop pos.toNat).take n.toNat))

def ibus_hangul_engine_lookup_hanja_table (cfg : Config) (key : Option (List Nat))
    (method : LookupMethod) : Option HanjaList :=
  match key with
  | none => none
  | some k =>
    let query (t : Option HanjaTable) : Option HanjaList :=
      match t with
      | none => none
      | some tbl =>
        match method with
        | LOOKUP_METHOD_EXACT => tbl.hanja_table_match_exact k
        | LOOKUP_METHOD_PREFIX => tbl.hanja_table_match_prefix k
        | LOOKUP_METHOD_SUFFIX => tbl.hanja_table_match_suffix k
    let list := query cfg.symbol_table
    if list = none then query cfg.hanja_table else list

/-- The `(hanja_key, lookup_method)` pair that
`ibus_hangul_engine_update_hanja_list` derives before it queries the tables;
`none` when `h_ibus_text_get_substring` runs out of bounds. -/
def hanja_key_and_method (st : SurroundingText) (h : IBusHangulEngine σ) :
    Option (Option (List Nat) × LookupMethod) :=
  let hic_preedit := ic.hangul_ic_get_preedit_string h.context
  let preedit : Option UString :=
    if h.preedit_mode ≠ PREEDIT_MODE_NONE then
      some (ustring_append_ucs4 h.preedit hic_preedit)
    else none
  let from_surrounding : Option (Option (List Nat) × LookupMethod) :=
    if st.cursor_pos ≠ st.anchor_pos then
      (h_ibus_text_get_substring st.text st.cursor_pos st.anchor_pos).map
        (fun key => (key, LOOKUP_METHOD_EXACT))
    else
      (h_ibus_text_get_substring st.text ((st.cursor_pos : Int) - 32) st.cursor_pos).map
        (fun key => (key, LOOKUP_METHOD_SUFFIX))
  match preedit with
  | none => from_surrounding
  | some p =>
    if ustring_length p > 0 then
      if h.preedit_mode = PREEDIT_MODE_WORD ∨ h.hanja_mode = true then
        some (some p, LOOKUP_METHOD_PREFIX)
      else
        match h_ibus_text_get_substring st.text ((st.cursor_pos : Int) - 32) st.cursor_pos with
        | none => none
        | some (some substr) => some (some (substr ++ p), LOOKUP_METHOD_SUFFIX)
        | some none => some (some p, LOOKUP_METHOD_SUFFIX)
    else from_surrounding

/-- The function `ibus_hangul_engine_update_hanja_list`; `none` when the
lookup key could not be derived without running out of bounds. -/
def ibus_hangul_engine_update_hanja_list (cfg : Config) (env : Env)
    (h : IBusHangulEngine σ) : Option (IBusHangulEngine σ) :=
  let h0 := { h with hanja_list := none }
  match hanja_key_and_method ic env.surrounding_text_lookup h0 with
  | none => none
  | some km =>
    match km.1 with
    | some k =>
      some { h0 with hanja_list := ibus_hangul_engine_lookup_hanja_table cfg (some k) km.2,
                     last_lookup_method := km.2 }
    | none => some h0

/-- Refresh of auxiliary text and lookup table.  `none` is the abort of
`ibus_text_new_from_string` when there is no comment at the cursor. -/
def ibus_hangul_engine_update_lookup_table_ui (h : IBusHangulEngine σ) : Option (List Cmd) :=
  let cursor_pos := ibus_lookup_table_get_cursor_pos h.table
  match h.hanja_list with
  | none => none
  | some list =>
    match hanja_list_get_nth_comment list cursor_pos with
    | none => none
    | some comment =>
      some [Cmd.update_auxiliary_text comment true,
            Cmd.update_lookup_table h.table.candidates h.table.cursor_pos true]

def ibus_hangul_engine_apply_hanja_list (h : IBusHangulEngine σ) :
    Option (IBusHangulEngine σ × List Cmd) :=
  match h.hanja_list with
  | none => some (h, [])
  | some list =>
    let t1 := ibus_lookup_table_clear h.table
    let t2 := (list.map Hanja.value).foldl ibus_lookup_table_append_candidate t1
    let t3 := ibus_lookup_table_set_cursor_pos t2 0
    let h1 := { h with table := t3 }
    match ibus_hangul_engine_update_lookup_table_ui h1 with
    | none => none
    | some cmds => some ({ h1 with table := lookup_table_set_visible t3 true }, cmds)

def ibus_hangul_engine_hide_lookup_table (h : IBusHangulEngine σ) :
    IBusHangulEngine σ × List Cmd :=
  let is_visible := lookup_table_is_visible h.table
  let h1 := if is_visible then { h with table := lookup_table_set_visible h.table false } else h
  let cmds := if is_visible then [Cmd.hide_lookup_table, Cmd.hide_auxiliary_text] else []
  ({ h1 with hanja_list := none }, cmds)

def ibus_hangul_engine_update_lookup_table (cfg : Config) (env : Env)
    (h : IBusHangulEngine σ) : Option (IBusHangulEngine σ × List Cmd) :=
  match ibus_hangul_engine_update_hanja_list ic cfg env h with
  | none => none
  | some h1 =>
    if h1.hanja_list ≠ none then
      match ibus_hangul_engine_apply_hanja_list h1 with
      | none => none
      | some r => some (r.1, ibus_hangul_engine_update_preedit_text ic h1 ++ r.2)
    else some (ibus_hangul_engine_hide_lookup_table h1)

def ibus_hangul_engine_has_preedit (h : IBusHangulEngine σ) : Bool :=
  if ic.hangul_ic_get_preedit_string h.context ≠ [] then true
  else if ustring_length h.preedit > 0 then true
  else false

def ibus_hangul_engine_flush (h : IBusHangulEngine σ) : IBusHangulEngine σ × List Cmd :=
  let r0 := ibus_hangul_engine_hide_lookup_table h
  let f := ic.hangul_ic_flush r0.1.context
  let h1 := { r0.1 with context := f.1, preedit := ustring_append_ucs4 r0.1.preedit f.2 }
  let r2 : IBusHangulEngine σ × List Cmd :=
    if ustring_length h1.preedit ≠ 0 then
      ({ h1 with preedit := [] },
        ibus_hangul_engine_clear_preedit_text ++ [Cmd.commit_text h1.preedit])
    else (h1, [])
  (r2.1, r0.2 ++ r2.2 ++ ibus_hangul_engine_update_preedit_text ic r2.1)

/-- Focus-out handler; the parent class handler it ends with issues no host
call of its own. -/
def ibus_hangul_engine_focus_out (h : IBusHangulEngine σ) : IBusHangulEngine σ × List Cmd :=
  if h.hanja_list = none then (reset_context_and_preedit ic h, [])
  else (h, [Cmd.hide_lookup_table, Cmd.hide_auxiliary_text])

def ibus_hangul_engine_reset (cfg : Config) (h : IBusHangulEngine σ) :
    IBusHangulEngine σ × List Cmd :=
  let h1 := if h.preedit_mode = PREEDIT_MODE_NONE then reset_context_and_preedit ic h else h
  let h2 := if cfg.use_client_commit then reset_context_and_preedit ic h1 else h1
  ibus_hangul_engine_flush ic h2

def ibus_hangul_engine_set_input_mode (cfg : Config) (h : IBusHangulEngine σ)
    (input_mode : Int) : IBusHangulEngine σ × List Cmd :=
  let r := ibus_hangul_engine_flush ic h
  if cfg.disable_latin_mode then r
  else
    ({ r.1 with input_mode := input_mode },
      r.2 ++ [Cmd.update_property_input_mode input_mode (decide (input_mode = INPUT_MODE_HANGUL))])

def ibus_hangul_engine_switch_input_mode (cfg : Config) (h : IBusHangulEngine σ) :
    IBusHangulEngine σ × List Cmd :=
  let input_mode := h.input_mode + 1
  let input_mode := if input_mode ≥ INPUT_MODE_COUNT then INPUT_MODE_HANGUL else input_mode
  ibus_hangul_engine_set_input_mode ic cfg h input_mode

/-- The statements that follow a candidate selection (Return or a digit) in
`ibus_hangul_engine_process_candidate_key_event`: commit the candidate at the
cursor, then refresh or hide the lookup table; the event is consumed. -/
def candidate_commit_and_refresh (cfg : Config) (env : Env) (h : IBusHangulEngine σ) :
    Option (Outcome σ) :=
  match ibus_hangul_engine_commit_current_candidate ic h with
  | none => none
  | some r =>
    if r.1.hanja_mode = true ∧ ibus_hangul_engine_has_preedit ic r.1 = true then
      match ibus_hangul_engine_update_lookup_table ic cfg env r.1 with
      | none => none
      | some r2 => some { engine := r2.1, cmds := r.2 ++ r2.2, retval := true }
    else
      let r2 := ibus_hangul_engine_hide_lookup_table r.1
      some { engine := r2.1, cmds := r.2 ++ r2.2, retval := true }

/-- One cursor or page move of the lookup table followed by
`ibus_hangul_engine_update_lookup_table_ui`; the event is consumed. -/
def candidate_navigate (move : IBusLookupTable → IBusLookupTable) (h : IBusHangulEngine σ) :
    Option (Outcome σ) :=
  let h1 := { h with table := move h.table }
  match ibus_hangul_engine_update_lookup_table_ui h1 with
  | none => none
  | some cmds => some { engine := h1, cmds := cmds, retval := true }

/-- The move bound to an arrow key under the configured orientation
(0 = horizontal). -/
def candidate_arrow_move (cfg : Config) (keyval : Nat) :
    Option (IBusLookupTable → IBusLookupTable) :=
  if cfg.lookup_table_orientation = 0 then
    if keyval = IBUS_Left then some ibus_lookup_table_cursor_up
    else if keyval = IBUS_Right then some ibus_lookup_table_cursor_down
    else if keyval = IBUS_Up then some ibus_lookup_table_page_up
    else if keyval = IBUS_Down then some ibus_lookup_table_page_down
    else none
  else
    if keyval = IBUS_Left then some ibus_lookup_table_page_up
    else if keyval = IBUS_Right then some ibus_lookup_table_page_down
    else if keyval = IBUS_Up then some ibus_lookup_table_cursor_up
    else if keyval = IBUS_Down then some ibus_lookup_table_cursor_down
    else none

/-- The move bound to h/j/k/l under the configured orientation. -/
def candidate_vi_move (cfg : Config) (keyval : Nat) :
    Option (IBusLookupTable → IBusLookupTable) :=
  if cfg.lookup_table_orientation = 0 then
    if keyval = IBUS_h then some ibus_lookup_table_cursor_up
    else if keyval = IBUS_l then some ibus_lookup_table_cursor_down
    else if keyval = IBUS_k then some ibus_lookup_table_page_up
    else if keyval = IBUS_j then some ibus_lookup_table_page_down
    else none
  else
    if keyval = IBUS_h then some ibus_lookup_table_page_up
    else if keyval = IBUS_l then some ibus_lookup_table_page_down
    else if keyval = IBUS_k then some ibus_lookup_table_cursor_up
    else if keyval = IBUS_j then some ibus_lookup_table_cursor_down
    else none

/-- Candidate navigation.  `none` is an abort (no candidate at the cursor, or a
division by a zero page size). -/
def ibus_hangul_engine_process_candidate_key_event (cfg : Config) (env : Env)
    (h : IBusHangulEngine σ) (keyval _modifiers : Nat) : Option (Outcome σ) :=
  if keyval = IBUS_Escape then
    let r := ibus_hangul_engine_hide_lookup_table h
    some { engine := r.1, cmds := r.2 ++ ibus_hangul_engine_update_preedit_text ic r.1,
           retval := true }
  else if keyval = IBUS_Return then
    candidate_commit_and_refresh ic cfg env h
  else if keyval ≥ IBUS_1 ∧ keyval ≤ IBUS_9 then
    let page_size := ibus_lookup_table_get_page_size h.table
    let cursor_pos := ibus_lookup_table_get_cursor_pos h.table
    if page_size = 0 then none
    else
      let page_no := cursor_pos / page_size
      let cursor_pos := page_no * page_size + (keyval - IBUS_1)
      candidate_commit_and_refresh ic cfg env
        { h with table := ibus_lookup_table_set_cursor_pos h.table cursor_pos }
  else if keyval = IBUS_Page_Up then
    candidate_navigate ibus_lookup_table_page_up h
  else if keyval = IBUS_Page_Down then
    candidate_navigate ibus_lookup_table_page_down h
  else
    match candidate_arrow_move cfg keyval with
    | some move => candidate_navigate move h
    | none =>
      match (if h.hanja_mode = false then candidate_vi_move cfg keyval else none) with
      | some move => candidate_navigate move h
      | none => some { engine := h, cmds := [], retval := false }

/-- The end of `ibus_hangul_engine_process_key_event`: with event forwarding
the key is reported consumed and forwarded when `retval` is FALSE. -/
def process_key_event_return (cfg : Config) (h : IBusHangulEngine σ) (cmds : List Cmd)
    (retval : Bool) (keyval keycode modifiers : Nat) : Outcome σ :=
  if cfg.use_event_forwarding then
    { engine := h,
      cmds := cmds ++ (if retval = false then [Cmd.forward_key_event keyval keycode modifiers]
                       else []),
      retval := true }
  else { engine := h, cmds := cmds, retval := retval }

/-- The key value `ibus_hangul_engine_process_key_event` feeds to the composer
for a non-backspace key: the keymap lookup from the hardware code unless the
composer is in transliteration mode, then the caps-lock case swap
(`'A' = 0x41`, `'z' = 0x7a`). -/
def normalize_keyval (cfg : Config) (is_transliteration_mode : Bool)
    (keyval keycode modifiers : Nat) : Nat :=
  let keyval1 :=
    if is_transliteration_mode = false then
      match cfg.keymap with
      | some keymap => keymap keycode modifiers
      | none => keyval
    else keyval
  -- ignore capslock
  if modifiers &&& IBUS_LOCK_MASK ≠ 0 then
    if keyval1 ≥ 0x41 ∧ keyval1 ≤ 0x7a then
      if isupper keyval1 = true then tolower keyval1 else toupper keyval1
    else keyval1
  else keyval1

/-- The part of `ibus_hangul_engine_process_key_event` after the caret check:
backspace handling or composition of the key, then the return. -/
def process_key_event_edit (cfg : Config) (env : Env) (h : IBusHangulEngine σ)
    (keyval keycode modifiers : Nat) : Option (Outcome σ) :=
  if keyval = IBUS_BackSpace then
    let b := ic.hangul_ic_backspace h.context
    let h1 := { h with context := b.1 }
    let preedit_len := ustring_length h1.preedit
    let h2 :=
      if b.2 = false ∧ preedit_len > 0 then
        { h1 with preedit := ustring_erase h1.preedit (preedit_len - 1) 1 }
      else h1
    let retval := if b.2 = false ∧ preedit_len > 0 then true else b.2
    let r3 : IBusHangulEngine σ × List Cmd :=
      if h2.preedit_mode = PREEDIT_MODE_NONE then
        ibus_hangul_engine_process_commit_and_edit ic h2
      else (h2, ibus_hangul_engine_update_preedit_text ic h2)
    let r4 : Option (IBusHangulEngine σ × List Cmd) :=
      if r3.1.hanja_mode = true then
        if ibus_hangul_engine_has_preedit ic r3.1 = true then
          ibus_hangul_engine_update_lookup_table ic cfg env r3.1
        else some (ibus_hangul_engine_hide_lookup_table r3.1)
      else some (r3.1, [])
    match r4 with
    | none => none
    | some r =>
      some (process_key_event_return cfg r.1 (r3.2 ++ r.2) retval keyval keycode modifiers)
  else
    let is_transliteration_mode := ic.hangul_ic_is_transliteration h.context
    let keyval2 := normalize_keyval cfg is_transliteration_mode keyval keycode modifiers
    let p := ic.hangul_ic_process h.context keyval2
    let h1 := { h with context := p.1 }
    let retval := p.2
    let r3 : IBusHangulEngine σ × List Cmd :=
      if h1.preedit_mode = PREEDIT_MODE_NONE then
        ibus_hangul_engine_process_commit_and_edit ic h1
      else ibus_hangul_engine_process_edit_and_commit ic h1
    let r4 : Option (IBusHangulEngine σ × List Cmd) :=
      if r3.1.hanja_mode = true then ibus_hangul_engine_update_lookup_table ic cfg env r3.1
      else some (r3.1, [])
    match r4 with
    | none => none
    | some r =>
      let r5 : IBusHangulEngine σ × List Cmd :=
        if retval = false then ibus_hangul_engine_flush ic r.1 else (r.1, [])
      some (process_key_event_return cfg r5.1 (r3.2 ++ r.2 ++ r5.2) retval
        keyval2 keycode modifiers)

/-- Normal composition, step 7 of the dispatch: the caret check in preedit mode
None, then `process_key_event_edit`. -/
def process_key_event_compose (cfg : Config) (env : Env) (h : IBusHangulEngine σ)
    (keyval keycode modifiers : Nat) : Option (Outcome σ) :=
  let checked :=
    if h.preedit_mode = PREEDIT_MODE_NONE then
      ibus_hangul_engine_check_caret_pos_sanity ic env.surrounding_text_check h
    else some h
  match checked with
  | none => none
  | some h1 => process_key_event_edit ic cfg env h1 keyval keycode modifiers

/-- The part of `ibus_hangul_engine_process_key_event` from the hotkey checks
on (after candidate navigation). -/
def process_key_event_hotkeys (cfg : Config) (env : Env) (h : IBusHangulEngine σ)
    (keyval keycode modifiers : Nat) : Option (Outcome σ) :=
  if hotkey_list_has_modifier cfg.switch_keys keyval = true then
    some { engine := h, cmds := [], retval := false }
  else if hotkey_list_match cfg.switch_keys keyval modifiers = true then
    let r := ibus_hangul_engine_switch_input_mode ic cfg h
    some { engine := r.1, cmds := r.2, retval := true }
  else if hotkey_list_match cfg.on_keys keyval modifiers = true then
    let r := ibus_hangul_engine_set_input_mode ic cfg h INPUT_MODE_HANGUL
    some { engine := r.1, cmds := r.2, retval := false }
  else if h.input_mode = INPUT_MODE_LATIN then
    some { engine := h, cmds := [], retval := env.parent_process_key_event }
  else if hotkey_list_match cfg.off_keys keyval modifiers = true then
    let r := ibus_hangul_engine_set_input_mode ic cfg h INPUT_MODE_LATIN
    some { engine := r.1, cmds := r.2, retval := false }
  else if hotkey_list_has_modifier cfg.hanja_keys keyval = true then
    some { engine := h, cmds := [], retval := false }
  else if hotkey_list_match cfg.hanja_keys keyval modifiers = true then
    if h.hanja_list = none then
      match ibus_hangul_engine_update_lookup_table ic cfg env h with
      | none => none
      | some r => some { engine := r.1, cmds := r.2, retval := true }
    else
      let r := ibus_hangul_engine_hide_lookup_table h
      some { engine := r.1, cmds := r.2, retval := true }
  else
    let mask := IBUS_CONTROL_MASK ||| IBUS_MOD1_MASK ||| IBUS_MOD3_MASK |||
      IBUS_MOD4_MASK ||| IBUS_MOD5_MASK
    if modifiers &&& mask ≠ 0 then
      let r := ibus_hangul_engine_flush ic h
      some { engine := r.1, cmds := r.2, retval := false }
    else process_key_event_compose ic cfg env h keyval keycode modifiers

/-- The key-event handler.  `none` is an abort inside candidate handling or an
out-of-bounds run of the caret check or of the candidate lookup; the
pass-through to the parent class is its verdict `env.parent_process_key_event`. -/
def ibus_hangul_engine_process_key_event (cfg : Config) (env : Env) (h : IBusHangulEngine σ)
    (keyval keycode modifiers : Nat) : Option (Outcome σ) :=
  if modifiers &&& IBUS_RELEASE_MASK ≠ 0 then
    some { engine := h, cmds := [], retval := false }
  else if keyval = IBUS_Shift_L ∨ keyval = IBUS_Shift_R then
    some { engine := h, cmds := [], retval := false }
  else if h.input_purpose = IBUS_INPUT_PURPOSE_PASSWORD then
    some { engine := h, cmds := [], retval := env.parent_process_key_event }
  else if h.hanja_list ≠ none then
    match ibus_hangul_engine_process_candidate_key_event ic cfg env h keyval modifiers with
    | none => none
    | some r =>
      if h.hanja_mode = true then
        if r.retval = true then some { engine := r.engine, cmds := r.cmds, retval := true }
        else
          match process_key_event_hotkeys ic cfg env r.engine keyval keycode modifiers with
          | none => none
          | some r2 => some { engine := r2.engine, cmds := r.cmds ++ r2.cmds, retval := r2.retval }
      else some { engine := r.engine, cmds := r.cmds, retval := true }
  else process_key_event_hotkeys ic cfg env h keyval keycode modifiers

def ibus_hangul_engine_init (cfg : Config) (context : σ) : IBusHangulEngine σ :=
  { context := context,
    preedit := [],
    preedit_mode := cfg.global_preedit_mode,
    input_mode := if cfg.disable_latin_mode then INPUT_MODE_HANGUL else cfg.initial_input_mode,
    input_purpose := IBUS_INPUT_PURPOSE_FREE_FORM,
    hanja_mode := false,
    hanja_list := none,
    last_lookup_method := LOOKUP_METHOD_PREFIX,
    caps := 0,
    table := { page_size := 9, cursor_pos := 0, candidates := [], visible := false } }

end Engine

/-! ## Sequences of key events and the host text -/

/-- One key event together with what the surroundings answer during it. -/
structure KeyInput where
  env : Env
  keyval : Nat
  keycode : Nat
  modifiers : Nat

/-- Handle key events one after the other, collecting the host calls in order;
`none` when an event aborts. -/
def run_key_events {σ : Type} (ic : Composer σ) (cfg : Config) :
    IBusHangulEngine σ → List KeyInput → Option (IBusHangulEngine σ × List Cmd)
  | h, [] => some (h, [])
  | h, e :: es =>
    match ibus_hangul_engine_process_key_event ic cfg e.env h e.keyval e.keycode e.modifiers with
    | none => none
    | some r =>
      match run_key_events ic cfg r.engine es with
      | none => none
      | some r2 => some (r2.1, r.cmds ++ r2.2)

/-- A host that applies one engine call faithfully to the text before the
caret: `delete_surrounding_text (offset, nchars)` removes the part of the range
`[caret + offset, caret + offset + nchars)` that lies before the caret,
`commit_text` inserts at the caret; no other call changes the text. -/
def host_apply_cmd (before : List Nat) : Cmd → List Nat
  | Cmd.delete_surrounding_text offset nchars =>
      before.take ((before.length : Int) + offset).toNat ++
        before.drop ((before.length : Int) + min 0 (offset + nchars)).toNat
  | Cmd.commit_text text => before ++ text
  | _ => before

/-- The text before the caret after the host has applied the calls in order. -/
def host_apply (before : List Nat) (cmds : List Cmd) : List Nat :=
  cmds.foldl host_apply_cmd before

/-- What the engine assumes of the composer: a reset and a flush leave no live
preedit, and a backspace that reports failure leaves no live preedit. -/
def ComposerLaws {σ : Type} (ic : Composer σ) : Prop :=
  (∀ s, ic.hangul_ic_get_preedit_string (ic.hangul_ic_reset s) = []) ∧
  (∀ s, ic.hangul_ic_get_preedit_string (ic.hangul_ic_flush s).1 = []) ∧
  (∀ s, (ic.hangul_ic_backspace s).2 = false →
    ic.hangul_ic_get_preedit_string (ic.hangul_ic_backspace s).1 = [])

/-- A key-down that no dispatch stage before normal composition takes: not a
release, not a bare Shift, no hotkey list matches it or owns it as a bare
modifier, and it carries none of Control, Mod1, Mod3, Mod4, Mod5. -/
def composing_key (cfg : Config) (keyval modifiers : Nat) : Prop :=
  modifiers &&& IBUS_RELEASE_MASK = 0 ∧
  keyval ≠ IBUS_Shift_L ∧ keyval ≠ IBUS_Shift_R ∧
  hotkey_list_has_modifier cfg.switch_keys keyval = false ∧
  hotkey_list_match cfg.switch_keys keyval modifiers = false ∧
  hotkey_list_match cfg.on_keys keyval modifiers = false ∧
  hotkey_list_match cfg.off_keys keyval modifiers = false ∧
  hotkey_list_has_modifier cfg.hanja_keys keyval = false ∧
  hotkey_list_match cfg.hanja_keys keyval modifiers = false ∧
  modifiers &&& (IBUS_CONTROL_MASK ||| IBUS_MOD1_MASK ||| IBUS_MOD3_MASK |||
    IBUS_MOD4_MASK ||| IBUS_MOD5_MASK) = 0

instance (cfg : Config) (keyval modifiers : Nat) : Decidable (composing_key cfg keyval modifiers) := by
  unfold composing_key
  infer_instance

/-- What the composer alone produces for a sequence of keys: for each key the
commit-string it reports after `hangul_ic_process`, followed by its flush
output when it did not consume the key (the engine then flushes it). -/
def composer_output {σ : Type} (ic : Composer σ) (cfg : Config) : σ → List KeyInput → List Nat
  | _, [] => []
  | s, e :: es =>
    let key := normalize_keyval cfg (ic.hangul_ic_is_transliteration s)
      e.keyval e.keycode e.modifiers
    let p := ic.hangul_ic_process s key
    if p.2 = true then
      ic.hangul_ic_get_commit_string p.1 ++ composer_output ic cfg p.1 es
    else
      ic.hangul_ic_get_commit_string p.1 ++ (ic.hangul_ic_flush p.1).2 ++
        composer_output ic cfg (ic.hangul_ic_flush p.1).1 es

/-- The composer state after the same sequence of keys. -/
def composer_state {σ : Type} (ic : Composer σ) (cfg : Config) : σ → List KeyInput → σ
  | s, [] => s
  | s, e :: es =>
    let key := normalize_keyval cfg (ic.hangul_ic_is_transliteration s)
      e.keyval e.keycode e.modifiers
    let p := ic.hangul_ic_process s key
    if p.2 = true then composer_state ic cfg p.1 es
    else composer_state ic cfg (ic.hangul_ic_flush p.1).1 es

/-! ## Observations on the host calls of an operation -/

/-- The `(offset, nchars)` arguments of the `delete_surrounding_text` calls, in order. -/
def deletes : List Cmd → List (Int × Int)
  | [] => []
  | Cmd.delete_surrounding_text offset nchars :: cs => (offset, nchars) :: deletes cs
  | _ :: cs => deletes cs

/-- The texts of the `commit_text` calls, in order. -/
def commits : List Cmd → List (List Nat)
  | [] => []
  | Cmd.commit_text text :: cs => text :: commits cs
  | _ :: cs => commits cs

/-- The events of the `forward_key_event` calls, in order. -/
def forwards : List Cmd → List (Nat × Nat × Nat)
  | [] => []
  | Cmd.forward_key_event keyval keycode modifiers :: cs =>
      (keyval, keycode, modifiers) :: forwards cs
  | _ :: cs => forwards cs

/-! ## A small composer and settings for concrete runs -/

/-- State of the sample composer: its preedit string and its commit string. -/
structure SampleIC where
  preedit : List Nat
  commit : List Nat
  deriving DecidableEq, Repr

/-- A small stand-in for libhangul on which the engine can be run on concrete
keys: it knows the 2-set keys `r` (ㄱ, U+3131) and `k` (ㅏ, U+314F) and the
syllable 가 (U+AC00); every other key ends the syllable and is not consumed. -/
def sample_composer : Composer SampleIC :=
  { hangul_ic_process := fun s key =>
      if key = 0x72 then
        if s.preedit = [] then ({ preedit := [0x3131], commit := [] }, true)
        else ({ preedit := [0x3131], commit := s.preedit }, true)
      else if key = 0x6b then
        if s.preedit = [0x3131] then ({ preedit := [0xAC00], commit := [] }, true)
        else if s.preedit = [] then ({ preedit := [0x314F], commit := [] }, true)
        else ({ preedit := [0x314F], commit := s.preedit }, true)
      else ({ preedit := [], commit := s.preedit }, false),
    hangul_ic_backspace := fun s =>
      if s.preedit = [] then ({ preedit := [], commit := [] }, false)
      else if s.preedit = [0xAC00] then ({ preedit := [0x3131], commit := [] }, true)
      else ({ preedit := [], commit := [] }, true),
    hangul_ic_flush := fun s => ({ preedit := [], commit := [] }, s.preedit),
    hangul_ic_reset := fun _ => { preedit := [], commit := [] },
    hangul_ic_get_preedit_string := fun s => s.preedit,
    hangul_ic_get_commit_string := fun s => s.commit,
    hangul_ic_is_transliteration := fun _ => false,
    hangul_ic_has_jungseong := fun _ => false,
    hangul_ic_has_jongseong := fun _ => false }

/-- A sample dictionary: 가 (U+AC00) has the single hanja 可 (U+53EF) under
every match method. -/
def sample_table : HanjaTable :=
  let find (key : List Nat) : Option HanjaList :=
    if key = [0xAC00] then some [{ key := [0xAC00], value := [0x53EF], comment := [] }]
    else none
  { hanja_table_match_exact := find,
    hanja_table_match_prefix := find,
    hanja_table_match_suffix := find }

/-- Sample settings: the built-in switch and hanja keys, no keymap, event
forwarding on, sessions that start in Hangul mode. -/
def sample_config : Config :=
  { hanja_table := some sample_table,
    symbol_table := none,
    hanja_keys := hotkey_list_append (hotkey_list_append hotkey_list_init IBUS_Hangul_Hanja 0)
      IBUS_F9 0,
    switch_keys := hotkey_list_append (hotkey_list_append hotkey_list_init IBUS_Hangul 0)
      IBUS_space IBUS_SHIFT_MASK,
    on_keys := hotkey_list_init,
    off_keys := hotkey_list_init,
    lookup_table_orientation := 0,
    keymap := none,
    word_commit := false,
    auto_reorder := true,
    disable_latin_mode := false,
    initial_input_mode := INPUT_MODE_HANGUL,
    use_event_forwarding := true,
    use_client_commit := false,
    global_preedit_mode := PREEDIT_MODE_SYLLABLE }

/-- A host that has no surrounding text to report and whose parent handler
leaves keys unconsumed. -/
def sample_env : Env :=
  { surrounding_text_check := { text := some [], cursor_pos := 0, anchor_pos := 0 },
    surrounding_text_lookup := { text := some [], cursor_pos := 0, anchor_pos := 0 },
    parent_process_key_event := false }

/-- A fresh sample session in Hangul mode with the given preedit mode. -/
def sample_engine (mode : IBusHangulPreeditMode) : IBusHangulEngine SampleIC :=
  { ibus_hangul_engine_init sample_config { preedit := [], commit := [] } with
    preedit_mode := mode }


/-- A session in preedit mode None whose composer holds 가 and whose shadow
PendingBuffer holds the same 가 (already written into the host text), with the
candidate 可 for the key 가 found by a Suffix lookup. -/
def shadow_engine : IBusHangulEngine SampleIC :=
  { sample_engine PREEDIT_MODE_NONE with
    context := { preedit := [0xAC00], commit := [] },
    preedit := [0xAC00],
    hanja_list := some [{ key := [0xAC00], value := [0x53EF], comment := [] }],
    last_lookup_method := LOOKUP_METHOD_SUFFIX }

/-- A session in preedit mode Syllable whose composer holds 가, with the
candidate 可 for the key 가 found by a Suffix lookup. -/
def syllable_engine : IBusHangulEngine SampleIC :=
  { sample_engine PREEDIT_MODE_SYLLABLE with
    context := { preedit := [0xAC00], commit := [] },
    hanja_list := some [{ key := [0xAC00], value := [0x53EF], comment := [] }],
    last_lookup_method := LOOKUP_METHOD_SUFFIX }

/-- A session in preedit mode None that has composed 가: the composer holds 가
and the shadow PendingBuffer holds the 가 written into the host text. -/
def desync_engine : IBusHangulEngine SampleIC :=
  { sample_engine PREEDIT_MODE_NONE with
    context := { preedit := [0xAC00], commit := [] },
    preedit := [0xAC00] }

/-- A session in preedit mode Syllable that has composed 가 with the keys r, k:
the composer holds 가, nothing is committed, no CandidateSet is open. -/
def syllable_typed_engine : IBusHangulEngine SampleIC :=
  { sample_engine PREEDIT_MODE_SYLLABLE with
    context := { preedit := [0xAC00], commit := [] } }

/-- The surroundings of a host whose text before the caret is `before`, with
nothing selected. -/
def host_env (before : List Nat) : Env :=
  { surrounding_text_check :=
      { text := some before, cursor_pos := before.length, anchor_pos := before.length },
    surrounding_text_lookup :=
      { text := some before, cursor_pos := before.length, anchor_pos := before.length },
    parent_process_key_event := false }

/-- A key-down of `keyval` with `modifiers`, sent by a host whose text before
the caret is `before`. -/
def sample_key (before : List Nat) (keyval modifiers : Nat) : KeyInput :=
  { env := host_env before, keyval := keyval, keycode := 0, modifiers := modifiers }

/-! ## Sessions and invariants the theorems speak about -/

/-- The sessions of the no-loss property: preedit mode Word, Hangul mode, no
password field, hanja-lock off and no CandidateSet. -/
def WordComposing {σ : Type} (h : IBusHangulEngine σ) : Prop :=
  h.preedit_mode = PREEDIT_MODE_WORD ∧ h.hanja_mode = false ∧ h.hanja_list = none ∧
  h.input_purpose ≠ IBUS_INPUT_PURPOSE_PASSWORD ∧ h.input_mode ≠ INPUT_MODE_LATIN

/-- The shadow invariant of preedit mode None: PendingBuffer is a suffix of the
host text before the caret, it equals the composer's live preedit, and an open
CandidateSet was not found by a Prefix lookup. -/
def ShadowInvariant {σ : Type} (ic : Composer σ) (h : IBusHangulEngine σ)
    (host : List Nat) : Prop :=
  h.preedit_mode = PREEDIT_MODE_NONE ∧
  h.preedit <:+ host ∧
  h.preedit = ic.hangul_ic_get_preedit_string h.context ∧
  (h.hanja_list ≠ none → h.last_lookup_method ≠ LOOKUP_METHOD_PREFIX)

/-! ## Character accounting of a candidate commit -/

/-- Codepoints an operation erased from PendingBuffer: its length before minus
its length after. -/
def erased_from_pending {σ : Type} (h r : IBusHangulEngine σ) : Int :=
  (ustring_length h.preedit : Int) - (ustring_length r.preedit : Int)

/-- Codepoints of live composer preedit an operation removed: the length of the
composer's preedit before minus its length after. -/
def live_preedit_removed {σ : Type} (ic : Composer σ) (h r : IBusHangulEngine σ) : Int :=
  ((ic.hangul_ic_get_preedit_string h.context).length : Int) -
    ((ic.hangul_ic_get_preedit_string r.context).length : Int)

/-- Codepoints of host surrounding text whose deletion was requested. -/
def delete_requested (cmds : List Cmd) : Int := ((deletes cmds).map Prod.snd).sum

/-! ## Predicates and sessions of the key pipeline -/

/-- The keys `ibus_hangul_engine_process_candidate_key_event` has a branch for,
under the configured orientation and the session's hanja-lock flag. -/
def candidate_key_recognised (cfg : Config) (hanja_mode : Bool) (keyval : Nat) : Bool :=
  decide (keyval = IBUS_Escape) || decide (keyval = IBUS_Return) ||
  decide (keyval ≥ IBUS_1 ∧ keyval ≤ IBUS_9) ||
  decide (keyval = IBUS_Page_Up) || decide (keyval = IBUS_Page_Down) ||
  (candidate_arrow_move cfg keyval).isSome ||
  (!hanja_mode && (candidate_vi_move cfg keyval).isSome)

/-- What the engine relies on from libhangul's tables: a match list is either
NULL or holds at least one entry. -/
def DictionaryLaws (cfg : Config) : Prop :=
  ∀ key method, ibus_hangul_engine_lookup_hanja_table cfg key method ≠ some []

/-- The session normal composition works on: in preedit mode None the caret
check has run first (engine.c 1471-1473); `none` when that check runs out of
bounds. -/
def composition_entry {σ : Type} (ic : Composer σ) (env : Env) (h : IBusHangulEngine σ) :
    Option (IBusHangulEngine σ) :=
  if h.preedit_mode = PREEDIT_MODE_NONE then
    ibus_hangul_engine_check_caret_pos_sanity ic env.surrounding_text_check h
  else some h

/-- A surrounding text as a host is meant to report it: caret and selection
anchor lie within the text. -/
def surrounding_text_valid (st : SurroundingText) : Prop :=
  match st.text with
  | none => True
  | some text => st.cursor_pos ≤ text.length ∧ st.anchor_pos ≤ text.length

instance (st : SurroundingText) : Decidable (surrounding_text_valid st) := by
  unfold surrounding_text_valid
  cases st.text <;> infer_instance

/-- The value of the local `retval` of `ibus_hangul_engine_process_key_event`
when normal composition reaches the forwarding test (engine.c 1581): for
BackSpace the composer's verdict or the PendingBuffer erase, for every other key
the verdict of `hangul_ic_process` on the normalised key value. -/
def composition_verdict {σ : Type} (ic : Composer σ) (cfg : Config) (h : IBusHangulEngine σ)
    (keyval keycode modifiers : Nat) : Bool :=
  if keyval = IBUS_BackSpace then
    (ic.hangul_ic_backspace h.context).2 || decide (ustring_length h.preedit > 0)
  else
    (ic.hangul_ic_process h.context
      (normalize_keyval cfg (ic.hangul_ic_is_transliteration h.context)
        keyval keycode modifiers)).2

/-- The sample settings with the Latin mode disabled. -/
def disable_latin_config : Config :=
  { sample_config with disable_latin_mode := true }

/-- The sample settings with event forwarding turned off. -/
def direct_config : Config :=
  { sample_config with use_event_forwarding := false }

/-- A fragment of the "us" keymap: the key with code 2 is the digit 1, the key
with code 19 is the letter r. -/
def us_keymap (keycode _modifiers : Nat) : Nat :=
  if keycode = 2 then 0x31 else if keycode = 19 then 0x72 else 0

/-- The sample settings with the "us" keymap loaded. -/
def keymap_config : Config :=
  { sample_config with keymap := some us_keymap }

/-- Eighteen candidates with the values U+4E00 .. U+4E11. -/
def digit_candidates : HanjaList :=
  (List.range 18).map (fun i => { key := [0xAC00], value := [0x4E00 + i], comment := [] })

/-- A session in preedit mode Syllable whose composer holds 가, with eighteen
candidates shown nine to a page and the cursor at index 12 (page 1). -/
def digit_engine : IBusHangulEngine SampleIC :=
  { sample_engine PREEDIT_MODE_SYLLABLE with
    context := { preedit := [0xAC00], commit := [] },
    hanja_list := some digit_candidates,
    last_lookup_method := LOOKUP_METHOD_SUFFIX,
    table := { page_size := 9, cursor_pos := 12,
               candidates := digit_candidates.map Hanja.value, visible := true } }

/-- A fresh sample session whose focused field is a password field. -/
def password_engine : IBusHangulEngine SampleIC :=
  { sample_engine PREEDIT_MODE_SYLLABLE with input_purpose := IBUS_INPUT_PURPOSE_PASSWORD }

/-- A session in preedit mode Syllable with three pending codepoints and an
empty composer. -/
def pending_engine : IBusHangulEngine SampleIC :=
  { sample_engine PREEDIT_MODE_SYLLABLE with preedit := [0xAC00, 0xB098, 0xB2E4] }

/-! ## Hotkey strings, the transition callback and start-up -/

/-- The pieces of a string between the occurrences of a delimiter. -/
def split_at_delimiter (delimiter : Char) : List Char → List (List Char)
  | [] => [[]]
  | c :: cs =>
    if c = delimiter then [] :: split_at_delimiter delimiter cs
    else
      match split_at_delimiter delimiter cs with
      | [] => [[c]]
      | p :: ps => (c :: p) :: ps

/-- Behaviour of glib's `g_strsplit` for a one-character delimiter: the empty
string gives no piece at all; with `max_tokens` at least 1 the last piece holds
the rest of the string. -/
def g_strsplit (string : List Char) (delimiter : Char) (max_tokens : Nat) : List (List Char) :=
  if string = [] then []
  else
    let pieces := split_at_delimiter delimiter string
    if max_tokens < 1 ∨ pieces.length ≤ max_tokens then pieces
    else
      pieces.take (max_tokens - 1) ++
        [List.intercalate [delimiter] (pieces.drop (max_tokens - 1))]

/-- The function `hotkey_list_append_from_string`; `ibus_key_event_from_string`
is ibus's parser, `none` standing for its result FALSE. -/
def hotkey_list_append_from_string (ibus_key_event_from_string : List Char → Option (Nat × Nat))
    (list : HotkeyList) (str : List Char) : HotkeyList :=
  match ibus_key_event_from_string str with
  | some (keyval, modifiers) => hotkey_list_append list keyval modifiers
  | none => list

def hotkey_list_set_from_string (ibus_key_event_from_string : List Char → Option (Nat × Nat))
    (list : HotkeyList) (str : List Char) : HotkeyList :=
  let items := g_strsplit str ',' 0
  let list0 : HotkeyList := { list with all_modifiers := 0, keys := [] }
  items.foldl (hotkey_list_append_from_string ibus_key_event_from_string) list0

/-- The transition callback given to libhangul; `hangul_is_choseong` and
`hangul_is_jungseong` are libhangul's tests on the incoming jamo. -/
def ibus_hangul_engine_on_transition {σ : Type} (ic : Composer σ) (cfg : Config)
    (hangul_is_choseong hangul_is_jungseong : Nat → Bool) (hic : σ) (c : Nat) : Bool :=
  if cfg.auto_reorder = false then
    if hangul_is_choseong c = true ∧
        (ic.hangul_ic_has_jungseong hic = true ∨ ic.hangul_ic_has_jongseong hic = true) then
      false
    else if hangul_is_jungseong c = true ∧ ic.hangul_ic_has_jongseong hic = true then false
    else true
  else true

/-- How a start-up routine ends: it returns to its caller, or it ends the
process with `exit (status)`. -/
inductive Completion (α : Type) where
  | returned (value : α)
  | exited (status : Int)

/-- The function `check_ibus_version`.  `standard_output` is what
`g_spawn_command_line_sync ("ibus version", ...)` captured (`none` when the
command could not be run), `ibus_version` the compiled-in triple. -/
def check_ibus_version (standard_output : Option (List Char))
    (g_ascii_strtoll : List Char → Int) (_ibus_version : Int × Int × Int) :
    Completion (Int × Int × Int) :=
  match standard_output with
  | none => Completion.exited (-1)
  | some output =>
    -- strpbrk (standard_output, " \t")
    let version_str := output.dropWhile (fun c => !(c == ' ' || c == '\t'))
    if version_str = [] then Completion.exited (-1)
    else
      let version_str := version_str.dropWhile (fun c => c == ' ' || c == '\t')
      let version_str_array := (g_strsplit version_str '.' 3).map g_ascii_strtoll
      let version : Int × Int × Int :=
        (version_str_array.getD 0 0, version_str_array.getD 1 0, version_str_array.getD 2 0)
      if version.1 = 0 ∧ version.2.1 = 0 ∧ version.2.2 = 0 then Completion.exited (-1)
      else Completion.exited 0

def ibus_hangul_check_ibus_version (ibus_version : Int × Int × Int)
    (required_major required_minor required_micro : Int) : Bool :=
  let major := ibus_version.1
  let minor := ibus_version.2.1
  let micro := ibus_version.2.2
  decide (major > required_major ∨
    (major = required_major ∧ minor > required_minor) ∨
    (major = required_major ∧ minor = required_minor ∧ micro ≥ required_micro))

def check_client_commit (ibus_version : Int × Int × Int) : Bool :=
  ibus_hangul_check_ibus_version ibus_version 1 5 20

/-- The values `g_settings_get_value` gives for the keys `ibus_hangul_init`
reads; `none` is a NULL value. -/
structure Settings where
  switch_keys : Option (List Char)
  hanja_keys : Option (List Char)
  on_keys : Option (List Char)
  off_keys : Option (List Char)
  word_commit : Option Bool
  auto_reorder : Option Bool
  disable_latin_mode : Option Bool
  initial_input_mode : Option (List Char)
  use_event_forwarding : Option Bool
  preedit_mode : Option (List Char)
  lookup_table_orientation : Option Int

/-- What `ibus_hangul_init` finds around it: the two dictionaries, the output
of the version command, the stored settings, ibus's hotkey parser and keymap,
and the compiled-in version triple. -/
structure InitEnv where
  hanja_table : Option HanjaTable
  symbol_table : Option HanjaTable
  standard_output : Option (List Char)
  g_ascii_strtoll : List Char → Int
  settings : Settings
  ibus_key_event_from_string : List Char → Option (Nat × Nat)
  keymap : Option (Nat → Nat → Nat)
  ibus_version : Int × Int × Int

/-- The statements of `ibus_hangul_init` that follow the call of
`check_ibus_version`, for the version triple that call leaves behind. -/
def ibus_hangul_init_settings (e : InitEnv) (ibus_version : Int × Int × Int) : Config :=
  let parse := e.ibus_key_event_from_string
  { hanja_table := e.hanja_table,
    symbol_table := e.symbol_table,
    switch_keys :=
      match e.settings.switch_keys with
      | some str => hotkey_list_set_from_string parse hotkey_list_init str
      | none =>
        hotkey_list_append (hotkey_list_append hotkey_list_init IBUS_Hangul 0)
          IBUS_space IBUS_SHIFT_MASK,
    hanja_keys :=
      match e.settings.hanja_keys with
      | some str => hotkey_list_set_from_string parse hotkey_list_init str
      | none => hotkey_list_append (hotkey_list_append hotkey_list_init IBUS_Hangul_Hanja 0) IBUS_F9 0,
    on_keys :=
      match e.settings.on_keys with
      | some str => hotkey_list_set_from_string parse hotkey_list_init str
      | none => hotkey_list_init,
    off_keys :=
      match e.settings.off_keys with
      | some str => hotkey_list_set_from_string parse hotkey_list_init str
      | none => hotkey_list_init,
    word_commit := e.settings.word_commit.getD false,
    auto_reorder := e.settings.auto_reorder.getD true,
    disable_latin_mode := e.settings.disable_latin_mode.getD false,
    initial_input_mode :=
      match e.settings.initial_input_mode with
      | some str =>
        if str = "latin".toList then INPUT_MODE_LATIN
        else if str = "hangul".toList then INPUT_MODE_HANGUL
        else INPUT_MODE_LATIN
      | none => INPUT_MODE_LATIN,
    use_event_forwarding := e.settings.use_event_forwarding.getD true,
    global_preedit_mode :=
      match e.settings.preedit_mode with
      | some str =>
        if str = "none".toList then PREEDIT_MODE_NONE
        else if str = "word".toList then PREEDIT_MODE_WORD
        else PREEDIT_MODE_SYLLABLE
      | none => PREEDIT_MODE_SYLLABLE,
    lookup_table_orientation := e.settings.lookup_table_orientation.getD 0,
    keymap := e.keymap,
    use_client_commit := check_client_commit ibus_version }

/-- The function `ibus_hangul_init`: load the dictionaries, call
`check_ibus_version`, then read the settings. -/
def ibus_hangul_init (e : InitEnv) : Completion Config :=
  match check_ibus_version e.standard_output e.g_ascii_strtoll e.ibus_version with
  | Completion.exited status => Completion.exited status
  | Completion.returned ibus_version => Completion.returned (ibus_hangul_init_settings e ibus_version)

/-- The step "ignore capslock" of the normal-key branch (engine.c 1513-1521),
on the key value it finds. -/
def caps_lock_swap (modifiers keyval : Nat) : Nat :=
  if modifiers &&& IBUS_LOCK_MASK ≠ 0 then
    if keyval ≥ 0x41 ∧ keyval ≤ 0x7a then
      if isupper keyval = true then tolower keyval else toupper keyval
    else keyval
  else keyval

/-! ## The preedit shown by the host -/

/-- The preedit a host shows: the arguments of the last preedit update it got
(text, styled ranges, caret, visibility). -/
structure PreeditDisplay where
  text : List Nat
  attrs : List IBusAttribute
  cursor_pos : Nat
  visible : Bool
  deriving DecidableEq, Repr

/-- The preedit on the host after the calls `cmds`, when it showed `shown`
before them. -/
def host_preedit (shown : PreeditDisplay) : List Cmd → PreeditDisplay
  | [] => shown
  | Cmd.update_preedit_text text attrs cursor_pos visible _ :: cs =>
      host_preedit { text := text, attrs := attrs, cursor_pos := cursor_pos, visible := visible } cs
  | _ :: cs => host_preedit shown cs

/-- The logical preedit of a session as the specification words it:
PendingBuffer followed by the composer's preedit-string, hidden when that text
is empty, underlined over the first `len (PendingBuffer)` codepoints and in
inverted colours from there on. -/
def logical_preedit {σ : Type} (ic : Composer σ) (h : IBusHangulEngine σ) : PreeditDisplay :=
  let text := h.preedit ++ ic.hangul_ic_get_preedit_string h.context
  if text = [] then { text := [], attrs := [], cursor_pos := 0, visible := false }
  else
    { text := text,
      attrs :=
        [{ type := IBusAttrType.IBUS_ATTR_TYPE_UNDERLINE, value := 1,
           start_index := 0, end_index := h.preedit.length },
         { type := IBusAttrType.IBUS_ATTR_TYPE_FOREGROUND, value := 0x00ffffff,
           start_index := h.preedit.length, end_index := -1 },
         { type := IBusAttrType.IBUS_ATTR_TYPE_BACKGROUND, value := 0x00000000,
           start_index := h.preedit.length, end_index := -1 }],
      cursor_pos := text.length,
      visible := true }

/-- The display invariant of the buffered preedit modes: the preedit the host
shows is the session's logical preedit. -/
def DisplaySynced {σ : Type} (ic : Composer σ) (h : IBusHangulEngine σ)
    (shown : PreeditDisplay) : Prop :=
  h.preedit_mode ≠ PREEDIT_MODE_NONE ∧ shown = logical_preedit ic h

/-- The last `n` codepoints of a text (all of it when it is shorter). -/
def last_codepoints (n : Nat) (text : List Nat) : List Nat :=
  text.drop (text.length - n)

/-- The modifiers with the capslock and numlock bits removed, as the
specification words the hotkey comparison (`guint` is 32 bits wide). -/
def without_lock_bits (modifiers : Nat) : Nat :=
  modifiers &&& (0xFFFFFFFF - (IBUS_LOCK_MASK ||| IBUS_MOD2_MASK))

/-- A session in preedit mode None whose composer and shadow PendingBuffer hold
the two jamo U+1112 and U+119E, a syllable that has no precomposed form. -/
def two_codepoint_engine : IBusHangulEngine SampleIC :=
  { sample_engine PREEDIT_MODE_NONE with
    context := { preedit := [0x1112, 0x119E], commit := [] },
    preedit := [0x1112, 0x119E] }

/-- A session in preedit mode Syllable with PendingBuffer 가나다, an empty
composer, and the candidate 多 (U+591A) for the key 다 found by a Suffix lookup. -/
def suffix_engine : IBusHangulEngine SampleIC :=
  { sample_engine PREEDIT_MODE_SYLLABLE with
    preedit := [0xAC00, 0xB098, 0xB2E4],
    hanja_list := some [{ key := [0xB2E4], value := [0x591A], comment := [] }],
    last_lookup_method := LOOKUP_METHOD_SUFFIX }

/-- A stand-in for `g_ascii_strtoll (s, NULL, 10)` on unsigned decimal text. -/
def sample_strtoll (s : List Char) : Int :=
  ((s.takeWhile Char.isDigit).foldl (fun n c => 10 * n + (c.toNat - 48)) 0 : Nat)

/-- Start-up surroundings with no stored setting, both dictionaries present and
the given output of the version command. -/
def sample_init_env (standard_output : Option (List Char)) : InitEnv :=
  { hanja_table := some sample_table,
    symbol_table := none,
    standard_output := standard_output,
    g_ascii_strtoll := sample_strtoll,
    settings :=
      { switch_keys := none, hanja_keys := none, on_keys := none, off_keys := none,
        word_commit := none, auto_reorder := none, disable_latin_mode := none,
        initial_input_mode := none, use_event_forwarding := none, preedit_mode := none,
        lookup_table_orientation := none },
    ibus_key_event_from_string := fun _ => none,
    keymap := none,
    ibus_version := (1, 5, 0) }

/-- A dictionary that knows the jamo ㄱ (U+3131) but has no entry for 가. -/
def jamo_table : HanjaTable :=
  let find (key : List Nat) : Option HanjaList :=
    if key = [0x3131] then some [{ key := [0x3131], value := [0x3200], comment := [] }]
    else none
  { hanja_table_match_exact := find,
    hanja_table_match_prefix := find,
    hanja_table_match_suffix := find }

/-- The sample settings with the dictionary that knows ㄱ only. -/
def jamo_config : Config :=
  { sample_config with hanja_table := some jamo_table }

/-- A fresh sample session in preedit mode Syllable with hanja-lock on. -/
def hanja_lock_engine : IBusHangulEngine SampleIC :=
  { sample_engine PREEDIT_MODE_SYLLABLE with hanja_mode := true }

/-- The text, visibility and focus mode of the last preedit update among the
calls; `none` when there is none. -/
def last_preedit_update : List Cmd → Option (List Nat × Bool × IBusPreeditFocusMode)
  | [] => none
  | Cmd.update_preedit_text text _ _ visible mode :: cs =>
      match last_preedit_update cs with
      | some u => some u
      | none => some (text, visible, mode)
  | _ :: cs => last_preedit_update cs

/-- A fresh sample session in preedit mode None with hanja-lock on. -/
def hanja_lock_none_engine : IBusHangulEngine SampleIC :=
  { sample_engine PREEDIT_MODE_NONE with hanja_mode := true }

/-! ## Theorems -/

/-! ### Helper lemmas -/

theorem ustring_erase_length_ite (s : UString) (pos len : Nat) :
    (ustring_erase s pos len).length =
      if pos + len ≤ s.length then s.length - len else s.length := by
  unfold ustring_erase
  split_ifs with hfit
  · simp; omega
  · rfl

theorem deletes_append (a b : List Cmd) : deletes (a ++ b) = deletes a ++ deletes b := by
  induction a with
  | nil => rfl
  | cons c cs ih => cases c <;> simp [deletes, ih]

theorem commits_append (a b : List Cmd) : commits (a ++ b) = commits a ++ commits b := by
  induction a with
  | nil => rfl
  | cons c cs ih => cases c <;> simp [commits, ih]

theorem deletes_update_preedit_text {σ : Type} (ic : Composer σ) (h : IBusHangulEngine σ) :
    deletes (ibus_hangul_engine_update_preedit_text ic h) = [] := by
  simp only [ibus_hangul_engine_update_preedit_text]
  split_ifs <;> rfl

theorem commits_update_preedit_text {σ : Type} (ic : Composer σ) (h : IBusHangulEngine σ) :
    commits (ibus_hangul_engine_update_preedit_text ic h) = [] := by
  simp only [ibus_hangul_engine_update_preedit_text]
  split_ifs <;> rfl

theorem commits_delete_guard (K : Int) :
    commits (if K > 0 then [Cmd.delete_surrounding_text (-K) K] else []) = [] := by
  split_ifs <;> rfl

theorem commit_current_candidate_eq {σ : Type} (ic : Composer σ) (h : IBusHangulEngine σ)
    (list : HanjaList) (c : Hanja)
    (hlist : h.hanja_list = some list)
    (hcand : list[ibus_lookup_table_get_cursor_pos h.table]? = some c) :
    ibus_hangul_engine_commit_current_candidate ic h =
      some (commit_candidate ic h c.key c.value) := by
  simp [ibus_hangul_engine_commit_current_candidate, hlist, hanja_list_get_nth_key,
      hanja_list_get_nth_value, hcand]

theorem commits_commit_candidate {σ : Type} (ic : Composer σ) (h : IBusHangulEngine σ)
    (key value : List Nat) : commits (commit_candidate ic h key value).2 = [value] := by
  simp only [commit_candidate, commits_append, commits_update_preedit_text,
    ibus_hangul_engine_clear_preedit_text]
  by_cases hm : h.last_lookup_method = LOOKUP_METHOD_PREFIX
  · simp only [hm, if_true]
    by_cases hz : ((ustring_length h.preedit : Int) = 0 ∧
        ((ic.hangul_ic_get_preedit_string h.context).length : Int) = 0)
    · simp only [hz, and_self, if_true, commits_delete_guard]
      rfl
    · simp only [hz, if_false]
      rfl
  · simp only [hm, if_false, commits_delete_guard]
    rfl

/-- What hiding the lookup table leaves alone, and that it closes the CandidateSet. -/
theorem hide_lookup_table_frame {σ : Type} (h : IBusHangulEngine σ) :
    (ibus_hangul_engine_hide_lookup_table h).1.preedit = h.preedit ∧
    (ibus_hangul_engine_hide_lookup_table h).1.context = h.context ∧
    (ibus_hangul_engine_hide_lookup_table h).1.hanja_list = none ∧
    (ibus_hangul_engine_hide_lookup_table h).1.preedit_mode = h.preedit_mode ∧
    (ibus_hangul_engine_hide_lookup_table h).1.hanja_mode = h.hanja_mode ∧
    (ibus_hangul_engine_hide_lookup_table h).1.input_mode = h.input_mode ∧
    (ibus_hangul_engine_hide_lookup_table h).1.input_purpose = h.input_purpose ∧
    (ibus_hangul_engine_hide_lookup_table h).1.last_lookup_method = h.last_lookup_method := by
  simp only [ibus_hangul_engine_hide_lookup_table]
  split_ifs <;> simp

theorem commits_hide_lookup_table {σ : Type} (h : IBusHangulEngine σ) :
    commits (ibus_hangul_engine_hide_lookup_table h).2 = [] := by
  simp only [ibus_hangul_engine_hide_lookup_table]
  split_ifs <;> rfl

theorem deletes_hide_lookup_table {σ : Type} (h : IBusHangulEngine σ) :
    deletes (ibus_hangul_engine_hide_lookup_table h).2 = [] := by
  simp only [ibus_hangul_engine_hide_lookup_table]
  split_ifs <;> rfl

/-! ### Frame lemmas: the fields an operation leaves alone -/

@[simp] theorem hide_lookup_table_context {σ : Type} (h : IBusHangulEngine σ) :
    (ibus_hangul_engine_hide_lookup_table h).1.context = h.context := by
  simp only [ibus_hangul_engine_hide_lookup_table]
  split_ifs <;> rfl

@[simp] theorem hide_lookup_table_preedit {σ : Type} (h : IBusHangulEngine σ) :
    (ibus_hangul_engine_hide_lookup_table h).1.preedit = h.preedit := by
  simp only [ibus_hangul_engine_hide_lookup_table]
  split_ifs <;> rfl

@[simp] theorem hide_lookup_table_preedit_mode {σ : Type} (h : IBusHangulEngine σ) :
    (ibus_hangul_engine_hide_lookup_table h).1.preedit_mode = h.preedit_mode := by
  simp only [ibus_hangul_engine_hide_lookup_table]
  split_ifs <;> rfl

@[simp] theorem hide_lookup_table_input_mode {σ : Type} (h : IBusHangulEngine σ) :
    (ibus_hangul_engine_hide_lookup_table h).1.input_mode = h.input_mode := by
  simp only [ibus_hangul_engine_hide_lookup_table]
  split_ifs <;> rfl

@[simp] theorem hide_lookup_table_input_purpose {σ : Type} (h : IBusHangulEngine σ) :
    (ibus_hangul_engine_hide_lookup_table h).1.input_purpose = h.input_purpose := by
  simp only [ibus_hangul_engine_hide_lookup_table]
  split_ifs <;> rfl

@[simp] theorem hide_lookup_table_hanja_mode {σ : Type} (h : IBusHangulEngine σ) :
    (ibus_hangul_engine_hide_lookup_table h).1.hanja_mode = h.hanja_mode := by
  simp only [ibus_hangul_engine_hide_lookup_table]
  split_ifs <;> rfl

@[simp] theorem hide_lookup_table_last_lookup_method {σ : Type} (h : IBusHangulEngine σ) :
    (ibus_hangul_engine_hide_lookup_table h).1.last_lookup_method = h.last_lookup_method := by
  simp only [ibus_hangul_engine_hide_lookup_table]
  split_ifs <;> rfl

@[simp] theorem hide_lookup_table_caps {σ : Type} (h : IBusHangulEngine σ) :
    (ibus_hangul_engine_hide_lookup_table h).1.caps = h.caps := by
  simp only [ibus_hangul_engine_hide_lookup_table]
  split_ifs <;> rfl

@[simp] theorem hide_lookup_table_hanja_list {σ : Type} (h : IBusHangulEngine σ) :
    (ibus_hangul_engine_hide_lookup_table h).1.hanja_list = none := by
  simp only [ibus_hangul_engine_hide_lookup_table]

@[simp] theorem process_edit_and_commit_context {σ : Type} (ic : Composer σ) (h : IBusHangulEngine σ) :
    (ibus_hangul_engine_process_edit_and_commit ic h).1.context = h.context := by
  simp only [ibus_hangul_engine_process_edit_and_commit]
  split_ifs <;> rfl

@[simp] theorem process_edit_and_commit_preedit_mode {σ : Type} (ic : Composer σ) (h : IBusHangulEngine σ) :
    (ibus_hangul_engine_process_edit_and_commit ic h).1.preedit_mode = h.preedit_mode := by
  simp only [ibus_hangul_engine_process_edit_and_commit]
  split_ifs <;> rfl

@[simp] theorem process_edit_and_commit_input_mode {σ : Type} (ic : Composer σ) (h : IBusHangulEngine σ) :
    (ibus_hangul_engine_process_edit_and_commit ic h).1.input_mode = h.input_mode := by
  simp only [ibus_hangul_engine_process_edit_and_commit]
  split_ifs <;> rfl

@[simp] theorem process_edit_and_commit_input_purpose {σ : Type} (ic : Composer σ) (h : IBusHangulEngine σ) :
    (ibus_hangul_engine_process_edit_and_commit ic h).1.input_purpose = h.input_purpose := by
  simp only [ibus_hangul_engine_process_edit_and_commit]
  split_ifs <;> rfl

@[simp] theorem process_edit_and_commit_hanja_mode {σ : Type} (ic : Composer σ) (h : IBusHangulEngine σ) :
    (ibus_hangul_engine_process_edit_and_commit ic h).1.hanja_mode = h.hanja_mode := by
  simp only [ibus_hangul_engine_process_edit_and_commit]
  split_ifs <;> rfl

@[simp] theorem process_edit_and_commit_hanja_list {σ : Type} (ic : Composer σ) (h : IBusHangulEngine σ) :
    (ibus_hangul_engine_process_edit_and_commit ic h).1.hanja_list = h.hanja_list := by
  simp only [ibus_hangul_engine_process_edit_and_commit]
  split_ifs <;> rfl

@[simp] theorem process_edit_and_commit_last_lookup_method {σ : Type} (ic : Composer σ) (h : IBusHangulEngine σ) :
    (ibus_hangul_engine_process_edit_and_commit ic h).1.last_lookup_method = h.last_lookup_method := by
  simp only [ibus_hangul_engine_process_edit_and_commit]
  split_ifs <;> rfl

@[simp] theorem process_edit_and_commit_caps {σ : Type} (ic : Composer σ) (h : IBusHangulEngine σ) :
    (ibus_hangul_engine_process_edit_and_commit ic h).1.caps = h.caps := by
  simp only [ibus_hangul_engine_process_edit_and_commit]
  split_ifs <;> rfl

@[simp] theorem process_edit_and_commit_table {σ : Type} (ic : Composer σ) (h : IBusHangulEngine σ) :
    (ibus_hangul_engine_process_edit_and_commit ic h).1.table = h.table := by
  simp only [ibus_hangul_engine_process_edit_and_commit]
  split_ifs <;> rfl

@[simp] theorem process_commit_and_edit_context {σ : Type} (ic : Composer σ) (h : IBusHangulEngine σ) :
    (ibus_hangul_engine_process_commit_and_edit ic h).1.context = h.context := by
  simp only [ibus_hangul_engine_process_commit_and_edit]

@[simp] theorem process_commit_and_edit_preedit_mode {σ : Type} (ic : Composer σ) (h : IBusHangulEngine σ) :
    (ibus_hangul_engine_process_commit_and_edit ic h).1.preedit_mode = h.preedit_mode := by
  simp only [ibus_hangul_engine_process_commit_and_edit]

@[simp] theorem process_commit_and_edit_input_mode {σ : Type} (ic : Composer σ) (h : IBusHangulEngine σ) :
    (ibus_hangul_engine_process_commit_and_edit ic h).1.input_mode = h.input_mode := by
  simp only [ibus_hangul_engine_process_commit_and_edit]

@[simp] theorem process_commit_and_edit_input_purpose {σ : Type} (ic : Composer σ) (h : IBusHangulEngine σ) :
    (ibus_hangul_engine_process_commit_and_edit ic h).1.input_purpose = h.input_purpose := by
  simp only [ibus_hangul_engine_process_commit_and_edit]

@[simp] theorem process_commit_and_edit_hanja_mode {σ : Type} (ic : Composer σ) (h : IBusHangulEngine σ) :
    (ibus_hangul_engine_process_commit_and_edit ic h).1.hanja_mode = h.hanja_mode := by
  simp only [ibus_hangul_engine_process_commit_and_edit]

@[simp] theorem process_commit_and_edit_hanja_list {σ : Type} (ic : Composer σ) (h : IBusHangulEngine σ) :
    (ibus_hangul_engine_process_commit_and_edit ic h).1.hanja_list = h.hanja_list := by
  simp only [ibus_hangul_engine_process_commit_and_edit]

@[simp] theorem process_commit_and_edit_last_lookup_method {σ : Type} (ic : Composer σ) (h : IBusHangulEngine σ) :
    (ibus_hangul_engine_process_commit_and_edit ic h).1.last_lookup_method = h.last_lookup_method := by
  simp only [ibus_hangul_engine_process_commit_and_edit]

@[simp] theorem process_commit_and_edit_caps {σ : Type} (ic : Composer σ) (h : IBusHangulEngine σ) :
    (ibus_hangul_engine_process_commit_and_edit ic h).1.caps = h.caps := by
  simp only [ibus_hangul_engine_process_commit_and_edit]

@[simp] theorem process_commit_and_edit_table {σ : Type} (ic : Composer σ) (h : IBusHangulEngine σ) :
    (ibus_hangul_engine_process_commit_and_edit ic h).1.table = h.table := by
  simp only [ibus_hangul_engine_process_commit_and_edit]

@[simp] theorem process_commit_and_edit_preedit {σ : Type} (ic : Composer σ) (h : IBusHangulEngine σ) :
    (ibus_hangul_engine_process_commit_and_edit ic h).1.preedit = ic.hangul_ic_get_preedit_string h.context := by
  simp only [ibus_hangul_engine_process_commit_and_edit, ustring_append_ucs4, List.nil_append]

@[simp] theorem flush_preedit_mode {σ : Type} (ic : Composer σ) (h : IBusHangulEngine σ) :
    (ibus_hangul_engine_flush ic h).1.preedit_mode = h.preedit_mode := by
  simp only [ibus_hangul_engine_flush]
  split_ifs <;> simp

@[simp] theorem flush_input_mode {σ : Type} (ic : Composer σ) (h : IBusHangulEngine σ) :
    (ibus_hangul_engine_flush ic h).1.input_mode = h.input_mode := by
  simp only [ibus_hangul_engine_flush]
  split_ifs <;> simp

@[simp] theorem flush_input_purpose {σ : Type} (ic : Composer σ) (h : IBusHangulEngine σ) :
    (ibus_hangul_engine_flush ic h).1.input_purpose = h.input_purpose := by
  simp only [ibus_hangul_engine_flush]
  split_ifs <;> simp

@[simp] theorem flush_hanja_mode {σ : Type} (ic : Composer σ) (h : IBusHangulEngine σ) :
    (ibus_hangul_engine_flush ic h).1.hanja_mode = h.hanja_mode := by
  simp only [ibus_hangul_engine_flush]
  split_ifs <;> simp

@[simp] theorem flush_last_lookup_method {σ : Type} (ic : Composer σ) (h : IBusHangulEngine σ) :
    (ibus_hangul_engine_flush ic h).1.last_lookup_method = h.last_lookup_method := by
  simp only [ibus_hangul_engine_flush]
  split_ifs <;> simp

@[simp] theorem flush_caps {σ : Type} (ic : Composer σ) (h : IBusHangulEngine σ) :
    (ibus_hangul_engine_flush ic h).1.caps = h.caps := by
  simp only [ibus_hangul_engine_flush]
  split_ifs <;> simp

@[simp] theorem flush_preedit {σ : Type} (ic : Composer σ) (h : IBusHangulEngine σ) :
    (ibus_hangul_engine_flush ic h).1.preedit = [] := by
  simp only [ibus_hangul_engine_flush]
  split_ifs <;> simp_all [ustring_length, ustring_append_ucs4]

@[simp] theorem flush_context {σ : Type} (ic : Composer σ) (h : IBusHangulEngine σ) :
    (ibus_hangul_engine_flush ic h).1.context = (ic.hangul_ic_flush h.context).1 := by
  simp only [ibus_hangul_engine_flush]
  split_ifs <;> simp

@[simp] theorem flush_hanja_list {σ : Type} (ic : Composer σ) (h : IBusHangulEngine σ) :
    (ibus_hangul_engine_flush ic h).1.hanja_list = none := by
  simp only [ibus_hangul_engine_flush]
  split_ifs <;> simp

/-! ### UTF-8 prefixes and the caret check -/

theorem utf8_encode_char_ne_nil (c : Nat) : utf8_encode_char c ≠ [] := by
  unfold utf8_encode_char
  split_ifs <;> simp

theorem utf8_prefix_char (a b : Nat) (x y : List Nat)
    (hp : utf8_encode_char a ++ x <+: utf8_encode_char b ++ y) : a = b ∧ x <+: y := by
  unfold utf8_encode_char at hp
  split_ifs at hp <;>
    simp only [List.cons_append, List.nil_append, List.cons_prefix_cons] at hp <;>
    (obtain ⟨h1, h2⟩ := hp
     first
      | exact ⟨by omega, h2⟩
      | (obtain ⟨h3, h4⟩ := h2
         first
          | exact ⟨by omega, h4⟩
          | (obtain ⟨h5, h6⟩ := h4
             first
              | exact ⟨by omega, h6⟩
              | (obtain ⟨h7, h8⟩ := h6
                 exact ⟨by omega, h8⟩)
              | omega)
          | omega))

theorem utf8_begins_of_codepoints (p t : List Nat) (hp : p <+: t) :
    ustring_to_utf8 p <+: ustring_to_utf8 t := by
  induction p generalizing t with
  | nil => exact List.nil_prefix
  | cons a p ih =>
    cases t with
    | nil => simp at hp
    | cons b t =>
      rw [List.cons_prefix_cons] at hp
      obtain ⟨hab, hpt⟩ := hp
      subst hab
      simp only [ustring_to_utf8]
      exact (List.prefix_append_right_inj _).mpr (ih t hpt)

theorem codepoints_begin_of_utf8 (p t : List Nat)
    (hp : ustring_to_utf8 p <+: ustring_to_utf8 t) : p <+: t := by
  induction p generalizing t with
  | nil => exact List.nil_prefix
  | cons a p ih =>
    cases t with
    | nil =>
      simp only [ustring_to_utf8, List.prefix_nil, List.append_eq_nil] at hp
      exact absurd hp.1 (utf8_encode_char_ne_nil a)
    | cons b t =>
      simp only [ustring_to_utf8] at hp
      obtain ⟨hab, hpt⟩ := utf8_prefix_char a b _ _ hp
      subst hab
      rw [List.cons_prefix_cons]
      exact ⟨rfl, ih t hpt⟩

theorem strncmp_eq_iff_begins (a b : List Nat) : strncmp_eq a b a.length = true ↔ a <+: b := by
  unfold strncmp_eq
  rw [List.take_length, beq_iff_eq, List.prefix_iff_eq_take]

theorem check_caret_pos_sanity_eq {σ : Type} (ic : Composer σ) (st : SurroundingText)
    (h : IBusHangulEngine σ) :
    ibus_hangul_engine_check_caret_pos_sanity ic st h =
      match st.text with
      | none => some h
      | some text =>
        if h.preedit = [] ∨ st.cursor_pos = 0 then some h
        else if st.cursor_pos - 1 > text.length then none
        else if h.preedit <+: text.drop (st.cursor_pos - 1) then some h
        else some (reset_context_and_preedit ic h) := by
  unfold ibus_hangul_engine_check_caret_pos_sanity
  by_cases hp : h.preedit = []
  · simp [hp, ustring_length]
    cases st.text <;> rfl
  · cases htext : st.text with
    | none => simp [ustring_length, hp]
    | some text =>
      by_cases hc : st.cursor_pos = 0
      · simp [ustring_length, hp, hc]
      · have hiff : (strncmp_eq (ustring_to_utf8 h.preedit)
            (ustring_to_utf8 (List.drop (st.cursor_pos - 1) text))
            (ustring_to_utf8 h.preedit).length = false) ↔
            ¬ h.preedit <+: List.drop (st.cursor_pos - 1) text := by
          rw [← Bool.not_eq_true, strncmp_eq_iff_begins]
          constructor
          · exact fun hn hpre => hn (utf8_begins_of_codepoints _ _ hpre)
          · exact fun hn hpre => hn (codepoints_begin_of_utf8 _ _ hpre)
        simp only [ustring_length, List.length_eq_zero, hp, if_false, hc, false_or, hiff]
        split_ifs <;> rfl

/-- The caret check returns for a surrounding text whose caret lies within the
text, and what it returns is the session itself or the session reset. -/
theorem check_caret_pos_sanity_valid {σ : Type} (ic : Composer σ) (st : SurroundingText)
    (h : IBusHangulEngine σ) (hvalid : surrounding_text_valid st) :
    ∃ h1, ibus_hangul_engine_check_caret_pos_sanity ic st h = some h1 := by
  rw [check_caret_pos_sanity_eq]
  unfold surrounding_text_valid at hvalid
  cases htext : st.text with
  | none => exact ⟨_, rfl⟩
  | some text =>
    simp only [htext] at hvalid
    have hb : ¬ (st.cursor_pos - 1 > text.length) := by omega
    simp only [hb, if_false]
    split_ifs <;> exact ⟨_, rfl⟩

theorem check_caret_pos_sanity_cases {σ : Type} (ic : Composer σ) (st : SurroundingText)
    (h h1 : IBusHangulEngine σ)
    (hr : ibus_hangul_engine_check_caret_pos_sanity ic st h = some h1) :
    h1 = h ∨ h1 = reset_context_and_preedit ic h := by
  rw [check_caret_pos_sanity_eq] at hr
  cases htext : st.text with
  | none =>
    simp only [htext, Option.some.injEq] at hr
    exact Or.inl hr.symm
  | some text =>
    simp only [htext] at hr
    split_ifs at hr
    · exact Or.inl (Option.some.inj hr).symm
    · exact Or.inl (Option.some.inj hr).symm
    · exact Or.inr (Option.some.inj hr).symm

/-! ### Dispatch of a composing key -/

theorem process_key_event_of_composing {σ : Type} (ic : Composer σ) (cfg : Config) (env : Env)
    (h : IBusHangulEngine σ) (keyval keycode modifiers : Nat)
    (hkey : composing_key cfg keyval modifiers)
    (hpurpose : h.input_purpose ≠ IBUS_INPUT_PURPOSE_PASSWORD)
    (hlist : h.hanja_list = none)
    (hinput : h.input_mode ≠ INPUT_MODE_LATIN) :
    ibus_hangul_engine_process_key_event ic cfg env h keyval keycode modifiers =
      process_key_event_compose ic cfg env h keyval keycode modifiers := by
  obtain ⟨h1, h2, h3, h4, h5, h6, h7, h8, h9, h10⟩ := hkey
  simp [ibus_hangul_engine_process_key_event, process_key_event_hotkeys, h1, h2, h3, h4, h5, h6,
    h7, h8, h9, h10, hpurpose, hlist, hinput]

/-- What `ibus_hangul_engine_process_commit_and_edit` issues and leaves in PendingBuffer. -/
theorem process_commit_and_edit_spec {σ : Type} (ic : Composer σ) (h : IBusHangulEngine σ) :
    (ibus_hangul_engine_process_commit_and_edit ic h).2 =
      (if ic.hangul_ic_get_commit_string h.context ++ ic.hangul_ic_get_preedit_string h.context
          = h.preedit then []
       else [Cmd.delete_surrounding_text (-(ustring_length h.preedit : Int))
               (ustring_length h.preedit),
             Cmd.commit_text (ic.hangul_ic_get_commit_string h.context ++
               ic.hangul_ic_get_preedit_string h.context)]) ∧
    (ibus_hangul_engine_process_commit_and_edit ic h).1.preedit =
      ic.hangul_ic_get_preedit_string h.context := by
  simp only [ibus_hangul_engine_process_commit_and_edit, ustring_compare, ustring_append_ucs4,
    List.nil_append]
  constructor
  · split_ifs <;> simp_all
  · trivial

/-- What `ibus_hangul_engine_process_edit_and_commit` commits and leaves in PendingBuffer. -/
theorem process_edit_and_commit_spec {σ : Type} (ic : Composer σ) (h : IBusHangulEngine σ) :
    (h.preedit_mode = PREEDIT_MODE_WORD ∨ h.hanja_mode = true →
      (commits (ibus_hangul_engine_process_edit_and_commit ic h).2 =
          (if ic.hangul_ic_get_preedit_string h.context = [] ∧
              h.preedit ++ ic.hangul_ic_get_commit_string h.context ≠ [] then
            [h.preedit ++ ic.hangul_ic_get_commit_string h.context]
           else []) ∧
        (ibus_hangul_engine_process_edit_and_commit ic h).1.preedit =
          (if ic.hangul_ic_get_preedit_string h.context = [] then []
           else h.preedit ++ ic.hangul_ic_get_commit_string h.context) ∧
        (ic.hangul_ic_get_preedit_string
            (ibus_hangul_engine_process_edit_and_commit ic h).1.context ≠ [] ∨
          (ibus_hangul_engine_process_edit_and_commit ic h).1.preedit = []))) ∧
    (¬ (h.preedit_mode = PREEDIT_MODE_WORD ∨ h.hanja_mode = true) →
      commits (ibus_hangul_engine_process_edit_and_commit ic h).2 =
          (if ic.hangul_ic_get_commit_string h.context ≠ [] then
            [ic.hangul_ic_get_commit_string h.context]
           else []) ∧
        (ibus_hangul_engine_process_edit_and_commit ic h).1.preedit = h.preedit) := by
  simp only [ibus_hangul_engine_process_edit_and_commit, commits_append,
    commits_update_preedit_text, ustring_append_ucs4, ustring_length,
    ibus_hangul_engine_clear_preedit_text]
  constructor
  · intro hw
    simp only [hw, if_true]
    by_cases hq : ic.hangul_ic_get_preedit_string h.context = []
    · by_cases hl : (h.preedit ++ ic.hangul_ic_get_commit_string h.context).length > 0
      · have hb : h.preedit ++ ic.hangul_ic_get_commit_string h.context ≠ [] :=
          List.length_pos.mp hl
        simp only [hq, hl, if_true]
        simp [hb, commits]
      · have hb : h.preedit ++ ic.hangul_ic_get_commit_string h.context = [] := by
          apply List.length_eq_zero.mp
          omega
        simp only [hq, hl, if_true, if_false]
        simp [hb, commits]
    · simp [hq, commits]
  · intro hw
    simp only [hw, if_false]
    split_ifs <;> simp [commits]

/-- What `ibus_hangul_engine_flush` commits and leaves behind. -/
theorem flush_spec {σ : Type} (ic : Composer σ) (h : IBusHangulEngine σ) :
    commits (ibus_hangul_engine_flush ic h).2 =
      (if h.preedit ++ (ic.hangul_ic_flush h.context).2 = [] then []
       else [h.preedit ++ (ic.hangul_ic_flush h.context).2]) ∧
    (ibus_hangul_engine_flush ic h).1.preedit = [] ∧
    (ibus_hangul_engine_flush ic h).1.hanja_list = none ∧
    (ibus_hangul_engine_flush ic h).1.context = (ic.hangul_ic_flush h.context).1 := by
  have hh := hide_lookup_table_frame h
  obtain ⟨h1, h2, h3, -⟩ := hh
  simp only [ibus_hangul_engine_flush, commits_append, commits_update_preedit_text,
    commits_hide_lookup_table, ustring_append_ucs4, ustring_length, h1, h2, h3,
    ibus_hangul_engine_clear_preedit_text]
  by_cases hl : (h.preedit ++ (ic.hangul_ic_flush h.context).2).length = 0
  · have hb : h.preedit ++ (ic.hangul_ic_flush h.context).2 = [] := List.length_eq_zero.mp hl
    simp only [hl, ne_eq, not_true_eq_false, if_false]
    simp [hb, commits, h3]
  · have hb : h.preedit ++ (ic.hangul_ic_flush h.context).2 ≠ [] :=
      fun hc => hl (List.length_eq_zero.mpr hc)
    simp only [hl, ne_eq, not_false_eq_true, if_true]
    simp [hb, commits, h3]


/-! ### Key sequences in preedit mode Word -/

theorem commits_process_key_event_return {σ : Type} (cfg : Config) (h : IBusHangulEngine σ)
    (cmds : List Cmd) (retval : Bool) (keyval keycode modifiers : Nat) :
    commits (process_key_event_return cfg h cmds retval keyval keycode modifiers).cmds =
      commits cmds ∧
    (process_key_event_return cfg h cmds retval keyval keycode modifiers).engine = h := by
  unfold process_key_event_return
  split_ifs <;> simp [commits_append, commits]

theorem process_edit_and_commit_word {σ : Type} (ic : Composer σ) (h : IBusHangulEngine σ)
    (hw : h.preedit_mode = PREEDIT_MODE_WORD ∨ h.hanja_mode = true) :
    (commits (ibus_hangul_engine_process_edit_and_commit ic h).2).flatten ++
        (ibus_hangul_engine_process_edit_and_commit ic h).1.preedit =
      h.preedit ++ ic.hangul_ic_get_commit_string h.context := by
  obtain ⟨hc, hp, -⟩ := (process_edit_and_commit_spec ic h).1 hw
  rw [hc, hp]
  by_cases hq : ic.hangul_ic_get_preedit_string h.context = []
  · by_cases hb : h.preedit ++ ic.hangul_ic_get_commit_string h.context = []
    · simp [hq, hb]
    · simp [hq, hb]
  · simp [hq]

theorem word_step {σ : Type} (ic : Composer σ) (cfg : Config) (env : Env)
    (h : IBusHangulEngine σ) (keyval keycode modifiers : Nat)
    (hw : WordComposing h) (hkey : composing_key cfg keyval modifiers)
    (hbs : keyval ≠ IBUS_BackSpace) :
    ∃ r, ibus_hangul_engine_process_key_event ic cfg env h keyval keycode modifiers = some r ∧
      WordComposing r.engine ∧
      (commits r.cmds).flatten ++ r.engine.preedit =
        h.preedit ++ composer_output ic cfg h.context
          [{ env := env, keyval := keyval, keycode := keycode, modifiers := modifiers }] ∧
      r.engine.context = composer_state ic cfg h.context
          [{ env := env, keyval := keyval, keycode := keycode, modifiers := modifiers }] := by
  obtain ⟨hmode, hhm, hlist, hpur, hin⟩ := hw
  rw [process_key_event_of_composing ic cfg env h keyval keycode modifiers hkey hpur hlist hin]
  have hne : PREEDIT_MODE_WORD ≠ PREEDIT_MODE_NONE := by decide
  generalize hkv : normalize_keyval cfg (ic.hangul_ic_is_transliteration h.context)
    keyval keycode modifiers = key
  generalize hp : ic.hangul_ic_process h.context key = p
  have hacc := process_edit_and_commit_word ic ({ h with context := p.1 } : IBusHangulEngine σ)
    (Or.inl hmode)
  have hmn : ¬ h.preedit_mode = PREEDIT_MODE_NONE := by rw [hmode]; exact hne
  have hhn : ¬ h.hanja_mode = true := by rw [hhm]; decide
  simp only [process_key_event_compose, eq_false hmn, if_false, process_key_event_edit, hbs,
    composer_output, composer_state, List.append_nil, hkv, hp, process_edit_and_commit_hanja_mode,
    eq_false hhn]
  by_cases hret : p.2 = true
  · simp only [hret, Bool.true_eq_false, if_false, if_true, List.append_nil]
    refine ⟨_, rfl, ?_, ?_, ?_⟩
    · rw [(commits_process_key_event_return _ _ _ _ _ _ _).2]
      simp [WordComposing, hmode, hhm, hlist, hpur, hin]
    · rw [(commits_process_key_event_return _ _ _ _ _ _ _).2,
        (commits_process_key_event_return _ _ _ _ _ _ _).1]
      exact hacc
    · rw [(commits_process_key_event_return _ _ _ _ _ _ _).2]
      simp
  · have hret2 : p.2 = false := by simpa using hret
    obtain ⟨c1, -⟩ := flush_spec ic (ibus_hangul_engine_process_edit_and_commit ic
        ({ h with context := p.1 } : IBusHangulEngine σ)).1
    simp only [hret2, if_true, Bool.false_eq_true, if_false, List.append_nil]
    refine ⟨_, rfl, ?_, ?_, ?_⟩
    · rw [(commits_process_key_event_return _ _ _ _ _ _ _).2]
      simp [WordComposing, hmode, hhm, hlist, hpur, hin]
    · rw [(commits_process_key_event_return _ _ _ _ _ _ _).2,
        (commits_process_key_event_return _ _ _ _ _ _ _).1, flush_preedit, commits_append, c1,
        process_edit_and_commit_context]
      simp only [List.append_nil, List.flatten_append]
      split_ifs with hb
      · simp only [List.flatten_nil, List.append_nil]
        rw [← List.append_assoc, ← hacc]
        rw [List.append_assoc, hb, List.append_nil]
      · simp only [List.flatten_cons, List.flatten_nil, List.append_nil]
        rw [← List.append_assoc, ← List.append_assoc, hacc]
    · rw [(commits_process_key_event_return _ _ _ _ _ _ _).2]
      simp


theorem composer_output_cons {σ : Type} (ic : Composer σ) (cfg : Config) (s : σ)
    (e : KeyInput) (es : List KeyInput) :
    composer_output ic cfg s (e :: es) =
      composer_output ic cfg s [e] ++ composer_output ic cfg (composer_state ic cfg s [e]) es := by
  simp only [composer_output, composer_state]
  split_ifs <;> simp

theorem composer_state_cons {σ : Type} (ic : Composer σ) (cfg : Config) (s : σ)
    (e : KeyInput) (es : List KeyInput) :
    composer_state ic cfg s (e :: es) =
      composer_state ic cfg (composer_state ic cfg s [e]) es := by
  simp only [composer_state]
  split_ifs <;> rfl

theorem run_key_events_word {σ : Type} (ic : Composer σ) (cfg : Config)
    (events : List KeyInput) :
    ∀ h : IBusHangulEngine σ, WordComposing h →
      (∀ e ∈ events, composing_key cfg e.keyval e.modifiers ∧ e.keyval ≠ IBUS_BackSpace) →
      ∃ r, run_key_events ic cfg h events = some r ∧ WordComposing r.1 ∧
        (commits r.2).flatten ++ r.1.preedit =
          h.preedit ++ composer_output ic cfg h.context events ∧
        r.1.context = composer_state ic cfg h.context events := by
  induction events with
  | nil =>
    intro h hw _
    exact ⟨(h, []), rfl, hw, by simp [commits, composer_output], rfl⟩
  | cons e es ih =>
    intro h hw hkeys
    obtain ⟨hk, hbs⟩ := hkeys e (List.mem_cons_self _ _)
    obtain ⟨r1, hr1, hw1, hacc1, hctx1⟩ :=
      word_step ic cfg e.env h e.keyval e.keycode e.modifiers hw hk hbs
    obtain ⟨r2, hr2, hw2, hacc2, hctx2⟩ :=
      ih r1.engine hw1 (fun x hx => hkeys x (List.mem_cons_of_mem _ hx))
    refine ⟨(r2.1, r1.cmds ++ r2.2), ?_, hw2, ?_, ?_⟩
    · simp only [run_key_events, hr1, hr2]
    · rw [composer_output_cons, commits_append, List.flatten_append, List.append_assoc, hacc2,
        ← List.append_assoc, hacc1, hctx1, List.append_assoc]
    · rw [composer_state_cons, hctx2, hctx1]

/-! ### The shadow invariant of preedit mode None -/

theorem host_apply_append (host : List Nat) (a b : List Cmd) :
    host_apply host (a ++ b) = host_apply (host_apply host a) b := by
  simp [host_apply, List.foldl_append]

theorem host_apply_of_no_edit (cmds : List Cmd) :
    ∀ host : List Nat, deletes cmds = [] → commits cmds = [] → host_apply host cmds = host := by
  induction cmds with
  | nil => intro host _ _; rfl
  | cons c cs ih =>
    intro host hd hc
    cases c <;> simp_all [deletes, commits, host_apply, host_apply_cmd]

theorem no_edit_append (a b : List Cmd) (ha : deletes a = [] ∧ commits a = [])
    (hb : deletes b = [] ∧ commits b = []) : deletes (a ++ b) = [] ∧ commits (a ++ b) = [] := by
  simp [deletes_append, commits_append, ha, hb]

theorem no_edit_update_preedit_text {σ : Type} (ic : Composer σ) (h : IBusHangulEngine σ) :
    deletes (ibus_hangul_engine_update_preedit_text ic h) = [] ∧
    commits (ibus_hangul_engine_update_preedit_text ic h) = [] :=
  ⟨deletes_update_preedit_text ic h, commits_update_preedit_text ic h⟩

theorem no_edit_hide_lookup_table {σ : Type} (h : IBusHangulEngine σ) :
    deletes (ibus_hangul_engine_hide_lookup_table h).2 = [] ∧
    commits (ibus_hangul_engine_hide_lookup_table h).2 = [] :=
  ⟨deletes_hide_lookup_table h, commits_hide_lookup_table h⟩

theorem no_edit_update_lookup_table_ui {σ : Type} (h : IBusHangulEngine σ) (cmds : List Cmd)
    (hr : ibus_hangul_engine_update_lookup_table_ui h = some cmds) :
    deletes cmds = [] ∧ commits cmds = [] := by
  unfold ibus_hangul_engine_update_lookup_table_ui at hr
  cases hl : h.hanja_list with
  | none => simp [hl] at hr
  | some list =>
    cases hc : hanja_list_get_nth_comment list (ibus_lookup_table_get_cursor_pos h.table) with
    | none => simp [hl, hc] at hr
    | some comment =>
      simp only [hl, hc, Option.some.injEq] at hr
      subst hr
      exact ⟨rfl, rfl⟩

theorem apply_hanja_list_some {σ : Type} (h : IBusHangulEngine σ)
    (r : IBusHangulEngine σ × List Cmd)
    (hr : ibus_hangul_engine_apply_hanja_list h = some r) :
    (r.1.preedit = h.preedit ∧ r.1.context = h.context ∧ r.1.preedit_mode = h.preedit_mode ∧
      r.1.hanja_list = h.hanja_list ∧ r.1.last_lookup_method = h.last_lookup_method) ∧
    deletes r.2 = [] ∧ commits r.2 = [] := by
  unfold ibus_hangul_engine_apply_hanja_list at hr
  cases hl : h.hanja_list with
  | none =>
    simp only [hl, Option.some.injEq] at hr
    subst hr
    exact ⟨⟨rfl, rfl, rfl, hl, rfl⟩, rfl, rfl⟩
  | some list =>
    simp only [hl] at hr
    split at hr
    · simp at hr
    · rename_i cmds hui
      simp only [Option.some.injEq] at hr
      subst hr
      exact ⟨⟨rfl, rfl, rfl, hl.symm ▸ rfl, rfl⟩, no_edit_update_lookup_table_ui _ _ hui⟩

theorem update_hanja_list_frame {σ : Type} (ic : Composer σ) (cfg : Config) (env : Env)
    (h h1 : IBusHangulEngine σ)
    (hu : ibus_hangul_engine_update_hanja_list ic cfg env h = some h1) :
    h1.preedit = h.preedit ∧
    h1.context = h.context ∧
    h1.preedit_mode = h.preedit_mode ∧
    (h.preedit_mode = PREEDIT_MODE_NONE →
      h1.hanja_list ≠ none → h1.last_lookup_method ≠ LOOKUP_METHOD_PREFIX) := by
  unfold ibus_hangul_engine_update_hanja_list at hu
  cases hkm : hanja_key_and_method ic env.surrounding_text_lookup
      ({ h with hanja_list := none } : IBusHangulEngine σ) with
  | none => simp [hkm] at hu
  | some km =>
    simp only [hkm] at hu
    cases hk : km.1 with
    | none =>
      simp only [hk, Option.some.injEq] at hu
      subst hu
      simp
    | some k =>
      simp only [hk, Option.some.injEq] at hu
      subst hu
      simp only [true_and]
      intro hnone _
      simp only [hanja_key_and_method, hnone, ne_eq, not_true_eq_false, if_false] at hkm
      split_ifs at hkm <;>
      · simp only [Option.map_eq_some'] at hkm
        obtain ⟨a, _, ha⟩ := hkm
        rw [← ha]
        simp

theorem update_lookup_table_some {σ : Type} (ic : Composer σ) (cfg : Config) (env : Env)
    (h : IBusHangulEngine σ) (r : IBusHangulEngine σ × List Cmd)
    (hr : ibus_hangul_engine_update_lookup_table ic cfg env h = some r) :
    ∃ h1, ibus_hangul_engine_update_hanja_list ic cfg env h = some h1 ∧
      (if h1.hanja_list ≠ none then
        match ibus_hangul_engine_apply_hanja_list h1 with
        | none => none
        | some a => some (a.1, ibus_hangul_engine_update_preedit_text ic h1 ++ a.2)
       else some (ibus_hangul_engine_hide_lookup_table h1)) = some r := by
  unfold ibus_hangul_engine_update_lookup_table at hr
  cases hu : ibus_hangul_engine_update_hanja_list ic cfg env h with
  | none => simp [hu] at hr
  | some h1 =>
    simp only [hu] at hr
    exact ⟨h1, rfl, hr⟩

theorem update_lookup_table_shadow {σ : Type} (ic : Composer σ) (cfg : Config) (env : Env)
    (h : IBusHangulEngine σ) (host : List Nat) (r : IBusHangulEngine σ × List Cmd)
    (hr : ibus_hangul_engine_update_lookup_table ic cfg env h = some r)
    (hmode : h.preedit_mode = PREEDIT_MODE_NONE)
    (hsuf : h.preedit <:+ host)
    (hpq : h.preedit = ic.hangul_ic_get_preedit_string h.context) :
    ShadowInvariant ic r.1 host ∧ host_apply host r.2 = host := by
  obtain ⟨h1, hu, hr⟩ := update_lookup_table_some ic cfg env h r hr
  obtain ⟨u1, u2, u3, u4⟩ := update_hanja_list_frame ic cfg env h h1 hu
  split_ifs at hr with hl
  · split at hr
    · simp at hr
    · rename_i r1 hr1
      simp only [Option.some.injEq] at hr
      subst hr
      obtain ⟨⟨a1, a2, a3, a4, a5⟩, hd, hc⟩ := apply_hanja_list_some _ _ hr1
      refine ⟨?_, ?_⟩
      · simp only [ShadowInvariant, a1, a2, a3, a4, a5, u1, u2, u3]
        exact ⟨hmode, hsuf, hpq, fun _ => u4 hmode hl⟩
      · apply host_apply_of_no_edit
        · simp [deletes_append, deletes_update_preedit_text, hd]
        · simp [commits_append, commits_update_preedit_text, hc]
  · simp only [Option.some.injEq] at hr
    subst hr
    refine ⟨?_, ?_⟩
    · simp only [ShadowInvariant, hide_lookup_table_preedit_mode, hide_lookup_table_preedit,
        hide_lookup_table_context, hide_lookup_table_hanja_list, u1, u2, u3]
      exact ⟨hmode, hsuf, hpq, fun hc => absurd rfl hc⟩
    · exact host_apply_of_no_edit _ _ (deletes_hide_lookup_table _) (commits_hide_lookup_table _)


theorem ustring_erase_nil (pos len : Nat) : ustring_erase [] pos len = [] := by
  unfold ustring_erase
  split_ifs <;> simp

theorem commit_candidate_shadow {σ : Type} (ic : Composer σ) (h : IBusHangulEngine σ)
    (key value : List Nat) (hlaws : ComposerLaws ic)
    (hmode : h.preedit_mode = PREEDIT_MODE_NONE)
    (hpq : h.preedit = ic.hangul_ic_get_preedit_string h.context)
    (hm : h.last_lookup_method ≠ LOOKUP_METHOD_PREFIX) :
    (commit_candidate ic h key value).1.preedit = [] ∧
    ic.hangul_ic_get_preedit_string (commit_candidate ic h key value).1.context = [] ∧
    (commit_candidate ic h key value).1.preedit_mode = PREEDIT_MODE_NONE ∧
    (commit_candidate ic h key value).1.hanja_list = h.hanja_list ∧
    (commit_candidate ic h key value).1.last_lookup_method = h.last_lookup_method ∧
    (commit_candidate ic h key value).1.hanja_mode = h.hanja_mode := by
  obtain ⟨hreset, -, -⟩ := hlaws
  have hlen : (ustring_length h.preedit : Int) =
      ((ic.hangul_ic_get_preedit_string h.context).length : Int) := by
    rw [ustring_length, hpq]
  simp only [commit_candidate, eq_false hm, if_false, eq_true hmode, if_true, hlen,
    gt_iff_lt, lt_self_iff_false, and_true, ne_eq, not_true_eq_false, and_false]
  by_cases hq : (0 : Int) < ((ic.hangul_ic_get_preedit_string h.context).length : Int)
  · simp only [hq, if_true, ustring_length, List.length_nil, Nat.cast_zero, Int.toNat_zero,
      ustring_erase_nil]
    refine ⟨?_, ?_, ?_, ?_, ?_, ?_⟩ <;> split_ifs <;> first | rfl | exact hreset _ | exact hmode
  · have hq0 : ic.hangul_ic_get_preedit_string h.context = [] := by
      apply List.length_eq_zero.mp
      omega
    have hp0 : h.preedit = [] := by rw [hpq, hq0]
    simp only [hq, if_false, hp0, ustring_erase_nil]
    refine ⟨?_, ?_, ?_, ?_, ?_, ?_⟩ <;> split_ifs <;>
      first | rfl | exact hq0 | exact hmode | exact hp0


theorem hide_lookup_table_shadow {σ : Type} (ic : Composer σ) (h : IBusHangulEngine σ)
    (host : List Nat) (hinv : ShadowInvariant ic h host) :
    ShadowInvariant ic (ibus_hangul_engine_hide_lookup_table h).1 host ∧
    host_apply host (ibus_hangul_engine_hide_lookup_table h).2 = host := by
  obtain ⟨i1, i2, i3, -⟩ := hinv
  refine ⟨?_, host_apply_of_no_edit _ _ (deletes_hide_lookup_table _)
    (commits_hide_lookup_table _)⟩
  simp only [ShadowInvariant, hide_lookup_table_preedit_mode, hide_lookup_table_preedit,
    hide_lookup_table_context, hide_lookup_table_hanja_list]
  exact ⟨i1, i2, i3, fun hc => absurd rfl hc⟩

theorem commit_current_candidate_some {σ : Type} (ic : Composer σ) (h : IBusHangulEngine σ)
    (r : IBusHangulEngine σ × List Cmd)
    (hr : ibus_hangul_engine_commit_current_candidate ic h = some r) :
    ∃ key value, r = commit_candidate ic h key value := by
  unfold ibus_hangul_engine_commit_current_candidate at hr
  cases hl : h.hanja_list with
  | none => simp [hl] at hr
  | some list =>
    simp only [hl] at hr
    split at hr
    · rename_i key value _ _
      simp only [Option.some.injEq] at hr
      exact ⟨key, value, hr.symm⟩
    · simp at hr

theorem candidate_commit_and_refresh_shadow {σ : Type} (ic : Composer σ) (cfg : Config)
    (env : Env) (h : IBusHangulEngine σ) (host : List Nat) (r : Outcome σ)
    (hlaws : ComposerLaws ic)
    (hr : candidate_commit_and_refresh ic cfg env h = some r)
    (hinv : ShadowInvariant ic h host) (hl : h.hanja_list ≠ none) :
    ShadowInvariant ic r.engine (host_apply host r.cmds) := by
  obtain ⟨i1, i2, i3, i4⟩ := hinv
  unfold candidate_commit_and_refresh at hr
  cases hc : ibus_hangul_engine_commit_current_candidate ic h with
  | none => simp [hc] at hr
  | some r1 =>
    obtain ⟨key, value, hkv⟩ := commit_current_candidate_some ic h r1 hc
    obtain ⟨c1, c2, c3, c4, c5, -⟩ := commit_candidate_shadow ic h key value hlaws i1 i3 (i4 hl)
    rw [← hkv] at c1 c2 c3 c4 c5
    have hinv1 : ∀ X : List Nat, ShadowInvariant ic r1.1 X := fun X =>
      ⟨c3, by rw [c1]; exact List.nil_suffix, by rw [c1, c2], by rw [c4, c5]; exact i4⟩
    simp only [hc] at hr
    split_ifs at hr with hcond
    · cases hu : ibus_hangul_engine_update_lookup_table ic cfg env r1.1 with
      | none => simp [hu] at hr
      | some r2 =>
        simp only [hu, Option.some.injEq] at hr
        subst hr
        obtain ⟨s1, s2⟩ := update_lookup_table_shadow ic cfg env r1.1 (host_apply host r1.2) r2 hu
          c3 (by rw [c1]; exact List.nil_suffix) (by rw [c1, c2])
        simp only [host_apply_append, s2]
        exact s1
    · simp only [Option.some.injEq] at hr
      subst hr
      obtain ⟨s1, s2⟩ := hide_lookup_table_shadow ic r1.1 (host_apply host r1.2) (hinv1 _)
      simp only [host_apply_append, s2]
      exact s1

theorem candidate_navigate_shadow {σ : Type} (ic : Composer σ)
    (move : IBusLookupTable → IBusLookupTable) (h : IBusHangulEngine σ) (host : List Nat)
    (r : Outcome σ)
    (hr : candidate_navigate move h = some r)
    (hinv : ShadowInvariant ic h host) :
    ShadowInvariant ic r.engine (host_apply host r.cmds) := by
  unfold candidate_navigate at hr
  simp only at hr
  split at hr
  · simp at hr
  · rename_i cmds hui
    simp only [Option.some.injEq] at hr
    subst hr
    obtain ⟨hd, hc⟩ := no_edit_update_lookup_table_ui _ _ hui
    simp only [host_apply_of_no_edit _ _ hd hc]
    exact hinv

theorem process_candidate_key_event_shadow {σ : Type} (ic : Composer σ) (cfg : Config)
    (env : Env) (h : IBusHangulEngine σ) (host : List Nat) (keyval modifiers : Nat)
    (r : Outcome σ) (hlaws : ComposerLaws ic)
    (hr : ibus_hangul_engine_process_candidate_key_event ic cfg env h keyval modifiers = some r)
    (hinv : ShadowInvariant ic h host) (hl : h.hanja_list ≠ none) :
    ShadowInvariant ic r.engine (host_apply host r.cmds) := by
  unfold ibus_hangul_engine_process_candidate_key_event at hr
  by_cases h1 : keyval = IBUS_Escape
  · simp only [h1, if_true, Option.some.injEq] at hr
    subst hr
    obtain ⟨s1, s2⟩ := hide_lookup_table_shadow ic h host hinv
    simp only [host_apply_append, s2, host_apply_of_no_edit _ _ (deletes_update_preedit_text _ _)
      (commits_update_preedit_text _ _)]
    exact s1
  · simp only [h1, if_false] at hr
    by_cases h2 : keyval = IBUS_Return
    · simp only [h2, if_true] at hr
      exact candidate_commit_and_refresh_shadow ic cfg env h host r hlaws hr hinv hl
    · simp only [h2, if_false] at hr
      by_cases h3 : keyval ≥ IBUS_1 ∧ keyval ≤ IBUS_9
      · simp only [h3, and_self, if_true] at hr
        by_cases h4 : ibus_lookup_table_get_page_size h.table = 0
        · simp [h4] at hr
        · simp only [h4, if_false] at hr
          exact candidate_commit_and_refresh_shadow ic cfg env _ host r hlaws hr hinv hl
      · simp only [h3, if_false] at hr
        by_cases h5 : keyval = IBUS_Page_Up
        · simp only [h5, if_true] at hr
          exact candidate_navigate_shadow ic _ h host r hr hinv
        · simp only [h5, if_false] at hr
          by_cases h6 : keyval = IBUS_Page_Down
          · simp only [h6, if_true] at hr
            exact candidate_navigate_shadow ic _ h host r hr hinv
          · simp only [h6, if_false] at hr
            cases ha : candidate_arrow_move cfg keyval with
            | some move =>
              simp only [ha] at hr
              exact candidate_navigate_shadow ic _ h host r hr hinv
            | none =>
              simp only [ha] at hr
              cases hv : (if h.hanja_mode = false then candidate_vi_move cfg keyval
                  else none) with
              | some move =>
                simp only [hv] at hr
                exact candidate_navigate_shadow ic _ h host r hr hinv
              | none =>
                simp only [hv, Option.some.injEq] at hr
                subst hr
                exact hinv


theorem host_apply_delete_commit (host : List Nat) (n : Nat) (t : List Nat) :
    host_apply host [Cmd.delete_surrounding_text (-(n : Int)) n, Cmd.commit_text t] =
      host.take (host.length - n) ++ t := by
  have h1 : ((host.length : Int) + -(n : Int)).toNat = host.length - n := by omega
  have h2 : ((host.length : Int) + min 0 (-(n : Int) + (n : Int))).toNat = host.length := by
    omega
  simp [host_apply, host_apply_cmd, h1, h2]

theorem process_commit_and_edit_shadow {σ : Type} (ic : Composer σ) (h : IBusHangulEngine σ)
    (host : List Nat)
    (hmode : h.preedit_mode = PREEDIT_MODE_NONE)
    (hsuf : h.preedit <:+ host ∨ ic.hangul_ic_get_preedit_string h.context = [])
    (hm : h.hanja_list ≠ none → h.last_lookup_method ≠ LOOKUP_METHOD_PREFIX) :
    ShadowInvariant ic (ibus_hangul_engine_process_commit_and_edit ic h).1
      (host_apply host (ibus_hangul_engine_process_commit_and_edit ic h).2) := by
  obtain ⟨hc, -⟩ := process_commit_and_edit_spec ic h
  simp only [ShadowInvariant, process_commit_and_edit_preedit_mode,
    process_commit_and_edit_preedit, process_commit_and_edit_context,
    process_commit_and_edit_hanja_list, process_commit_and_edit_last_lookup_method, hc]
  refine ⟨hmode, ?_, trivial, hm⟩
  split_ifs with heq
  · rcases hsuf with hs | hq
    · rw [← heq] at hs
      exact (List.suffix_append _ _).trans hs
    · rw [hq]
      exact List.nil_suffix
  · rw [ustring_length, host_apply_delete_commit, ← List.append_assoc]
    exact List.suffix_append _ _

theorem flush_shadow {σ : Type} (ic : Composer σ) (h : IBusHangulEngine σ) (host : List Nat)
    (hlaws : ComposerLaws ic) (hmode : h.preedit_mode = PREEDIT_MODE_NONE) :
    ShadowInvariant ic (ibus_hangul_engine_flush ic h).1 host := by
  obtain ⟨-, hflush, -⟩ := hlaws
  simp only [ShadowInvariant, flush_preedit_mode, flush_preedit, flush_context,
    flush_hanja_list, hflush]
  exact ⟨hmode, List.nil_suffix, trivial, fun hc => absurd rfl hc⟩

theorem set_input_mode_shadow {σ : Type} (ic : Composer σ) (cfg : Config)
    (h : IBusHangulEngine σ) (host : List Nat) (input_mode : Int)
    (hlaws : ComposerLaws ic) (hmode : h.preedit_mode = PREEDIT_MODE_NONE) :
    ShadowInvariant ic (ibus_hangul_engine_set_input_mode ic cfg h input_mode).1 host := by
  unfold ibus_hangul_engine_set_input_mode
  split_ifs
  · exact flush_shadow ic h host hlaws hmode
  · exact flush_shadow ic h host hlaws hmode

theorem check_caret_pos_sanity_shadow {σ : Type} (ic : Composer σ) (st : SurroundingText)
    (h h1 : IBusHangulEngine σ) (host : List Nat) (hlaws : ComposerLaws ic)
    (hinv : ShadowInvariant ic h host)
    (hc : ibus_hangul_engine_check_caret_pos_sanity ic st h = some h1) :
    ShadowInvariant ic h1 host := by
  obtain ⟨hreset, -, -⟩ := hlaws
  obtain ⟨i1, i2, i3, i4⟩ := hinv
  rcases check_caret_pos_sanity_cases ic st h h1 hc with rfl | rfl
  · exact ⟨i1, i2, i3, i4⟩
  · exact ⟨i1, List.nil_suffix, (hreset _).symm, i4⟩

theorem process_key_event_return_shadow {σ : Type} (ic : Composer σ) (cfg : Config)
    (h : IBusHangulEngine σ) (cmds : List Cmd) (retval : Bool) (keyval keycode modifiers : Nat)
    (host : List Nat)
    (hinv : ShadowInvariant ic h (host_apply host cmds)) :
    ShadowInvariant ic
      (process_key_event_return cfg h cmds retval keyval keycode modifiers).engine
      (host_apply host
        (process_key_event_return cfg h cmds retval keyval keycode modifiers).cmds) := by
  unfold process_key_event_return
  split_ifs with hf hr
  · simp only [host_apply_append]
    exact hinv
  · simp only [List.append_nil]
    exact hinv
  · exact hinv


theorem refresh_after_backspace_shadow {σ : Type} (ic : Composer σ) (cfg : Config) (env : Env)
    (h : IBusHangulEngine σ) (host : List Nat) (r : IBusHangulEngine σ × List Cmd)
    (hr : (if h.hanja_mode = true then
             if ibus_hangul_engine_has_preedit ic h = true then
               ibus_hangul_engine_update_lookup_table ic cfg env h
             else some (ibus_hangul_engine_hide_lookup_table h)
           else some (h, [])) = some r)
    (hinv : ShadowInvariant ic h host) :
    ShadowInvariant ic r.1 host ∧ host_apply host r.2 = host := by
  split_ifs at hr
  · exact update_lookup_table_shadow ic cfg env h host r hr hinv.1 hinv.2.1 hinv.2.2.1
  · simp only [Option.some.injEq] at hr
    subst hr
    exact hide_lookup_table_shadow ic h host hinv
  · simp only [Option.some.injEq] at hr
    subst hr
    exact ⟨hinv, rfl⟩

theorem refresh_after_key_shadow {σ : Type} (ic : Composer σ) (cfg : Config) (env : Env)
    (h : IBusHangulEngine σ) (host : List Nat) (r : IBusHangulEngine σ × List Cmd)
    (hr : (if h.hanja_mode = true then ibus_hangul_engine_update_lookup_table ic cfg env h
           else some (h, [])) = some r)
    (hinv : ShadowInvariant ic h host) :
    ShadowInvariant ic r.1 host ∧ host_apply host r.2 = host := by
  split_ifs at hr
  · exact update_lookup_table_shadow ic cfg env h host r hr hinv.1 hinv.2.1 hinv.2.2.1
  · simp only [Option.some.injEq] at hr
    subst hr
    exact ⟨hinv, rfl⟩

theorem process_key_event_edit_shadow {σ : Type} (ic : Composer σ) (cfg : Config) (env : Env)
    (h : IBusHangulEngine σ) (host : List Nat) (keyval keycode modifiers : Nat)
    (r : Outcome σ) (hlaws : ComposerLaws ic)
    (hr : process_key_event_edit ic cfg env h keyval keycode modifiers = some r)
    (hinv : ShadowInvariant ic h host) :
    ShadowInvariant ic r.engine (host_apply host r.cmds) := by
  obtain ⟨i1, i2, i3, i4⟩ := hinv
  have hback := hlaws.2.2
  unfold process_key_event_edit at hr
  by_cases hbs : keyval = IBUS_BackSpace
  · simp only [hbs, if_true, eq_true i1] at hr
    generalize hb : ic.hangul_ic_backspace h.context = b at hr
    generalize hh2 : (if b.2 = false ∧ ustring_length h.preedit > 0 then
        ({ h with context := b.1, preedit := ustring_erase h.preedit (ustring_length h.preedit - 1) 1 } :
          IBusHangulEngine σ)
      else ({ h with context := b.1 } : IBusHangulEngine σ)) = h2 at hr
    have e1 : h2.preedit_mode = PREEDIT_MODE_NONE := by
      rw [← hh2]; split_ifs <;> exact i1
    have e2 : h2.context = b.1 := by
      rw [← hh2]; split_ifs <;> rfl
    have e3 : h2.hanja_list = h.hanja_list ∧ h2.last_lookup_method = h.last_lookup_method := by
      rw [← hh2]; split_ifs <;> exact ⟨rfl, rfl⟩
    have e4 : h2.preedit <:+ host ∨ ic.hangul_ic_get_preedit_string h2.context = [] := by
      rw [e2]
      by_cases hf : b.2 = false
      · right
        rw [← hb]
        apply hback
        rw [hb]
        exact hf
      · left
        rw [← hh2]
        simp only [hf, false_and, if_false]
        exact i2
    have s3 := process_commit_and_edit_shadow ic h2 host e1 e4 (by rw [e3.1, e3.2]; exact i4)
    simp only [e1, if_true] at hr
    split at hr
    · simp at hr
    · rename_i r4 hr4
      simp only [Option.some.injEq] at hr
      subst hr
      obtain ⟨s4, s5⟩ := refresh_after_backspace_shadow ic cfg env _ _ r4 hr4 s3
      apply process_key_event_return_shadow
      simp only [host_apply_append, s5]
      exact s4
  · simp only [hbs, if_false] at hr
    generalize hkey : normalize_keyval cfg (ic.hangul_ic_is_transliteration h.context) keyval
      keycode modifiers = key at hr
    generalize hp : ic.hangul_ic_process h.context key = p at hr
    have s3 := process_commit_and_edit_shadow ic ({ h with context := p.1 } : IBusHangulEngine σ)
      host i1 (Or.inl i2) i4
    simp only [eq_true i1, if_true] at hr
    split at hr
    · simp at hr
    · rename_i r4 hr4
      simp only [Option.some.injEq] at hr
      subst hr
      obtain ⟨s4, s5⟩ := refresh_after_key_shadow ic cfg env _ _ r4 hr4 s3
      apply process_key_event_return_shadow
      by_cases hret : p.2 = false
      · simp only [hret, if_true]
        exact flush_shadow ic r4.1 _ hlaws s4.1
      · simp only [hret, if_false, List.append_nil, host_apply_append, s5]
        exact s4


theorem process_key_event_hotkeys_shadow {σ : Type} (ic : Composer σ) (cfg : Config)
    (env : Env) (h : IBusHangulEngine σ) (host : List Nat) (keyval keycode modifiers : Nat)
    (r : Outcome σ) (hlaws : ComposerLaws ic)
    (hr : process_key_event_hotkeys ic cfg env h keyval keycode modifiers = some r)
    (hinv : ShadowInvariant ic h host) :
    ShadowInvariant ic r.engine (host_apply host r.cmds) := by
  unfold process_key_event_hotkeys at hr
  by_cases h1 : hotkey_list_has_modifier cfg.switch_keys keyval = true
  · simp only [h1, if_true, Option.some.injEq, ne_eq, not_false_eq_true] at hr
    subst hr
    exact hinv
  simp only [h1, if_false, Bool.false_eq_true, ne_eq, not_true_eq_false, not_false_eq_true, if_true] at hr
  by_cases h2 : hotkey_list_match cfg.switch_keys keyval modifiers = true
  · simp only [h2, if_true, Option.some.injEq, ne_eq, not_false_eq_true] at hr
    subst hr
    exact set_input_mode_shadow ic cfg h _ _ hlaws hinv.1
  simp only [h2, if_false, Bool.false_eq_true, ne_eq, not_true_eq_false, not_false_eq_true, if_true] at hr
  by_cases h3 : hotkey_list_match cfg.on_keys keyval modifiers = true
  · simp only [h3, if_true, Option.some.injEq, ne_eq, not_false_eq_true] at hr
    subst hr
    exact set_input_mode_shadow ic cfg h _ _ hlaws hinv.1
  simp only [h3, if_false, Bool.false_eq_true, ne_eq, not_true_eq_false, not_false_eq_true, if_true] at hr
  by_cases h4 : h.input_mode = INPUT_MODE_LATIN
  · simp only [h4, if_true, Option.some.injEq, ne_eq, not_false_eq_true] at hr
    subst hr
    exact hinv
  simp only [h4, if_false, Bool.false_eq_true, ne_eq, not_true_eq_false, not_false_eq_true, if_true] at hr
  by_cases h5 : hotkey_list_match cfg.off_keys keyval modifiers = true
  · simp only [h5, if_true, Option.some.injEq, ne_eq, not_false_eq_true] at hr
    subst hr
    exact set_input_mode_shadow ic cfg h _ _ hlaws hinv.1
  simp only [h5, if_false, Bool.false_eq_true, ne_eq, not_true_eq_false, not_false_eq_true, if_true] at hr
  by_cases h6 : hotkey_list_has_modifier cfg.hanja_keys keyval = true
  · simp only [h6, if_true, Option.some.injEq, ne_eq, not_false_eq_true] at hr
    subst hr
    exact hinv
  simp only [h6, if_false, Bool.false_eq_true, ne_eq, not_true_eq_false, not_false_eq_true, if_true] at hr
  by_cases h7 : hotkey_list_match cfg.hanja_keys keyval modifiers = true
  · simp only [h7, if_true, ne_eq, not_false_eq_true] at hr
    by_cases h8 : h.hanja_list = none
    · simp only [h8, if_true, ne_eq, not_false_eq_true] at hr
      split at hr
      · simp at hr
      · rename_i r1 hr1
        simp only [Option.some.injEq] at hr
        subst hr
        obtain ⟨s1, s2⟩ := update_lookup_table_shadow ic cfg env h host r1 hr1 hinv.1 hinv.2.1
          hinv.2.2.1
        simp only [s2]
        exact s1
    · simp only [h8, if_false, Option.some.injEq] at hr
      subst hr
      obtain ⟨s1, s2⟩ := hide_lookup_table_shadow ic h host hinv
      simp only [s2]
      exact s1
  simp only [h7, if_false, Bool.false_eq_true, ne_eq, not_true_eq_false, not_false_eq_true, if_true] at hr
  by_cases h9 : modifiers &&& (IBUS_CONTROL_MASK ||| IBUS_MOD1_MASK ||| IBUS_MOD3_MASK |||
      IBUS_MOD4_MASK ||| IBUS_MOD5_MASK) ≠ 0
  · simp only [h9, if_true, Option.some.injEq, ne_eq, not_false_eq_true] at hr
    subst hr
    exact flush_shadow ic h _ hlaws hinv.1
  simp only [h9, if_false, Bool.false_eq_true, ne_eq, not_true_eq_false, not_false_eq_true, if_true] at hr
  unfold process_key_event_compose at hr
  simp only [eq_true hinv.1, if_true] at hr
  cases hc : ibus_hangul_engine_check_caret_pos_sanity ic env.surrounding_text_check h with
  | none => simp [hc] at hr
  | some h1 =>
    simp only [hc] at hr
    exact process_key_event_edit_shadow ic cfg env _ host keyval keycode modifiers r hlaws hr
      (check_caret_pos_sanity_shadow ic _ h h1 host hlaws hinv hc)

theorem process_key_event_shadow {σ : Type} (ic : Composer σ) (cfg : Config)
    (env : Env) (h : IBusHangulEngine σ) (host : List Nat) (keyval keycode modifiers : Nat)
    (r : Outcome σ) (hlaws : ComposerLaws ic)
    (hr : ibus_hangul_engine_process_key_event ic cfg env h keyval keycode modifiers = some r)
    (hinv : ShadowInvariant ic h host) :
    ShadowInvariant ic r.engine (host_apply host r.cmds) := by
  unfold ibus_hangul_engine_process_key_event at hr
  by_cases h1 : modifiers &&& IBUS_RELEASE_MASK ≠ 0
  · simp only [h1, if_true, Option.some.injEq, ne_eq, not_false_eq_true] at hr
    subst hr
    exact hinv
  simp only [h1, if_false, Bool.false_eq_true, ne_eq, not_true_eq_false, not_false_eq_true, if_true] at hr
  by_cases h2 : keyval = IBUS_Shift_L ∨ keyval = IBUS_Shift_R
  · simp only [h2, if_true, Option.some.injEq, ne_eq, not_false_eq_true] at hr
    subst hr
    exact hinv
  simp only [h2, if_false, Bool.false_eq_true, ne_eq, not_true_eq_false, not_false_eq_true, if_true] at hr
  by_cases h3 : h.input_purpose = IBUS_INPUT_PURPOSE_PASSWORD
  · simp only [h3, if_true, Option.some.injEq, ne_eq, not_false_eq_true] at hr
    subst hr
    exact hinv
  simp only [h3, if_false, Bool.false_eq_true, ne_eq, not_true_eq_false, not_false_eq_true, if_true] at hr
  by_cases h4 : h.hanja_list ≠ none
  · simp only [h4, if_true, ne_eq, not_false_eq_true] at hr
    split at hr
    · simp at hr
    · rename_i r1 hr1
      have s1 := process_candidate_key_event_shadow ic cfg env h host keyval modifiers r1 hlaws
        hr1 hinv h4
      split_ifs at hr
      · simp only [Option.some.injEq] at hr
        subst hr
        exact s1
      · split at hr
        · simp at hr
        · rename_i r2 hr2
          simp only [Option.some.injEq] at hr
          subst hr
          simp only [host_apply_append]
          exact process_key_event_hotkeys_shadow ic cfg env r1.engine _ keyval keycode modifiers
            r2 hlaws hr2 s1
      · simp only [Option.some.injEq] at hr
        subst hr
        exact s1
  · simp only [h4, if_false, Bool.false_eq_true, ne_eq, not_true_eq_false, not_false_eq_true, if_true] at hr
    exact process_key_event_hotkeys_shadow ic cfg env h host keyval keycode modifiers r hlaws hr
      hinv

theorem run_key_events_shadow {σ : Type} (ic : Composer σ) (cfg : Config)
    (hlaws : ComposerLaws ic) (events : List KeyInput) :
    ∀ (h : IBusHangulEngine σ) (host : List Nat) (r : IBusHangulEngine σ × List Cmd),
      run_key_events ic cfg h events = some r → ShadowInvariant ic h host →
      ShadowInvariant ic r.1 (host_apply host r.2) := by
  induction events with
  | nil =>
    intro h host r hr hinv
    simp only [run_key_events, Option.some.injEq] at hr
    subst hr
    exact hinv
  | cons e es ih =>
    intro h host r hr hinv
    simp only [run_key_events] at hr
    split at hr
    · simp at hr
    · rename_i r1 hr1
      split at hr
      · simp at hr
      · rename_i r2 hr2
        simp only [Option.some.injEq] at hr
        subst hr
        simp only [host_apply_append]
        exact ih r1.engine _ r2 hr2
          (process_key_event_shadow ic cfg e.env h host e.keyval e.keycode e.modifiers r1 hlaws
            hr1 hinv)

/-! ### C1: candidate excision -/

set_option maxHeartbeats 1000000 in
/-- Accounting of `commit_candidate`: the three lengths are never negative, and
their sum is the key length exactly in the listed cases. -/
theorem commit_candidate_accounting {σ : Type} (ic : Composer σ) (h : IBusHangulEngine σ)
    (key value : List Nat)
    (hreset : ∀ s, ic.hangul_ic_get_preedit_string (ic.hangul_ic_reset s) = []) :
    0 ≤ erased_from_pending h (commit_candidate ic h key value).1 ∧
    0 ≤ live_preedit_removed ic h (commit_candidate ic h key value).1 ∧
    0 ≤ delete_requested (commit_candidate ic h key value).2 ∧
    (erased_from_pending h (commit_candidate ic h key value).1 +
        live_preedit_removed ic h (commit_candidate ic h key value).1 +
        delete_requested (commit_candidate ic h key value).2 = key.length ↔
      if h.last_lookup_method = LOOKUP_METHOD_PREFIX then
        (ustring_length h.preedit = 0 ∧ (ic.hangul_ic_get_preedit_string h.context).length = 0) ∨
        key.length ≤ ustring_length h.preedit ∨
        key.length = ustring_length h.preedit + (ic.hangul_ic_get_preedit_string h.context).length
      else (ic.hangul_ic_get_preedit_string h.context).length = 0 ∨
        (h.preedit_mode ≠ PREEDIT_MODE_NONE ∧
          (ic.hangul_ic_get_preedit_string h.context).length ≤ key.length)) := by
  simp only [erased_from_pending, live_preedit_removed, delete_requested,
    commit_candidate, deletes_append, deletes_update_preedit_text, ustring_length,
    ibus_hangul_engine_clear_preedit_text]
  by_cases hm : h.last_lookup_method = LOOKUP_METHOD_PREFIX
  · simp only [hm, if_true]
    by_cases hz : (h.preedit.length : Int) = 0 ∧
        ((ic.hangul_ic_get_preedit_string h.context).length : Int) = 0
    · simp only [hz, and_self, if_true]
      split_ifs <;>
        simp only [deletes, List.map, List.sum_cons, List.sum_nil, List.length_nil,
          List.append_nil, List.nil_append] <;>
        omega
    · simp only [hz, if_false]
      split_ifs <;>
        (try simp only [deletes, List.map, List.sum_cons, List.sum_nil, List.length_nil,
          List.append_nil, List.nil_append, ustring_erase_length_ite, hreset,
          Int.toNat_ofNat] at *) <;>
        (try split_ifs at *) <;>
        omega
  · simp only [hm, if_false]
    by_cases hn : h.preedit_mode = PREEDIT_MODE_NONE
    · simp only [hn, ne_eq, not_true_eq_false, false_and, and_false, or_false, and_true, if_true]
      by_cases hq : (0 : Int) < (ic.hangul_ic_get_preedit_string h.context).length
      · simp only [hq, if_true]
        by_cases hpq : (h.preedit.length : Int) >
            (ic.hangul_ic_get_preedit_string h.context).length
        · simp only [hpq, if_true]
          split_ifs <;>
          (try simp only [deletes, List.map, List.sum_cons, List.sum_nil, List.length_nil,
            List.append_nil, List.nil_append, ustring_erase_length_ite, hreset,
            Int.toNat_ofNat] at *) <;>
          (try split_ifs at *) <;>
          omega
        · simp only [hpq, if_false]
          split_ifs <;>
          (try simp only [deletes, List.map, List.sum_cons, List.sum_nil, List.length_nil,
            List.append_nil, List.nil_append, ustring_erase_length_ite, hreset,
            Int.toNat_ofNat] at *) <;>
          (try split_ifs at *) <;>
          omega
      · simp only [hq, if_false]
        split_ifs <;>
          (try simp only [deletes, List.map, List.sum_cons, List.sum_nil, List.length_nil,
            List.append_nil, List.nil_append, ustring_erase_length_ite, hreset,
            Int.toNat_ofNat] at *) <;>
          (try split_ifs at *) <;>
          omega
    · simp only [hn, ne_eq, not_false_eq_true, true_and, and_true, and_false, if_false]
      by_cases hq : (0 : Int) < (ic.hangul_ic_get_preedit_string h.context).length
      · simp only [hq, if_true]
        split_ifs <;>
          (try simp only [deletes, List.map, List.sum_cons, List.sum_nil, List.length_nil,
            List.append_nil, List.nil_append, ustring_erase_length_ite, hreset,
            Int.toNat_ofNat] at *) <;>
          (try split_ifs at *) <;>
          omega
      · simp only [hq, if_false]
        split_ifs <;>
          (try simp only [deletes, List.map, List.sum_cons, List.sum_nil, List.length_nil,
            List.append_nil, List.nil_append, ustring_erase_length_ite, hreset,
            Int.toNat_ofNat] at *) <;>
          (try split_ifs at *) <;>
          omega


/-- C2, refuted as stated: in preedit mode None with 가 both in the composer and
in the shadow PendingBuffer, committing the candidate for the one-codepoint key
가 erases 1 codepoint from PendingBuffer, resets a live preedit of 1 codepoint
and requests the deletion of 1 codepoint: 3 in total, not 1. -/
theorem C2_counterexample :
    (hanja_list_get_nth_key [{ key := [0xAC00], value := [0x53EF], comment := [] }]
      (ibus_lookup_table_get_cursor_pos shadow_engine.table)).map List.length = some 1 ∧
    (ibus_hangul_engine_commit_current_candidate sample_composer shadow_engine).map
      (fun r => (erased_from_pending shadow_engine r.1,
        live_preedit_removed sample_composer shadow_engine r.1,
        delete_requested r.2)) = some (1, 1, 1) := by
  decide

/-- C2, amended: for a composer whose reset empties its preedit, a candidate
commit never erases, removes or requests a negative number of codepoints, and
the codepoints erased from PendingBuffer plus the live preedit removed by the
composer reset plus the length requested for host deletion equal the key length
k exactly in these cases: under Exact or Suffix, when the live preedit is empty,
or when preeditMode is not None and the live preedit is no longer than k; under
Prefix, when PendingBuffer and live preedit are both empty, or k is at most
len(PendingBuffer), or k = len(PendingBuffer) + len(live preedit). -/
theorem C2_candidate_accounting {σ : Type} (ic : Composer σ) (h : IBusHangulEngine σ)
    (list : HanjaList) (c : Hanja)
    (hreset : ∀ s, ic.hangul_ic_get_preedit_string (ic.hangul_ic_reset s) = [])
    (hlist : h.hanja_list = some list)
    (hcand : list[ibus_lookup_table_get_cursor_pos h.table]? = some c) :
    ∃ r, ibus_hangul_engine_commit_current_candidate ic h = some r ∧
      0 ≤ erased_from_pending h r.1 ∧
      0 ≤ live_preedit_removed ic h r.1 ∧
      0 ≤ delete_requested r.2 ∧
      (erased_from_pending h r.1 + live_preedit_removed ic h r.1 + delete_requested r.2 =
          c.key.length ↔
        if h.last_lookup_method = LOOKUP_METHOD_PREFIX then
          (ustring_length h.preedit = 0 ∧
            (ic.hangul_ic_get_preedit_string h.context).length = 0) ∨
          c.key.length ≤ ustring_length h.preedit ∨
          c.key.length = ustring_length h.preedit +
            (ic.hangul_ic_get_preedit_string h.context).length
        else (ic.hangul_ic_get_preedit_string h.context).length = 0 ∨
          (h.preedit_mode ≠ PREEDIT_MODE_NONE ∧
            (ic.hangul_ic_get_preedit_string h.context).length ≤ c.key.length)) :=
  ⟨commit_candidate ic h c.key c.value, commit_current_candidate_eq ic h list c hlist hcand,
    commit_candidate_accounting ic h c.key c.value hreset⟩

/-- C2, witness: in preedit mode Syllable with 가 live in the composer, committing
the candidate for the key 가 accounts for exactly 1 codepoint. -/
theorem C2_candidate_accounting_witness :
    ∃ r, ibus_hangul_engine_commit_current_candidate sample_composer syllable_engine = some r ∧
      erased_from_pending syllable_engine r.1 +
        live_preedit_removed sample_composer syllable_engine r.1 + delete_requested r.2 = 1 := by
  obtain ⟨r, hr, _, _, _, hiff⟩ := C2_candidate_accounting sample_composer syllable_engine
    [{ key := [0xAC00], value := [0x53EF], comment := [] }]
    { key := [0xAC00], value := [0x53EF], comment := [] }
    (fun _ => rfl) rfl rfl
  exact ⟨r, hr, hiff.mpr (by decide)⟩

/-! ### C3: immediate reconciliation -/

/-- C3: `ibus_hangul_engine_process_commit_and_edit`, the reconciliation that runs in
preedit mode None, with composer commit-string c and preedit-string q: when
c ++ q equals PendingBuffer it issues no host call; otherwise it issues exactly
a deleteSurroundingText of len(PendingBuffer) codepoints ending at the caret
followed by commitText (c ++ q); in both cases PendingBuffer afterwards is q. -/
theorem C3_reconcile_immediate {σ : Type} (ic : Composer σ) (h : IBusHangulEngine σ) :
    (ibus_hangul_engine_process_commit_and_edit ic h).2 =
      (if ic.hangul_ic_get_commit_string h.context ++ ic.hangul_ic_get_preedit_string h.context
          = h.preedit then []
       else [Cmd.delete_surrounding_text (-(ustring_length h.preedit : Int))
               (ustring_length h.preedit),
             Cmd.commit_text (ic.hangul_ic_get_commit_string h.context ++
               ic.hangul_ic_get_preedit_string h.context)]) ∧
    (ibus_hangul_engine_process_commit_and_edit ic h).1.preedit =
      ic.hangul_ic_get_preedit_string h.context :=
  process_commit_and_edit_spec ic h

/-! ### C4: flush in preedit mode None -/

/-- The sample composer satisfies the composer laws. -/
theorem sample_composer_laws : ComposerLaws sample_composer := by
  refine ⟨fun s => rfl, fun s => rfl, fun s hs => ?_⟩
  simp only [sample_composer] at hs ⊢
  split_ifs at hs ⊢
  all_goals simp_all

/-- C4, the code at the failing input: typing r, k in preedit mode None leaves 가 in
the host text, in the shadow PendingBuffer and in the composer; a Control-modified
key then runs the flush, which issues no deleteSurroundingText and commits
"가가" on top of the 가 the host already has, so the host text becomes "가가가". -/
theorem C4_flush_recommits_shadow :
    (run_key_events sample_composer sample_config (sample_engine PREEDIT_MODE_NONE)
        [sample_key [] 0x72 0, sample_key [0x3131] 0x6b 0]).map
      (fun r => (r.1, host_apply [] r.2)) = some (desync_engine, [0xAC00]) ∧
    (ibus_hangul_engine_process_key_event sample_composer sample_config (host_env [0xAC00])
        desync_engine 0x73 0 IBUS_CONTROL_MASK).map
      (fun r => (deletes r.cmds, commits r.cmds, host_apply [0xAC00] r.cmds, r.retval)) =
        some ([], [[0xAC00, 0xAC00]], [0xAC00, 0xAC00, 0xAC00], false) := by
  decide

/-! ### C5: no-duplication invariant -/

/-- C5: with a host that applies deleteSurroundingText and commitText faithfully
at the caret, and a composer that has no live preedit after a reset, a flush or
a failed backspace, every state reached in preedit mode None by key events from
a fresh session (empty PendingBuffer, empty composer, no CandidateSet), whatever
the surroundings answer during each event, is still in preedit mode None and
has PendingBuffer equal to a suffix of the host text before the caret. -/
theorem C5_no_duplication {σ : Type} (ic : Composer σ) (cfg : Config)
    (h : IBusHangulEngine σ) (host : List Nat) (events : List KeyInput)
    (r : IBusHangulEngine σ × List Cmd)
    (hlaws : ComposerLaws ic)
    (hmode : h.preedit_mode = PREEDIT_MODE_NONE)
    (hpending : h.preedit = [])
    (hlive : ic.hangul_ic_get_preedit_string h.context = [])
    (hlist : h.hanja_list = none)
    (hrun : run_key_events ic cfg h events = some r) :
    r.1.preedit_mode = PREEDIT_MODE_NONE ∧ r.1.preedit <:+ host_apply host r.2 := by
  have hinv : ShadowInvariant ic h host :=
    ⟨hmode, by rw [hpending]; exact List.nil_suffix, by rw [hpending, hlive],
      fun hc => absurd hlist hc⟩
  obtain ⟨s1, s2, -, -⟩ := run_key_events_shadow ic cfg hlaws events h host r hrun hinv
  exact ⟨s1, s2⟩

/-- C5, witness: after the keys r, k in preedit mode None on a host holding "a",
PendingBuffer is 가 and the host text before the caret is "a가". -/
theorem C5_no_duplication_witness :
    (run_key_events sample_composer sample_config (sample_engine PREEDIT_MODE_NONE)
        [sample_key [] 0x72 0, sample_key [0x3131] 0x6b 0]).map
      (fun r => (r.1.preedit, host_apply [0x61] r.2)) = some ([0xAC00], [0x61, 0xAC00]) ∧
    ([0xAC00] : List Nat) <:+ [0x61, 0xAC00] := by
  have hrun : run_key_events sample_composer sample_config (sample_engine PREEDIT_MODE_NONE)
      [sample_key [] 0x72 0, sample_key [0x3131] 0x6b 0] =
      some (desync_engine, [Cmd.delete_surrounding_text 0 0, Cmd.commit_text [0x3131],
        Cmd.delete_surrounding_text (-1) 1, Cmd.commit_text [0xAC00]]) := by decide
  have h := C5_no_duplication sample_composer sample_config (sample_engine PREEDIT_MODE_NONE)
    [0x61] [sample_key [] 0x72 0, sample_key [0x3131] 0x6b 0] _ sample_composer_laws rfl rfl rfl
    rfl hrun
  exact ⟨by rw [hrun]; decide, h.2⟩

/-! ### C6: no-loss invariant -/

/-- C6, refuted as stated: in preedit mode Word the unmodified, non-backspace keys
r, k, F9, Return open the CandidateSet for 가 and select its first candidate, so
the text committed is 可 whereas the composer's own output for those keys is 가. -/
theorem C6_counterexample :
    WordComposing (sample_engine PREEDIT_MODE_WORD) ∧
    (sample_engine PREEDIT_MODE_WORD).preedit = [] ∧
    (∀ e ∈ [sample_key [] 0x72 0, sample_key [] 0x6b 0, sample_key [] IBUS_F9 0,
        sample_key [] IBUS_Return 0],
      e.modifiers = 0 ∧ e.keyval ≠ IBUS_BackSpace) ∧
    (run_key_events sample_composer sample_config (sample_engine PREEDIT_MODE_WORD)
        [sample_key [] 0x72 0, sample_key [] 0x6b 0, sample_key [] IBUS_F9 0,
          sample_key [] IBUS_Return 0]).map
      (fun r => (commits r.2).flatten ++ r.1.preedit) = some [0x53EF] ∧
    composer_output sample_composer sample_config (sample_engine PREEDIT_MODE_WORD).context
        [sample_key [] 0x72 0, sample_key [] 0x6b 0, sample_key [] IBUS_F9 0,
          sample_key [] IBUS_Return 0] = [0xAC00] := by
  refine ⟨⟨rfl, rfl, rfl, by decide, by decide⟩, rfl, by decide, by decide, by decide⟩

/-- C6, amended: for every sequence of non-backspace key-downs that reach normal
composition (no hotkey binding matches, no Control/Alt-type modifier), handled
in Hangul mode with preedit mode Word and hanja-lock off, starting from an
empty PendingBuffer and no CandidateSet, no event aborts and the concatenation
of all texts committed so far followed by the current PendingBuffer equals the
concatenation, in order, of the composer's commit-strings and flush outputs for
those keys; the session's composer is in the state the composer alone reaches. -/
theorem C6_no_loss {σ : Type} (ic : Composer σ) (cfg : Config)
    (h : IBusHangulEngine σ) (events : List KeyInput)
    (hsession : WordComposing h)
    (hpending : h.preedit = [])
    (hkeys : ∀ e ∈ events, composing_key cfg e.keyval e.modifiers ∧ e.keyval ≠ IBUS_BackSpace) :
    ∃ r, run_key_events ic cfg h events = some r ∧
      (commits r.2).flatten ++ r.1.preedit = composer_output ic cfg h.context events ∧
      r.1.context = composer_state ic cfg h.context events := by
  obtain ⟨r, hr, -, hacc, hctx⟩ := run_key_events_word ic cfg events h hsession hkeys
  rw [hpending, List.nil_append] at hacc
  exact ⟨r, hr, hacc, hctx⟩

/-- C6, witness: the keys r, k, r, 1 in preedit mode Word commit 가 and ㄱ, each
once and in order. -/
theorem C6_no_loss_witness :
    ∃ r, run_key_events sample_composer sample_config (sample_engine PREEDIT_MODE_WORD)
        [sample_key [] 0x72 0, sample_key [] 0x6b 0, sample_key [] 0x72 0, sample_key [] 0x31 0]
        = some r ∧
      (commits r.2).flatten ++ r.1.preedit = [0xAC00, 0x3131] := by
  obtain ⟨r, hr, hacc, -⟩ := C6_no_loss sample_composer sample_config
    (sample_engine PREEDIT_MODE_WORD)
    [sample_key [] 0x72 0, sample_key [] 0x6b 0, sample_key [] 0x72 0, sample_key [] 0x31 0]
    ⟨rfl, rfl, rfl, by decide, by decide⟩ rfl (by decide)
  exact ⟨r, hr, hacc.trans (by decide)⟩

/-! ### C7: buffered reconciliation -/

/-- C7: `ibus_hangul_engine_process_edit_and_commit`.  With preedit mode Word or
hanja-lock on, the commit-string c is appended to PendingBuffer and the whole
PendingBuffer is committed as one commitText and cleared exactly when the
composer's preedit-string is empty and PendingBuffer ++ c is non-empty, so that
afterwards the composer's preedit is non-empty or PendingBuffer is empty;
otherwise c is committed directly exactly when it is non-empty and
PendingBuffer is unchanged. -/
theorem C7_reconcile_buffered {σ : Type} (ic : Composer σ) (h : IBusHangulEngine σ) :
    (h.preedit_mode = PREEDIT_MODE_WORD ∨ h.hanja_mode = true →
      (commits (ibus_hangul_engine_process_edit_and_commit ic h).2 =
          (if ic.hangul_ic_get_preedit_string h.context = [] ∧
              h.preedit ++ ic.hangul_ic_get_commit_string h.context ≠ [] then
            [h.preedit ++ ic.hangul_ic_get_commit_string h.context]
           else []) ∧
        (ibus_hangul_engine_process_edit_and_commit ic h).1.preedit =
          (if ic.hangul_ic_get_preedit_string h.context = [] then []
           else h.preedit ++ ic.hangul_ic_get_commit_string h.context) ∧
        (ic.hangul_ic_get_preedit_string
            (ibus_hangul_engine_process_edit_and_commit ic h).1.context ≠ [] ∨
          (ibus_hangul_engine_process_edit_and_commit ic h).1.preedit = []))) ∧
    (¬ (h.preedit_mode = PREEDIT_MODE_WORD ∨ h.hanja_mode = true) →
      commits (ibus_hangul_engine_process_edit_and_commit ic h).2 =
          (if ic.hangul_ic_get_commit_string h.context ≠ [] then
            [ic.hangul_ic_get_commit_string h.context]
           else []) ∧
        (ibus_hangul_engine_process_edit_and_commit ic h).1.preedit = h.preedit) :=
  process_edit_and_commit_spec ic h

/-! ### C8: flush -/

/-- C8: flush with PendingBuffer b and composer flush output f issues exactly one
commitText, of b ++ f, when b ++ f is non-empty and none when it is empty; it
leaves PendingBuffer empty, no CandidateSet active and the composer flushed. -/
theorem C8_flush {σ : Type} (ic : Composer σ) (h : IBusHangulEngine σ) :
    commits (ibus_hangul_engine_flush ic h).2 =
      (if h.preedit ++ (ic.hangul_ic_flush h.context).2 = [] then []
       else [h.preedit ++ (ic.hangul_ic_flush h.context).2]) ∧
    (ibus_hangul_engine_flush ic h).1.preedit = [] ∧
    (ibus_hangul_engine_flush ic h).1.hanja_list = none ∧
    (ibus_hangul_engine_flush ic h).1.context = (ic.hangul_ic_flush h.context).1 :=
  flush_spec ic h

/-! ### C9: focus-out -/

/-- C9 fails on a session with hanja-lock on whose dictionary knows ㄱ but not 가.
After the keys r, k in preedit mode Syllable the composer's preedit is 가,
PendingBuffer is empty, nothing is committed and no CandidateSet is open; the
last preedit update the host got carries 가 with focus mode Clear, set while the
candidates for ㄱ were still listed, and no update with focus mode Commit follows
the failed lookup.  The focus-out operation then issues no host call, resets the
composer and clears PendingBuffer.  With hanja-lock off the same keys end with a
preedit update that carries 가 with focus mode Commit. -/
theorem C9_focus_out_drops_syllable :
    (run_key_events sample_composer jamo_config hanja_lock_engine
        [sample_key [] 0x72 0, sample_key [] 0x6b 0]).map
      (fun r => (sample_composer.hangul_ic_get_preedit_string r.1.context, r.1.preedit,
        r.1.hanja_list)) = some ([0xAC00], [], none) ∧
    (run_key_events sample_composer jamo_config hanja_lock_engine
        [sample_key [] 0x72 0, sample_key [] 0x6b 0]).map
      (fun r => (commits r.2, last_preedit_update r.2)) =
      some ([], some ([0xAC00], true, IBusPreeditFocusMode.IBUS_ENGINE_PREEDIT_CLEAR)) ∧
    (run_key_events sample_composer jamo_config hanja_lock_engine
        [sample_key [] 0x72 0, sample_key [] 0x6b 0]).map
      (fun r => ((ibus_hangul_engine_focus_out sample_composer r.1).2,
        (ibus_hangul_engine_focus_out sample_composer r.1).1.preedit,
        sample_composer.hangul_ic_get_preedit_string
          (ibus_hangul_engine_focus_out sample_composer r.1).1.context)) =
      some ([], [], []) ∧
    (run_key_events sample_composer sample_config (sample_engine PREEDIT_MODE_SYLLABLE)
        [sample_key [] 0x72 0, sample_key [] 0x6b 0]).map
      (fun r => (r.1, last_preedit_update r.2)) =
      some (syllable_typed_engine,
        some ([0xAC00], true, IBusPreeditFocusMode.IBUS_ENGINE_PREEDIT_COMMIT)) := by
  refine ⟨by decide, by decide, by decide, by decide⟩

/-! ### C10: desync recovery -/

theorem forwards_append (a b : List Cmd) : forwards (a ++ b) = forwards a ++ forwards b := by
  induction a with
  | nil => rfl
  | cons c cs ih => cases c <;> simp [forwards, ih]

theorem forwards_update_preedit_text {σ : Type} (ic : Composer σ) (h : IBusHangulEngine σ) :
    forwards (ibus_hangul_engine_update_preedit_text ic h) = [] := by
  simp only [ibus_hangul_engine_update_preedit_text]
  split_ifs <;> rfl

theorem forwards_hide_lookup_table {σ : Type} (h : IBusHangulEngine σ) :
    forwards (ibus_hangul_engine_hide_lookup_table h).2 = [] := by
  simp only [ibus_hangul_engine_hide_lookup_table]
  split_ifs <;> rfl

theorem forwards_process_commit_and_edit {σ : Type} (ic : Composer σ) (h : IBusHangulEngine σ) :
    forwards (ibus_hangul_engine_process_commit_and_edit ic h).2 = [] := by
  simp only [ibus_hangul_engine_process_commit_and_edit]
  split_ifs <;> rfl

theorem forwards_process_edit_and_commit {σ : Type} (ic : Composer σ) (h : IBusHangulEngine σ) :
    forwards (ibus_hangul_engine_process_edit_and_commit ic h).2 = [] := by
  simp only [ibus_hangul_engine_process_edit_and_commit, ibus_hangul_engine_clear_preedit_text]
  split_ifs <;> simp [forwards_append, forwards_update_preedit_text, forwards]

theorem forwards_flush {σ : Type} (ic : Composer σ) (h : IBusHangulEngine σ) :
    forwards (ibus_hangul_engine_flush ic h).2 = [] := by
  simp only [ibus_hangul_engine_flush, ibus_hangul_engine_clear_preedit_text]
  split_ifs <;> simp [forwards_append, forwards_update_preedit_text, forwards_hide_lookup_table,
    forwards]


theorem forwards_update_lookup_table {σ : Type} (ic : Composer σ) (cfg : Config) (env : Env)
    (h : IBusHangulEngine σ) (r : IBusHangulEngine σ × List Cmd)
    (hr : ibus_hangul_engine_update_lookup_table ic cfg env h = some r) :
    forwards r.2 = [] ∧ r.1.preedit = h.preedit ∧ r.1.context = h.context := by
  obtain ⟨h1, hu, hr⟩ := update_lookup_table_some ic cfg env h r hr
  obtain ⟨u1, u2, _, _⟩ := update_hanja_list_frame ic cfg env h h1 hu
  split_ifs at hr with hl
  · cases ha : ibus_hangul_engine_apply_hanja_list h1 with
    | none => simp [ha] at hr
    | some a =>
      simp only [ha, Option.some.injEq] at hr
      subst hr
      obtain ⟨⟨a1, a2, _, _, _⟩, _, _⟩ := apply_hanja_list_some _ _ ha
      refine ⟨?_, a1.trans u1, a2.trans u2⟩
      simp only [forwards_append, forwards_update_preedit_text, List.nil_append]
      unfold ibus_hangul_engine_apply_hanja_list at ha
      cases hlist : h1.hanja_list with
      | none => exact absurd hlist hl
      | some list =>
        simp only [hlist] at ha
        split at ha
        · simp at ha
        · rename_i cmds hui
          simp only [Option.some.injEq] at ha
          subst ha
          unfold ibus_hangul_engine_update_lookup_table_ui at hui
          simp only [hlist] at hui
          split at hui
          · simp at hui
          · simp only [Option.some.injEq] at hui
            subst hui
            rfl
  · simp only [Option.some.injEq] at hr
    subst hr
    obtain ⟨f1, f2, _⟩ := hide_lookup_table_frame h1
    exact ⟨forwards_hide_lookup_table _, f1.trans u1, f2.trans u2⟩

theorem h_ibus_text_get_substring_total (text : Option (List Nat)) (p1 p2 : Int)
    (hpos : ∀ t, text = some t → min (max 0 p1) (max 0 p2) ≤ (t.length : Int) + 1) :
    ∃ s, h_ibus_text_get_substring text p1 p2 = some s := by
  cases text with
  | none => exact ⟨_, rfl⟩
  | some t =>
    have hp := hpos t rfl
    unfold h_ibus_text_get_substring
    simp only
    split_ifs <;> first | exact ⟨_, rfl⟩ | (exfalso; omega)

theorem has_preedit_iff {σ : Type} (ic : Composer σ) (h : IBusHangulEngine σ) :
    ibus_hangul_engine_has_preedit ic h = true ↔
      h.preedit ++ ic.hangul_ic_get_preedit_string h.context ≠ [] := by
  unfold ibus_hangul_engine_has_preedit ustring_length
  by_cases hq : ic.hangul_ic_get_preedit_string h.context = []
  · by_cases hp : h.preedit = []
    · simp [hq, hp]
    · have : 0 < h.preedit.length := List.length_pos.mpr hp
      simp [hq, hp, this]
  · simp [hq]

theorem hanja_key_and_method_total {σ : Type} (ic : Composer σ) (st : SurroundingText)
    (h : IBusHangulEngine σ)
    (hsafe : (h.preedit_mode ≠ PREEDIT_MODE_NONE ∧
        (h.preedit_mode = PREEDIT_MODE_WORD ∨ h.hanja_mode = true) ∧
        ibus_hangul_engine_has_preedit ic h = true) ∨ surrounding_text_valid st) :
    ∃ km, hanja_key_and_method ic st h = some km := by
  rcases hsafe with ⟨hmode, hw, hp⟩ | hvalid
  · have hlen : ustring_length (ustring_append_ucs4 h.preedit
        (ic.hangul_ic_get_preedit_string h.context)) > 0 := by
      simp only [ustring_length, ustring_append_ucs4]
      exact List.length_pos.mpr ((has_preedit_iff ic h).mp hp)
    unfold hanja_key_and_method
    simp only [hmode, ne_eq, not_false_eq_true, if_true, hlen, hw]
    exact ⟨_, rfl⟩
  · have hb : ∀ t, st.text = some t → st.cursor_pos ≤ t.length ∧ st.anchor_pos ≤ t.length := by
      intro t ht
      unfold surrounding_text_valid at hvalid
      simpa only [ht] using hvalid
    obtain ⟨s1, hs1⟩ := h_ibus_text_get_substring_total st.text st.cursor_pos st.anchor_pos
      (fun t ht => by have := hb t ht; omega)
    obtain ⟨s2, hs2⟩ := h_ibus_text_get_substring_total st.text ((st.cursor_pos : Int) - 32)
      st.cursor_pos (fun t ht => by have := hb t ht; omega)
    unfold hanja_key_and_method
    simp only [hs1, hs2, Option.map_some']
    by_cases hm : h.preedit_mode = PREEDIT_MODE_NONE
    · simp only [hm, ne_eq, not_true_eq_false, if_false]
      split_ifs <;> exact ⟨_, rfl⟩
    · simp only [hm, ne_eq, not_false_eq_true, if_true]
      cases s2 <;> (split_ifs <;> exact ⟨_, rfl⟩)

theorem update_hanja_list_total {σ : Type} (ic : Composer σ) (cfg : Config) (env : Env)
    (h : IBusHangulEngine σ)
    (hsafe : (h.preedit_mode ≠ PREEDIT_MODE_NONE ∧
        (h.preedit_mode = PREEDIT_MODE_WORD ∨ h.hanja_mode = true) ∧
        ibus_hangul_engine_has_preedit ic h = true) ∨
      surrounding_text_valid env.surrounding_text_lookup) :
    ∃ h1, ibus_hangul_engine_update_hanja_list ic cfg env h = some h1 := by
  obtain ⟨km, hkm⟩ := hanja_key_and_method_total ic env.surrounding_text_lookup
    ({ h with hanja_list := none } : IBusHangulEngine σ) hsafe
  unfold ibus_hangul_engine_update_hanja_list
  simp only [hkm]
  cases km.1 <;> exact ⟨_, rfl⟩

theorem update_hanja_list_answer {σ : Type} (ic : Composer σ) (cfg : Config) (env : Env)
    (h h1 : IBusHangulEngine σ)
    (hu : ibus_hangul_engine_update_hanja_list ic cfg env h = some h1) :
    h1.hanja_list = none ∨
      ∃ key method, h1.hanja_list = ibus_hangul_engine_lookup_hanja_table cfg key method := by
  unfold ibus_hangul_engine_update_hanja_list at hu
  cases hkm : hanja_key_and_method ic env.surrounding_text_lookup
      ({ h with hanja_list := none } : IBusHangulEngine σ) with
  | none => simp [hkm] at hu
  | some km =>
    simp only [hkm] at hu
    cases hk : km.1 with
    | none =>
      simp only [hk, Option.some.injEq] at hu
      subst hu
      exact Or.inl rfl
    | some k =>
      simp only [hk, Option.some.injEq] at hu
      subst hu
      exact Or.inr ⟨some k, km.2, rfl⟩

theorem update_lookup_table_total {σ : Type} (ic : Composer σ) (cfg : Config) (env : Env)
    (h : IBusHangulEngine σ) (hdict : DictionaryLaws cfg)
    (hsafe : (h.preedit_mode ≠ PREEDIT_MODE_NONE ∧
        (h.preedit_mode = PREEDIT_MODE_WORD ∨ h.hanja_mode = true) ∧
        ibus_hangul_engine_has_preedit ic h = true) ∨
      surrounding_text_valid env.surrounding_text_lookup) :
    ∃ r, ibus_hangul_engine_update_lookup_table ic cfg env h = some r := by
  obtain ⟨h1, hu⟩ := update_hanja_list_total ic cfg env h hsafe
  unfold ibus_hangul_engine_update_lookup_table
  simp only [hu]
  split_ifs with hl
  · cases hlist : h1.hanja_list with
    | none => exact absurd hlist hl
    | some list =>
      have hne : list ≠ [] := by
        intro he
        subst he
        rcases update_hanja_list_answer ic cfg env h h1 hu with hn | ⟨key, method, hk⟩
        · rw [hn] at hlist
          exact absurd hlist (by simp)
        · rw [hk] at hlist
          exact hdict _ _ hlist
      obtain ⟨c, cs, rfl⟩ := List.exists_cons_of_ne_nil hne
      simp [ibus_hangul_engine_apply_hanja_list, hlist, ibus_hangul_engine_update_lookup_table_ui,
        ibus_lookup_table_set_cursor_pos, ibus_lookup_table_get_cursor_pos,
        hanja_list_get_nth_comment]
  · exact ⟨_, rfl⟩

theorem sample_dictionary_laws : DictionaryLaws sample_config := by
  intro key method
  cases key with
  | none => simp [ibus_hangul_engine_lookup_hanja_table]
  | some k =>
    cases method <;>
      simp [ibus_hangul_engine_lookup_hanja_table, sample_config, sample_table] 


theorem ustring_erase_last (s : UString) :
    (if ustring_length s > 0 then ustring_erase s (ustring_length s - 1) 1 else s) = s.dropLast := by
  unfold ustring_erase ustring_length
  cases s with
  | nil => rfl
  | cons a t =>
    have h1 : (a :: t).length - 1 + 1 = (a :: t).length := by simp
    simp only [List.length_cons, Nat.zero_lt_succ, gt_iff_lt, if_true, Nat.add_sub_cancel,
      le_refl, List.drop_length, List.append_nil]
    rw [List.dropLast_eq_take]
    simp

theorem process_key_event_return_spec {σ : Type} (cfg : Config) (h : IBusHangulEngine σ)
    (cmds : List Cmd) (retval : Bool) (keyval keycode modifiers : Nat)
    (hc : forwards cmds = []) :
    (process_key_event_return cfg h cmds retval keyval keycode modifiers).engine = h ∧
    (process_key_event_return cfg h cmds retval keyval keycode modifiers).retval =
      (cfg.use_event_forwarding || retval) ∧
    forwards (process_key_event_return cfg h cmds retval keyval keycode modifiers).cmds =
      (if cfg.use_event_forwarding = true ∧ retval = false then [(keyval, keycode, modifiers)]
       else []) := by
  unfold process_key_event_return
  cases hf : cfg.use_event_forwarding <;> cases retval <;> simp [forwards_append, hc, forwards]


theorem process_key_event_edit_spec {σ : Type} (ic : Composer σ) (cfg : Config) (env : Env)
    (h : IBusHangulEngine σ) (keyval keycode modifiers : Nat)
    (hdict : h.hanja_mode = true → DictionaryLaws cfg)
    (hsafe : h.hanja_mode = true →
      (keyval = IBUS_BackSpace ∧ h.preedit_mode ≠ PREEDIT_MODE_NONE) ∨
        surrounding_text_valid env.surrounding_text_lookup) :
    ∃ r, process_key_event_edit ic cfg env h keyval keycode modifiers = some r ∧
      r.retval = (cfg.use_event_forwarding ||
        composition_verdict ic cfg h keyval keycode modifiers) ∧
      forwards r.cmds =
        (if cfg.use_event_forwarding = true ∧
            composition_verdict ic cfg h keyval keycode modifiers = false then
          [((if keyval = IBUS_BackSpace then keyval
             else normalize_keyval cfg (ic.hangul_ic_is_transliteration h.context)
               keyval keycode modifiers), keycode, modifiers)]
         else []) ∧
      (keyval = IBUS_BackSpace → h.preedit_mode ≠ PREEDIT_MODE_NONE →
        r.engine.preedit =
          if (ic.hangul_ic_backspace h.context).2 = false then h.preedit.dropLast
          else h.preedit) := by
  unfold process_key_event_edit
  by_cases hbs : keyval = IBUS_BackSpace
  · simp only [hbs, if_true, composition_verdict]
    generalize hb : ic.hangul_ic_backspace h.context = b
    generalize hh2 : (if b.2 = false ∧ ustring_length h.preedit > 0 then
        ({ h with context := b.1, preedit := ustring_erase h.preedit (ustring_length h.preedit - 1) 1 } :
          IBusHangulEngine σ)
      else ({ h with context := b.1 } : IBusHangulEngine σ)) = h2
    have e1 : h2.preedit_mode = h.preedit_mode ∧ h2.hanja_mode = h.hanja_mode := by
      rw [← hh2]; split_ifs <;> exact ⟨rfl, rfl⟩
    have e2 : h2.preedit = if b.2 = false then h.preedit.dropLast else h.preedit := by
      rw [← hh2, ← ustring_erase_last]
      by_cases hf : b.2 = false <;> by_cases hl : ustring_length h.preedit > 0 <;> simp [hf, hl]
    have e3 : (if b.2 = false ∧ ustring_length h.preedit > 0 then true else b.2) =
        (b.2 || decide (ustring_length h.preedit > 0)) := by
      cases b.2 <;> simp
    rw [e3]
    generalize hr3 : (if h2.preedit_mode = PREEDIT_MODE_NONE then
        ibus_hangul_engine_process_commit_and_edit ic h2
      else (h2, ibus_hangul_engine_update_preedit_text ic h2)) = r3
    have f3 : forwards r3.2 = [] ∧ r3.1.hanja_mode = h.hanja_mode ∧
        (h.preedit_mode ≠ PREEDIT_MODE_NONE → r3.1.preedit = h2.preedit) ∧
        (h.preedit_mode ≠ PREEDIT_MODE_NONE → r3.1.preedit_mode = h.preedit_mode) := by
      rw [← hr3, e1.1]
      split_ifs with hm
      · exact ⟨forwards_process_commit_and_edit _ _, by simp [e1.2], fun hx => absurd hm hx,
          fun hx => absurd hm hx⟩
      · exact ⟨forwards_update_preedit_text _ _, e1.2, fun _ => rfl, fun _ => e1.1⟩
    by_cases hhm : h.hanja_mode = true
    · simp only [f3.2.1, hhm, if_true]
      by_cases hp : ibus_hangul_engine_has_preedit ic r3.1 = true
      · simp only [hp, if_true]
        have hs4 : (r3.1.preedit_mode ≠ PREEDIT_MODE_NONE ∧
            (r3.1.preedit_mode = PREEDIT_MODE_WORD ∨ r3.1.hanja_mode = true) ∧
            ibus_hangul_engine_has_preedit ic r3.1 = true) ∨
            surrounding_text_valid env.surrounding_text_lookup := by
          rcases hsafe hhm with ⟨_, hne⟩ | hv
          · exact Or.inl ⟨by rw [f3.2.2.2 hne]; exact hne, Or.inr (f3.2.1.trans hhm), hp⟩
          · exact Or.inr hv
        obtain ⟨r4, hr4⟩ := update_lookup_table_total ic cfg env r3.1 (hdict hhm) hs4
        obtain ⟨g1, g2, _⟩ := forwards_update_lookup_table ic cfg env r3.1 r4 hr4
        simp only [hr4]
        obtain ⟨p1, p2, p3⟩ := process_key_event_return_spec cfg r4.1 (r3.2 ++ r4.2)
          (b.2 || decide (ustring_length h.preedit > 0)) IBUS_BackSpace keycode modifiers
          (by simp [forwards_append, f3.1, g1])
        refine ⟨_, rfl, p2, p3, fun _ hne => ?_⟩
        rw [p1, g2, f3.2.2.1 hne, e2]
      · simp only [hp, Bool.false_eq_true, if_false]
        obtain ⟨p1, p2, p3⟩ := process_key_event_return_spec cfg
          (ibus_hangul_engine_hide_lookup_table r3.1).1
          (r3.2 ++ (ibus_hangul_engine_hide_lookup_table r3.1).2)
          (b.2 || decide (ustring_length h.preedit > 0)) IBUS_BackSpace keycode modifiers
          (by simp [forwards_append, f3.1, forwards_hide_lookup_table])
        refine ⟨_, rfl, p2, p3, fun _ hne => ?_⟩
        rw [p1, (hide_lookup_table_frame r3.1).1, f3.2.2.1 hne, e2]
    · simp only [f3.2.1, hhm, Bool.false_eq_true, if_false]
      obtain ⟨p1, p2, p3⟩ := process_key_event_return_spec cfg r3.1 (r3.2 ++ [])
        (b.2 || decide (ustring_length h.preedit > 0)) IBUS_BackSpace keycode modifiers
        (by simp [forwards_append, f3.1, forwards])
      refine ⟨_, rfl, p2, p3, fun _ hne => ?_⟩
      rw [p1, f3.2.2.1 hne, e2]
  · simp only [hbs, if_false, composition_verdict, false_implies, and_true]
    generalize hkey : normalize_keyval cfg (ic.hangul_ic_is_transliteration h.context) keyval
      keycode modifiers = key
    generalize hp : ic.hangul_ic_process h.context key = p
    generalize hr3 : (if h.preedit_mode = PREEDIT_MODE_NONE then
        ibus_hangul_engine_process_commit_and_edit ic ({ h with context := p.1 } : IBusHangulEngine σ)
      else ibus_hangul_engine_process_edit_and_commit ic
        ({ h with context := p.1 } : IBusHangulEngine σ)) = r3
    have f3 : forwards r3.2 = [] ∧ r3.1.hanja_mode = h.hanja_mode := by
      rw [← hr3]
      split_ifs with hm
      · exact ⟨forwards_process_commit_and_edit _ _, by simp⟩
      · exact ⟨forwards_process_edit_and_commit _ _, by simp⟩
    by_cases hhm : h.hanja_mode = true
    · simp only [f3.2, hhm, if_true]
      have hs4 : (r3.1.preedit_mode ≠ PREEDIT_MODE_NONE ∧
          (r3.1.preedit_mode = PREEDIT_MODE_WORD ∨ r3.1.hanja_mode = true) ∧
          ibus_hangul_engine_has_preedit ic r3.1 = true) ∨
          surrounding_text_valid env.surrounding_text_lookup := by
        rcases hsafe hhm with ⟨hk, _⟩ | hv
        · exact absurd hk hbs
        · exact Or.inr hv
      obtain ⟨r4, hr4⟩ := update_lookup_table_total ic cfg env r3.1 (hdict hhm) hs4
      obtain ⟨g1, _, _⟩ := forwards_update_lookup_table ic cfg env r3.1 r4 hr4
      simp only [hr4]
      obtain ⟨p1, p2, p3⟩ := process_key_event_return_spec cfg
        (if p.2 = false then ibus_hangul_engine_flush ic r4.1 else (r4.1, [])).1
        (r3.2 ++ r4.2 ++ (if p.2 = false then ibus_hangul_engine_flush ic r4.1 else (r4.1, [])).2)
        p.2 key keycode modifiers
        (by
          simp only [forwards_append, f3.1, g1, List.nil_append]
          split_ifs
          · exact forwards_flush _ _
          · rfl)
      exact ⟨_, rfl, p2, p3⟩
    · simp only [f3.2, hhm, Bool.false_eq_true, if_false]
      obtain ⟨p1, p2, p3⟩ := process_key_event_return_spec cfg
        (if p.2 = false then ibus_hangul_engine_flush ic r3.1 else (r3.1, [])).1
        (r3.2 ++ [] ++ (if p.2 = false then ibus_hangul_engine_flush ic r3.1 else (r3.1, [])).2)
        p.2 key keycode modifiers
        (by
          simp only [forwards_append, f3.1, List.nil_append, forwards, List.append_nil]
          split_ifs
          · exact forwards_flush _ _
          · rfl)
      exact ⟨_, rfl, p2, p3⟩

/-! ### The stages of the key pipeline -/

set_option maxHeartbeats 1000000 in
theorem commit_candidate_frame {σ : Type} (ic : Composer σ) (h : IBusHangulEngine σ)
    (key value : List Nat) :
    (commit_candidate ic h key value).1.table = h.table ∧
    (commit_candidate ic h key value).1.hanja_mode = h.hanja_mode := by
  simp only [commit_candidate]
  constructor <;> split_ifs <;> rfl

set_option maxHeartbeats 1000000 in
theorem commit_candidate_preedit_mode {σ : Type} (ic : Composer σ) (h : IBusHangulEngine σ)
    (key value : List Nat) :
    (commit_candidate ic h key value).1.preedit_mode = h.preedit_mode := by
  simp only [commit_candidate]
  split_ifs <;> rfl

theorem commits_update_lookup_table {σ : Type} (ic : Composer σ) (cfg : Config) (env : Env)
    (h : IBusHangulEngine σ) (r : IBusHangulEngine σ × List Cmd)
    (hr : ibus_hangul_engine_update_lookup_table ic cfg env h = some r) :
    commits r.2 = [] := by
  obtain ⟨h1, _, hr⟩ := update_lookup_table_some ic cfg env h r hr
  split_ifs at hr with hl
  · cases ha : ibus_hangul_engine_apply_hanja_list h1 with
    | none => simp [ha] at hr
    | some a =>
      simp only [ha, Option.some.injEq] at hr
      subst hr
      obtain ⟨_, _, a3⟩ := apply_hanja_list_some _ _ ha
      simp only [commits_append, commits_update_preedit_text, a3, List.nil_append]
  · simp only [Option.some.injEq] at hr
    subst hr
    exact commits_hide_lookup_table _

theorem process_candidate_key_event_unrecognised {σ : Type} (ic : Composer σ) (cfg : Config)
    (env : Env) (h : IBusHangulEngine σ) (keyval modifiers : Nat)
    (hrec : candidate_key_recognised cfg h.hanja_mode keyval = false) :
    ibus_hangul_engine_process_candidate_key_event ic cfg env h keyval modifiers =
      some { engine := h, cmds := [], retval := false } := by
  unfold candidate_key_recognised at hrec
  simp only [Bool.or_eq_false_iff, decide_eq_false_iff_not, Bool.and_eq_false_imp,
    Bool.not_eq_true'] at hrec
  obtain ⟨⟨⟨⟨⟨⟨k1, k2⟩, k3⟩, k4⟩, k5⟩, k6⟩, k7⟩ := hrec
  have k6n : candidate_arrow_move cfg keyval = none := by
    cases hx : candidate_arrow_move cfg keyval with
    | none => rfl
    | some m => simp [hx] at k6
  unfold ibus_hangul_engine_process_candidate_key_event
  simp only [k1, k2, k3, k4, k5, k6n, if_false]
  by_cases hm : h.hanja_mode = false
  · have k7n : candidate_vi_move cfg keyval = none := by
      cases hx : candidate_vi_move cfg keyval with
      | none => rfl
      | some m => simp [hx] at k7; exact absurd hm (by simp [k7])
    simp only [hm, if_true, k7n]
  · have hm2 : h.hanja_mode = true := by simpa using hm
    simp only [hm2, Bool.true_eq_false, if_false]

theorem process_key_event_candidate_stage {σ : Type} (ic : Composer σ) (cfg : Config)
    (env : Env) (h : IBusHangulEngine σ) (keyval keycode modifiers : Nat)
    (hdown : modifiers &&& IBUS_RELEASE_MASK = 0)
    (hshift : keyval ≠ IBUS_Shift_L ∧ keyval ≠ IBUS_Shift_R)
    (hpurpose : h.input_purpose ≠ IBUS_INPUT_PURPOSE_PASSWORD)
    (hlist : h.hanja_list ≠ none) (hmode : h.hanja_mode = false) :
    ibus_hangul_engine_process_key_event ic cfg env h keyval keycode modifiers =
      (ibus_hangul_engine_process_candidate_key_event ic cfg env h keyval modifiers).map
        (fun r => { engine := r.engine, cmds := r.cmds, retval := true }) := by
  unfold ibus_hangul_engine_process_key_event
  simp only [hdown, ne_eq, not_true_eq_false, if_false, hshift.1, hshift.2, or_self, hpurpose,
    hlist, not_false_eq_true, if_true, hmode, Bool.false_eq_true]
  cases ibus_hangul_engine_process_candidate_key_event ic cfg env h keyval modifiers <;> rfl

theorem process_key_event_fall_through {σ : Type} (ic : Composer σ) (cfg : Config)
    (env : Env) (h : IBusHangulEngine σ) (keyval keycode modifiers : Nat)
    (hdown : modifiers &&& IBUS_RELEASE_MASK = 0)
    (hshift : keyval ≠ IBUS_Shift_L ∧ keyval ≠ IBUS_Shift_R)
    (hpurpose : h.input_purpose ≠ IBUS_INPUT_PURPOSE_PASSWORD)
    (hreach : h.hanja_list = none ∨
      (h.hanja_mode = true ∧ candidate_key_recognised cfg h.hanja_mode keyval = false)) :
    ibus_hangul_engine_process_key_event ic cfg env h keyval keycode modifiers =
      process_key_event_hotkeys ic cfg env h keyval keycode modifiers := by
  unfold ibus_hangul_engine_process_key_event
  simp only [hdown, ne_eq, not_true_eq_false, if_false, hshift.1, hshift.2, or_self, hpurpose]
  by_cases hlist : h.hanja_list = none
  · simp only [hlist, not_true_eq_false, if_false]
  · rcases hreach with hl | ⟨hm, hrec⟩
    · exact absurd hl hlist
    · simp only [hlist, not_false_eq_true, if_true,
        process_candidate_key_event_unrecognised ic cfg env h keyval modifiers hrec, hm,
        Bool.false_eq_true, if_false, List.nil_append]
      cases process_key_event_hotkeys ic cfg env h keyval keycode modifiers <;> rfl

theorem process_key_event_compose_eq {σ : Type} (ic : Composer σ) (cfg : Config)
    (env : Env) (h : IBusHangulEngine σ) (keyval keycode modifiers : Nat) :
    process_key_event_compose ic cfg env h keyval keycode modifiers =
      (composition_entry ic env h).bind
        (fun h1 => process_key_event_edit ic cfg env h1 keyval keycode modifiers) := by
  simp only [process_key_event_compose, composition_entry]
  split_ifs
  · cases ibus_hangul_engine_check_caret_pos_sanity ic env.surrounding_text_check h <;> rfl
  · rfl

theorem process_key_event_hotkeys_compose {σ : Type} (ic : Composer σ) (cfg : Config)
    (env : Env) (h : IBusHangulEngine σ) (keyval keycode modifiers : Nat)
    (hkey : composing_key cfg keyval modifiers)
    (hinput : h.input_mode ≠ INPUT_MODE_LATIN) :
    process_key_event_hotkeys ic cfg env h keyval keycode modifiers =
      (composition_entry ic env h).bind
        (fun h1 => process_key_event_edit ic cfg env h1 keyval keycode modifiers) := by
  obtain ⟨h1, h2, h3, h4, h5, h6, h7, h8, h9, h10⟩ := hkey
  rw [← process_key_event_compose_eq]
  simp only [process_key_event_hotkeys, h4, h5, h6, h7, h8, h9, h10, hinput,
    Bool.false_eq_true, if_false, ne_eq, not_true_eq_false, not_false_eq_true, if_true]


theorem set_input_mode_frame {σ : Type} (ic : Composer σ) (cfg : Config)
    (h : IBusHangulEngine σ) (mode : Int) :
    (ibus_hangul_engine_set_input_mode ic cfg h mode).1.input_mode =
      (if cfg.disable_latin_mode = true then h.input_mode else mode) ∧
    (ibus_hangul_engine_set_input_mode ic cfg h mode).1.hanja_list = none ∧
    (ibus_hangul_engine_set_input_mode ic cfg h mode).1.input_purpose = h.input_purpose := by
  unfold ibus_hangul_engine_set_input_mode
  cases hd : cfg.disable_latin_mode <;> simp

theorem process_key_event_switch {σ : Type} (ic : Composer σ) (cfg : Config)
    (env : Env) (h : IBusHangulEngine σ) (keyval keycode modifiers : Nat)
    (hdown : modifiers &&& IBUS_RELEASE_MASK = 0)
    (hshift : keyval ≠ IBUS_Shift_L ∧ keyval ≠ IBUS_Shift_R)
    (hpurpose : h.input_purpose ≠ IBUS_INPUT_PURPOSE_PASSWORD)
    (hlist : h.hanja_list = none)
    (hmod : hotkey_list_has_modifier cfg.switch_keys keyval = false)
    (hmatch : hotkey_list_match cfg.switch_keys keyval modifiers = true) :
    ibus_hangul_engine_process_key_event ic cfg env h keyval keycode modifiers =
      some { engine := (ibus_hangul_engine_switch_input_mode ic cfg h).1,
             cmds := (ibus_hangul_engine_switch_input_mode ic cfg h).2, retval := true } := by
  rw [process_key_event_fall_through ic cfg env h keyval keycode modifiers hdown hshift hpurpose
    (Or.inl hlist)]
  simp [process_key_event_hotkeys, hmod, hmatch]

theorem mode_switch_spec {σ : Type} (ic : Composer σ) (cfg : Config)
    (env : Env) (h : IBusHangulEngine σ) (keyval keycode modifiers : Nat)
    (hdown : modifiers &&& IBUS_RELEASE_MASK = 0)
    (hshift : keyval ≠ IBUS_Shift_L ∧ keyval ≠ IBUS_Shift_R)
    (hpurpose : h.input_purpose ≠ IBUS_INPUT_PURPOSE_PASSWORD)
    (hlist : h.hanja_list = none)
    (hmod : hotkey_list_has_modifier cfg.switch_keys keyval = false)
    (hmatch : hotkey_list_match cfg.switch_keys keyval modifiers = true)
    (hmode : h.input_mode = INPUT_MODE_HANGUL ∨ h.input_mode = INPUT_MODE_LATIN) :
    ∃ r, ibus_hangul_engine_process_key_event ic cfg env h keyval keycode modifiers = some r ∧
      r.retval = true ∧
      (cfg.disable_latin_mode = true → r.engine.input_mode = h.input_mode) ∧
      (cfg.disable_latin_mode = false →
        (h.input_mode = INPUT_MODE_HANGUL → r.engine.input_mode = INPUT_MODE_LATIN) ∧
        (h.input_mode = INPUT_MODE_LATIN → r.engine.input_mode = INPUT_MODE_HANGUL) ∧
        ∃ r2, ibus_hangul_engine_process_key_event ic cfg env r.engine keyval keycode modifiers =
            some r2 ∧ r2.retval = true ∧ r2.engine.input_mode = h.input_mode) := by
  refine ⟨_, process_key_event_switch ic cfg env h keyval keycode modifiers hdown hshift hpurpose
    hlist hmod hmatch, rfl, ?_, ?_⟩
  · intro hd
    simp only [ibus_hangul_engine_switch_input_mode]
    rw [(set_input_mode_frame ic cfg h _).1, if_pos hd]
  · intro hd
    have e1 : (ibus_hangul_engine_switch_input_mode ic cfg h).1.input_mode =
        (if h.input_mode + 1 ≥ INPUT_MODE_COUNT then INPUT_MODE_HANGUL else h.input_mode + 1) := by
      simp only [ibus_hangul_engine_switch_input_mode]
      rw [(set_input_mode_frame ic cfg h _).1]
      simp [hd]
    have e2 : (ibus_hangul_engine_switch_input_mode ic cfg h).1.hanja_list = none := by
      simp only [ibus_hangul_engine_switch_input_mode]
      exact (set_input_mode_frame ic cfg h _).2.1
    have e3 : (ibus_hangul_engine_switch_input_mode ic cfg h).1.input_purpose =
        h.input_purpose := by
      simp only [ibus_hangul_engine_switch_input_mode]
      exact (set_input_mode_frame ic cfg h _).2.2
    refine ⟨?_, ?_, _, process_key_event_switch ic cfg env _ keyval keycode modifiers hdown hshift
      (by rw [e3]; exact hpurpose) e2 hmod hmatch, rfl, ?_⟩
    · intro hm
      simp only [e1, hm, INPUT_MODE_HANGUL, INPUT_MODE_LATIN, INPUT_MODE_COUNT]
      decide
    · intro hm
      simp only [e1, hm, INPUT_MODE_HANGUL, INPUT_MODE_LATIN, INPUT_MODE_COUNT]
      decide
    · simp only [ibus_hangul_engine_switch_input_mode]
      rw [(set_input_mode_frame ic cfg _ _).1]
      simp only [hd, Bool.false_eq_true, if_false]
      have e1b := e1
      simp only [ibus_hangul_engine_switch_input_mode] at e1b
      rw [e1b]
      rcases hmode with hm | hm <;>
        simp only [hm, INPUT_MODE_HANGUL, INPUT_MODE_LATIN, INPUT_MODE_COUNT] <;> decide


theorem hanja_key_spec {σ : Type} (ic : Composer σ) (cfg : Config)
    (env : Env) (h : IBusHangulEngine σ) (keyval keycode modifiers : Nat)
    (hdown : modifiers &&& IBUS_RELEASE_MASK = 0)
    (hshift : keyval ≠ IBUS_Shift_L ∧ keyval ≠ IBUS_Shift_R)
    (hpurpose : h.input_purpose ≠ IBUS_INPUT_PURPOSE_PASSWORD)
    (hinput : h.input_mode ≠ INPUT_MODE_LATIN)
    (hmatch : hotkey_list_match cfg.hanja_keys keyval modifiers = true)
    (hfirst : hotkey_list_has_modifier cfg.switch_keys keyval = false ∧
      hotkey_list_match cfg.switch_keys keyval modifiers = false ∧
      hotkey_list_match cfg.on_keys keyval modifiers = false ∧
      hotkey_list_match cfg.off_keys keyval modifiers = false ∧
      hotkey_list_has_modifier cfg.hanja_keys keyval = false) :
    (h.hanja_list = none →
      ibus_hangul_engine_process_key_event ic cfg env h keyval keycode modifiers =
        (ibus_hangul_engine_update_lookup_table ic cfg env h).map
          (fun r => { engine := r.1, cmds := r.2, retval := true })) ∧
    (h.hanja_list ≠ none → h.hanja_mode = true →
      candidate_key_recognised cfg h.hanja_mode keyval = false →
      ibus_hangul_engine_process_key_event ic cfg env h keyval keycode modifiers =
        some { engine := (ibus_hangul_engine_hide_lookup_table h).1,
               cmds := (ibus_hangul_engine_hide_lookup_table h).2, retval := true } ∧
      (ibus_hangul_engine_hide_lookup_table h).1.hanja_list = none) ∧
    (h.hanja_list ≠ none → h.hanja_mode = false →
      candidate_key_recognised cfg h.hanja_mode keyval = false →
      ibus_hangul_engine_process_key_event ic cfg env h keyval keycode modifiers =
        some { engine := h, cmds := [], retval := true }) := by
  obtain ⟨f1, f2, f3, f4, f5⟩ := hfirst
  refine ⟨fun hl => ?_, fun hl hm hrec => ⟨?_, (hide_lookup_table_frame h).2.2.1⟩,
    fun hl hm hrec => ?_⟩
  · rw [process_key_event_fall_through ic cfg env h keyval keycode modifiers hdown hshift hpurpose
      (Or.inl hl)]
    unfold process_key_event_hotkeys
    simp only [f1, f2, f3, f4, f5, Bool.false_eq_true, if_false, hinput, hmatch, if_true, hl]
    cases ibus_hangul_engine_update_lookup_table ic cfg env h <;> rfl
  · rw [process_key_event_fall_through ic cfg env h keyval keycode modifiers hdown hshift hpurpose
      (Or.inr ⟨hm, hrec⟩)]
    unfold process_key_event_hotkeys
    simp only [f1, f2, f3, f4, f5, Bool.false_eq_true, if_false, hinput, hmatch, if_true, hl]
  · rw [process_key_event_candidate_stage ic cfg env h keyval keycode modifiers hdown hshift
      hpurpose hl hm, process_candidate_key_event_unrecognised ic cfg env h keyval modifiers hrec]
    rfl

theorem process_key_event_candidate_consumed {σ : Type} (ic : Composer σ) (cfg : Config)
    (env : Env) (h : IBusHangulEngine σ) (keyval keycode modifiers : Nat) (r : Outcome σ)
    (hdown : modifiers &&& IBUS_RELEASE_MASK = 0)
    (hshift : keyval ≠ IBUS_Shift_L ∧ keyval ≠ IBUS_Shift_R)
    (hpurpose : h.input_purpose ≠ IBUS_INPUT_PURPOSE_PASSWORD)
    (hlist : h.hanja_list ≠ none)
    (hr : ibus_hangul_engine_process_candidate_key_event ic cfg env h keyval modifiers = some r)
    (hret : r.retval = true) :
    ibus_hangul_engine_process_key_event ic cfg env h keyval keycode modifiers = some r := by
  unfold ibus_hangul_engine_process_key_event
  simp only [hdown, ne_eq, not_true_eq_false, if_false, hshift.1, hshift.2, or_self, hpurpose,
    hlist, not_false_eq_true, if_true, hr, hret]
  cases r
  simp only at hret
  subst hret
  simp

theorem candidate_commit_and_refresh_retval {σ : Type} (ic : Composer σ) (cfg : Config)
    (env : Env) (h : IBusHangulEngine σ) (r : Outcome σ)
    (hr : candidate_commit_and_refresh ic cfg env h = some r) : r.retval = true := by
  unfold candidate_commit_and_refresh at hr
  cases hc : ibus_hangul_engine_commit_current_candidate ic h with
  | none => simp [hc] at hr
  | some r0 =>
    simp only [hc] at hr
    split_ifs at hr
    · split at hr
      · simp at hr
      · simp only [Option.some.injEq] at hr
        subst hr
        rfl
    · simp only [Option.some.injEq] at hr
      subst hr
      rfl

theorem candidate_navigate_retval {σ : Type}
    (move : IBusLookupTable → IBusLookupTable) (h : IBusHangulEngine σ)
    (r : Outcome σ) (hr : candidate_navigate move h = some r) : r.retval = true := by
  unfold candidate_navigate at hr
  simp only at hr
  split at hr
  · simp at hr
  · simp only [Option.some.injEq] at hr
    subst hr
    rfl

theorem process_candidate_key_event_recognised {σ : Type} (ic : Composer σ) (cfg : Config)
    (env : Env) (h : IBusHangulEngine σ) (keyval modifiers : Nat) (r : Outcome σ)
    (hrec : candidate_key_recognised cfg h.hanja_mode keyval = true)
    (hr : ibus_hangul_engine_process_candidate_key_event ic cfg env h keyval modifiers = some r) :
    r.retval = true := by
  unfold ibus_hangul_engine_process_candidate_key_event at hr
  by_cases h1 : keyval = IBUS_Escape
  · simp only [h1, if_true, Option.some.injEq] at hr
    subst hr
    rfl
  · simp only [h1, if_false] at hr
    by_cases h2 : keyval = IBUS_Return
    · simp only [h2, if_true] at hr
      exact candidate_commit_and_refresh_retval ic cfg env h r hr
    · simp only [h2, if_false] at hr
      by_cases h3 : keyval ≥ IBUS_1 ∧ keyval ≤ IBUS_9
      · simp only [h3, and_self, if_true] at hr
        by_cases h4 : ibus_lookup_table_get_page_size h.table = 0
        · simp [h4] at hr
        · simp only [h4, if_false] at hr
          exact candidate_commit_and_refresh_retval ic cfg env _ r hr
      · simp only [h3, if_false] at hr
        by_cases h5 : keyval = IBUS_Page_Up
        · simp only [h5, if_true] at hr
          exact candidate_navigate_retval _ h r hr
        · simp only [h5, if_false] at hr
          by_cases h6 : keyval = IBUS_Page_Down
          · simp only [h6, if_true] at hr
            exact candidate_navigate_retval _ h r hr
          · simp only [h6, if_false] at hr
            cases ha : candidate_arrow_move cfg keyval with
            | some move =>
              simp only [ha] at hr
              exact candidate_navigate_retval _ h r hr
            | none =>
              simp only [ha] at hr
              cases hv : (if h.hanja_mode = false then candidate_vi_move cfg keyval
                  else none) with
              | some move =>
                simp only [hv] at hr
                exact candidate_navigate_retval _ h r hr
              | none =>
                exfalso
                unfold candidate_key_recognised at hrec
                by_cases hm : h.hanja_mode = false
                · simp only [hm, if_true] at hv
                  simp [h1, h2, h3, h5, h6, ha, hv, hm] at hrec
                · have hm2 : h.hanja_mode = true := by simpa using hm
                  simp [h1, h2, h3, h5, h6, ha, hm2] at hrec

theorem process_key_event_candidate_recognised {σ : Type} (ic : Composer σ) (cfg : Config)
    (env : Env) (h : IBusHangulEngine σ) (keyval keycode modifiers : Nat)
    (hdown : modifiers &&& IBUS_RELEASE_MASK = 0)
    (hshift : keyval ≠ IBUS_Shift_L ∧ keyval ≠ IBUS_Shift_R)
    (hpurpose : h.input_purpose ≠ IBUS_INPUT_PURPOSE_PASSWORD)
    (hlist : h.hanja_list ≠ none)
    (hrec : candidate_key_recognised cfg h.hanja_mode keyval = true) :
    ibus_hangul_engine_process_key_event ic cfg env h keyval keycode modifiers =
      ibus_hangul_engine_process_candidate_key_event ic cfg env h keyval modifiers ∧
    ∀ r, ibus_hangul_engine_process_candidate_key_event ic cfg env h keyval modifiers = some r →
      r.retval = true := by
  refine ⟨?_, fun r hr => process_candidate_key_event_recognised ic cfg env h keyval modifiers r
    hrec hr⟩
  cases hc : ibus_hangul_engine_process_candidate_key_event ic cfg env h keyval modifiers with
  | none =>
    unfold ibus_hangul_engine_process_key_event
    simp only [hdown, ne_eq, not_true_eq_false, if_false, hshift.1, hshift.2, or_self, hpurpose,
      hlist, not_false_eq_true, if_true, hc]
  | some r =>
    exact process_key_event_candidate_consumed ic cfg env h keyval keycode modifiers r hdown
      hshift hpurpose hlist hc
      (process_candidate_key_event_recognised ic cfg env h keyval modifiers r hrec hc)

theorem hide_lookup_table_cursor_pos {σ : Type} (h : IBusHangulEngine σ) :
    (ibus_hangul_engine_hide_lookup_table h).1.table.cursor_pos = h.table.cursor_pos := by
  simp only [ibus_hangul_engine_hide_lookup_table, lookup_table_set_visible]
  split_ifs <;> rfl

theorem candidate_commit_and_refresh_spec {σ : Type} (ic : Composer σ) (cfg : Config)
    (env : Env) (h : IBusHangulEngine σ) (list : HanjaList) (cand : Hanja)
    (hlist : h.hanja_list = some list)
    (hcand : list[ibus_lookup_table_get_cursor_pos h.table]? = some cand)
    (hdict : h.hanja_mode = true → DictionaryLaws cfg)
    (hlookup : h.hanja_mode = true → h.preedit_mode = PREEDIT_MODE_NONE →
      surrounding_text_valid env.surrounding_text_lookup) :
    ∃ r, candidate_commit_and_refresh ic cfg env h = some r ∧ r.retval = true ∧
      commits r.cmds = [cand.value] ∧
      (h.hanja_mode = false →
        r.engine.table.cursor_pos = h.table.cursor_pos ∧ r.engine.hanja_list = none) := by
  unfold candidate_commit_and_refresh
  rw [commit_current_candidate_eq ic h list cand hlist hcand]
  obtain ⟨c1, c2⟩ := commit_candidate_frame ic h cand.key cand.value
  simp only [c2]
  by_cases hm : h.hanja_mode = true
  · by_cases hp : ibus_hangul_engine_has_preedit ic (commit_candidate ic h cand.key cand.value).1
        = true
    · have hsafe : ((commit_candidate ic h cand.key cand.value).1.preedit_mode ≠
            PREEDIT_MODE_NONE ∧
          ((commit_candidate ic h cand.key cand.value).1.preedit_mode = PREEDIT_MODE_WORD ∨
            (commit_candidate ic h cand.key cand.value).1.hanja_mode = true) ∧
          ibus_hangul_engine_has_preedit ic (commit_candidate ic h cand.key cand.value).1 =
            true) ∨ surrounding_text_valid env.surrounding_text_lookup := by
        by_cases hn : h.preedit_mode = PREEDIT_MODE_NONE
        · exact Or.inr (hlookup hm hn)
        · exact Or.inl ⟨by rw [commit_candidate_preedit_mode]; exact hn,
            Or.inr (c2.trans hm), hp⟩
      obtain ⟨r2, hr2⟩ := update_lookup_table_total ic cfg env
        (commit_candidate ic h cand.key cand.value).1 (hdict hm) hsafe
      simp only [hm, hp, and_self, if_true, hr2]
      refine ⟨_, rfl, rfl, ?_, fun hf => absurd hf (by simp)⟩
      simp only [commits_append, commits_commit_candidate,
        commits_update_lookup_table ic cfg env _ r2 hr2, List.append_nil]
    · simp only [hm, hp, and_false, if_false]
      refine ⟨_, rfl, rfl, ?_, fun hf => absurd hf (by simp)⟩
      simp only [commits_append, commits_commit_candidate, commits_hide_lookup_table,
        List.append_nil]
  · simp only [hm, false_and, if_false]
    refine ⟨_, rfl, rfl, ?_, fun _ => ⟨?_, (hide_lookup_table_frame _).2.2.1⟩⟩
    · simp only [commits_append, commits_commit_candidate, commits_hide_lookup_table,
        List.append_nil]
    · rw [hide_lookup_table_cursor_pos, c1]

theorem digit_selection_spec {σ : Type} (ic : Composer σ) (cfg : Config)
    (env : Env) (h : IBusHangulEngine σ) (keycode modifiers : Nat)
    (list : HanjaList) (cand : Hanja) (s c d : Nat)
    (hdown : modifiers &&& IBUS_RELEASE_MASK = 0)
    (hpurpose : h.input_purpose ≠ IBUS_INPUT_PURPOSE_PASSWORD)
    (hlist : h.hanja_list = some list)
    (hsize : ibus_lookup_table_get_page_size h.table = s)
    (hcursor : ibus_lookup_table_get_cursor_pos h.table = c)
    (hs : 0 < s) (hd : 1 ≤ d ∧ d ≤ 9)
    (hcand : list[c / s * s + (d - 1)]? = some cand)
    (hdict : h.hanja_mode = true → DictionaryLaws cfg)
    (hlookup : h.hanja_mode = true → h.preedit_mode = PREEDIT_MODE_NONE →
      surrounding_text_valid env.surrounding_text_lookup) :
    ibus_hangul_engine_process_key_event ic cfg env h (IBUS_1 + (d - 1)) keycode modifiers =
      candidate_commit_and_refresh ic cfg env
        { h with table := ibus_lookup_table_set_cursor_pos h.table (c / s * s + (d - 1)) } ∧
    ∃ r, ibus_hangul_engine_process_key_event ic cfg env h (IBUS_1 + (d - 1)) keycode modifiers =
        some r ∧ r.retval = true ∧ commits r.cmds = [cand.value] ∧
      (h.hanja_mode = false →
        r.engine.table.cursor_pos = c / s * s + (d - 1) ∧ r.engine.hanja_list = none) := by
  have hkey : ibus_hangul_engine_process_candidate_key_event ic cfg env h (IBUS_1 + (d - 1))
      modifiers = candidate_commit_and_refresh ic cfg env
        { h with table := ibus_lookup_table_set_cursor_pos h.table (c / s * s + (d - 1)) } := by
    unfold ibus_hangul_engine_process_candidate_key_event
    have k1 : ¬ (IBUS_1 + (d - 1) = IBUS_Escape) := by
      simp only [IBUS_1, IBUS_Escape]; omega
    have k2 : ¬ (IBUS_1 + (d - 1) = IBUS_Return) := by
      simp only [IBUS_1, IBUS_Return]; omega
    have k3 : IBUS_1 + (d - 1) ≥ IBUS_1 ∧ IBUS_1 + (d - 1) ≤ IBUS_9 := by
      simp only [IBUS_1, IBUS_9]; omega
    have k4 : ¬ (s = 0) := by omega
    simp only [k1, k2, k3, hsize, hcursor, k4, and_self, if_true, if_false,
      Nat.add_sub_cancel_left]
  obtain ⟨r, hr, p1, p2, p3⟩ := candidate_commit_and_refresh_spec ic cfg env
    ({ h with table := ibus_lookup_table_set_cursor_pos h.table (c / s * s + (d - 1)) } :
      IBusHangulEngine σ) list cand hlist hcand hdict hlookup
  have hshift : IBUS_1 + (d - 1) ≠ IBUS_Shift_L ∧ IBUS_1 + (d - 1) ≠ IBUS_Shift_R := by
    simp only [IBUS_1, IBUS_Shift_L, IBUS_Shift_R]; omega
  have hpke := process_key_event_candidate_consumed ic cfg env h (IBUS_1 + (d - 1)) keycode
    modifiers r hdown hshift hpurpose (by rw [hlist]; simp) (hkey.trans hr) p1
  exact ⟨hpke.trans hr.symm, r, hpke, p1, p2, p3⟩

theorem composition_entry_frame {σ : Type} (ic : Composer σ) (env : Env)
    (h h1 : IBusHangulEngine σ) (he : composition_entry ic env h = some h1) :
    h1.hanja_mode = h.hanja_mode ∧
    h1.preedit_mode = h.preedit_mode ∧
    (h.preedit_mode ≠ PREEDIT_MODE_NONE → h1 = h) := by
  unfold composition_entry at he
  by_cases hm : h.preedit_mode = PREEDIT_MODE_NONE
  · simp only [hm, if_true] at he
    rcases check_caret_pos_sanity_cases ic _ h h1 he with rfl | rfl
    · exact ⟨rfl, rfl, fun _ => rfl⟩
    · exact ⟨rfl, rfl, fun hx => absurd hm hx⟩
  · simp only [hm, if_false, Option.some.injEq] at he
    subst he
    exact ⟨rfl, rfl, fun _ => rfl⟩

theorem composition_entry_total {σ : Type} (ic : Composer σ) (env : Env)
    (h : IBusHangulEngine σ)
    (hcheck : h.preedit_mode = PREEDIT_MODE_NONE →
      surrounding_text_valid env.surrounding_text_check) :
    ∃ h1, composition_entry ic env h = some h1 := by
  unfold composition_entry
  by_cases hm : h.preedit_mode = PREEDIT_MODE_NONE
  · simp only [hm, if_true]
    exact check_caret_pos_sanity_valid ic _ h (hcheck hm)
  · simp only [hm, if_false]
    exact ⟨_, rfl⟩

theorem process_key_event_composition_spec {σ : Type} (ic : Composer σ) (cfg : Config)
    (env : Env) (h : IBusHangulEngine σ) (keyval keycode modifiers : Nat)
    (hkey : composing_key cfg keyval modifiers)
    (hpurpose : h.input_purpose ≠ IBUS_INPUT_PURPOSE_PASSWORD)
    (hinput : h.input_mode ≠ INPUT_MODE_LATIN)
    (hreach : h.hanja_list = none ∨
      (h.hanja_mode = true ∧ candidate_key_recognised cfg h.hanja_mode keyval = false))
    (hdict : h.hanja_mode = true → DictionaryLaws cfg)
    (h1 : IBusHangulEngine σ) (he : composition_entry ic env h = some h1)
    (hlookup : h.hanja_mode = true →
      (keyval = IBUS_BackSpace ∧ h.preedit_mode ≠ PREEDIT_MODE_NONE) ∨
        surrounding_text_valid env.surrounding_text_lookup) :
    ∃ r, ibus_hangul_engine_process_key_event ic cfg env h keyval keycode modifiers = some r ∧
      r.retval = (cfg.use_event_forwarding ||
        composition_verdict ic cfg h1 keyval keycode modifiers) ∧
      forwards r.cmds =
        (if cfg.use_event_forwarding = true ∧
            composition_verdict ic cfg h1 keyval keycode modifiers = false then
          [((if keyval = IBUS_BackSpace then keyval
             else normalize_keyval cfg (ic.hangul_ic_is_transliteration h1.context)
               keyval keycode modifiers), keycode, modifiers)]
         else []) ∧
      (keyval = IBUS_BackSpace → h.preedit_mode ≠ PREEDIT_MODE_NONE →
        r.engine.preedit =
          if (ic.hangul_ic_backspace h.context).2 = false then h.preedit.dropLast
          else h.preedit) := by
  obtain ⟨e1, e2, e3⟩ := composition_entry_frame ic env h h1 he
  rw [process_key_event_fall_through ic cfg env h keyval keycode modifiers hkey.1
    ⟨hkey.2.1, hkey.2.2.1⟩ hpurpose hreach,
    process_key_event_hotkeys_compose ic cfg env h keyval keycode modifiers hkey hinput, he]
  obtain ⟨r, hr, p1, p2, p3⟩ := process_key_event_edit_spec ic cfg env
    h1 keyval keycode modifiers (by rw [e1]; exact hdict) (by rw [e1, e2]; exact hlookup)
  refine ⟨r, hr, p1, p2, fun hb hm => ?_⟩
  have := p3 hb (by rw [e2]; exact hm)
  rw [e3 hm] at this
  exact this

/-! ### C11: digit selection -/

/-- C11: with an active CandidateSet (outside password fields), for every page
size `s > 0`, cursor position `c` and digit `d` in 1..9, the key-down of the
digit runs candidate commit on the session whose cursor was moved to
`(c / s) * s + (d - 1)`; when the list holds a candidate at that index the key is
consumed and exactly that candidate's value is committed, and with hanja-lock off
the cursor is left at that index and the CandidateSet is closed.  Under
hanja-lock in preedit mode None the refresh after the commit reads the host's
surrounding text, which is taken to have caret and anchor within the text. -/
theorem C11_digit_selection {σ : Type} (ic : Composer σ) (cfg : Config)
    (env : Env) (h : IBusHangulEngine σ) (keycode modifiers : Nat)
    (list : HanjaList) (cand : Hanja) (s c d : Nat)
    (hdown : modifiers &&& IBUS_RELEASE_MASK = 0)
    (hpurpose : h.input_purpose ≠ IBUS_INPUT_PURPOSE_PASSWORD)
    (hlist : h.hanja_list = some list)
    (hsize : ibus_lookup_table_get_page_size h.table = s)
    (hcursor : ibus_lookup_table_get_cursor_pos h.table = c)
    (hs : 0 < s) (hd : 1 ≤ d ∧ d ≤ 9)
    (hcand : list[c / s * s + (d - 1)]? = some cand)
    (hdict : h.hanja_mode = true → DictionaryLaws cfg)
    (hlookup : h.hanja_mode = true → h.preedit_mode = PREEDIT_MODE_NONE →
      surrounding_text_valid env.surrounding_text_lookup) :
    ibus_hangul_engine_process_key_event ic cfg env h (IBUS_1 + (d - 1)) keycode modifiers =
      candidate_commit_and_refresh ic cfg env
        { h with table := ibus_lookup_table_set_cursor_pos h.table (c / s * s + (d - 1)) } ∧
    ∃ r, ibus_hangul_engine_process_key_event ic cfg env h (IBUS_1 + (d - 1)) keycode modifiers =
        some r ∧ r.retval = true ∧ commits r.cmds = [cand.value] ∧
      (h.hanja_mode = false →
        r.engine.table.cursor_pos = c / s * s + (d - 1) ∧ r.engine.hanja_list = none) :=
  digit_selection_spec ic cfg env h keycode modifiers list cand s c d hdown hpurpose hlist hsize
    hcursor hs hd hcand hdict hlookup

/-- C11 at the spec's example: page size 9, cursor at 12, digit 3 selects the
candidate at index 11 (value U+4E0B). -/
theorem C11_digit_selection_witness :
    ∃ r, ibus_hangul_engine_process_key_event sample_composer sample_config sample_env
        digit_engine (IBUS_1 + (3 - 1)) 4 0 = some r ∧ r.retval = true ∧
      commits r.cmds = [[0x4E0B]] ∧
      (digit_engine.hanja_mode = false →
        r.engine.table.cursor_pos = 12 / 9 * 9 + (3 - 1) ∧ r.engine.hanja_list = none) :=
  (C11_digit_selection sample_composer sample_config sample_env digit_engine 4 0
    digit_candidates { key := [0xAC00], value := [0x4E0B], comment := [] } 9 12 3
    (by decide) (by decide) rfl rfl rfl (by decide) (by decide) (by decide)
    (fun hm => absurd hm (by decide)) (fun hm => absurd hm (by decide))).2


/-! ### C12: a bare Control key with Control+F9 as hanja key -/

/-- C13: every key-down that reaches normal composition returns, for a host whose
surrounding text has caret and anchor within the text wherever the engine reads
it (the caret check in preedit mode None, the candidate lookup under
hanja-lock); with event forwarding enabled it is reported consumed and exactly
one forward_key_event is issued when the composition verdict (composer, or for
BackSpace composer or PendingBuffer erase) is "not consumed", none when it is
"consumed"; with event forwarding disabled the verdict itself is returned and no
forward_key_event is issued.  The verdict is the one of the session `h1` that the
caret check hands to composition.  The dictionary is assumed never to return an
empty list when hanja-lock is on. -/
theorem C13_event_forwarding {σ : Type} (ic : Composer σ) (cfg : Config)
    (env : Env) (h : IBusHangulEngine σ) (keyval keycode modifiers : Nat)
    (hkey : composing_key cfg keyval modifiers)
    (hpurpose : h.input_purpose ≠ IBUS_INPUT_PURPOSE_PASSWORD)
    (hinput : h.input_mode ≠ INPUT_MODE_LATIN)
    (hreach : h.hanja_list = none ∨
      (h.hanja_mode = true ∧ candidate_key_recognised cfg h.hanja_mode keyval = false))
    (hdict : h.hanja_mode = true → DictionaryLaws cfg)
    (hcheck : h.preedit_mode = PREEDIT_MODE_NONE →
      surrounding_text_valid env.surrounding_text_check)
    (hlookup : h.hanja_mode = true → surrounding_text_valid env.surrounding_text_lookup) :
    ∃ h1 r, composition_entry ic env h = some h1 ∧
      ibus_hangul_engine_process_key_event ic cfg env h keyval keycode modifiers = some r ∧
      (cfg.use_event_forwarding = true →
        r.retval = true ∧
        (composition_verdict ic cfg h1 keyval keycode modifiers = false →
          ∃ ev, forwards r.cmds = [ev]) ∧
        (composition_verdict ic cfg h1 keyval keycode modifiers = true →
          forwards r.cmds = [])) ∧
      (cfg.use_event_forwarding = false →
        r.retval = composition_verdict ic cfg h1 keyval keycode modifiers ∧
        forwards r.cmds = []) := by
  obtain ⟨h1, he⟩ := composition_entry_total ic env h hcheck
  obtain ⟨r, hr, p1, p2, _⟩ := process_key_event_composition_spec ic cfg env h keyval
    keycode modifiers hkey hpurpose hinput hreach hdict h1 he (fun hm => Or.inr (hlookup hm))
  refine ⟨h1, r, he, hr, fun hf => ⟨?_, fun hv => ?_, fun hv => ?_⟩, fun hf => ⟨?_, ?_⟩⟩
  · rw [p1, hf]; rfl
  · rw [p2, if_pos ⟨hf, hv⟩]
    exact ⟨_, rfl⟩
  · rw [p2, if_neg (by simp [hv])]
  · rw [p1, hf]; rfl
  · rw [p2, if_neg (by simp [hf])]

/-- C13 on a session with hanja-lock on in preedit mode None, with event
forwarding on and a host that reports the text "ab" with the caret at its end:
the digit key 1 is not consumed by the composer, so it is reported consumed and
forwarded once. -/
theorem C13_event_forwarding_witness :
    ∃ r, ibus_hangul_engine_process_key_event sample_composer sample_config
        (host_env [0x61, 0x62]) hanja_lock_none_engine 0x31 2 0 = some r ∧
      r.retval = true ∧ ∃ ev, forwards r.cmds = [ev] := by
  obtain ⟨h1, r, he, hr, p, _⟩ := C13_event_forwarding sample_composer sample_config
    (host_env [0x61, 0x62]) hanja_lock_none_engine 0x31 2 0 (by decide) (by decide) (by decide)
    (Or.inl rfl) (fun _ => sample_dictionary_laws) (fun _ => by decide) (fun _ => by decide)
  have h1e : h1 = hanja_lock_none_engine := by
    have hx : composition_entry sample_composer (host_env [0x61, 0x62]) hanja_lock_none_engine =
        some hanja_lock_none_engine := by decide
    rw [hx] at he
    exact (Option.some.inj he).symm
  subst h1e
  obtain ⟨q1, q2, _⟩ := p (by decide)
  exact ⟨r, hr, q1, q2 (by decide)⟩

/-! ### C14: the forwarded event -/

/-- C14, what the code forwards: when a key-down reaches normal composition (the
caret check hands the session `h1` to it) with event forwarding on and is not
consumed, the one forwarded event carries the key code and the modifiers as
received, but its key value is the received one only for BackSpace; for every
other key it is the value after the keymap lookup and the caps-lock swap
(`normalize_keyval`).  Under hanja-lock the host's surrounding text for the
lookup is taken to have caret and anchor within the text. -/
theorem C14_forwarded_event {σ : Type} (ic : Composer σ) (cfg : Config)
    (env : Env) (h h1 : IBusHangulEngine σ) (keyval keycode modifiers : Nat)
    (hkey : composing_key cfg keyval modifiers)
    (hpurpose : h.input_purpose ≠ IBUS_INPUT_PURPOSE_PASSWORD)
    (hinput : h.input_mode ≠ INPUT_MODE_LATIN)
    (hreach : h.hanja_list = none ∨
      (h.hanja_mode = true ∧ candidate_key_recognised cfg h.hanja_mode keyval = false))
    (hdict : h.hanja_mode = true → DictionaryLaws cfg)
    (hentry : composition_entry ic env h = some h1)
    (hlookup : h.hanja_mode = true → surrounding_text_valid env.surrounding_text_lookup)
    (hforward : cfg.use_event_forwarding = true)
    (hverdict : composition_verdict ic cfg h1 keyval keycode modifiers = false) :
    ∃ r, ibus_hangul_engine_process_key_event ic cfg env h keyval keycode modifiers = some r ∧
      forwards r.cmds =
        [((if keyval = IBUS_BackSpace then keyval
           else normalize_keyval cfg (ic.hangul_ic_is_transliteration h1.context)
             keyval keycode modifiers), keycode, modifiers)] := by
  obtain ⟨r, hr, _, p2, _⟩ := process_key_event_composition_spec ic cfg env h keyval
    keycode modifiers hkey hpurpose hinput hreach hdict h1 hentry
    (fun hm => Or.inr (hlookup hm))
  exact ⟨r, hr, by rw [p2, if_pos ⟨hforward, hverdict⟩]⟩

/-- C14 at the failing input: with the "us" keymap loaded, the key with code 2
arrives with the key value U+0026 of another layout; the composer does not
consume it and the engine forwards the key value U+0031 in its place. -/
theorem C14_forwarded_event_witness :
    ∃ r, ibus_hangul_engine_process_key_event sample_composer keymap_config sample_env
        (sample_engine PREEDIT_MODE_SYLLABLE) 0x26 2 0 = some r ∧
      forwards r.cmds = [(0x31, 2, 0)] :=
  C14_forwarded_event sample_composer keymap_config sample_env
    (sample_engine PREEDIT_MODE_SYLLABLE) (sample_engine PREEDIT_MODE_SYLLABLE) 0x26 2 0
    (by decide) (by decide) (by decide)
    (Or.inl rfl) (fun hm => absurd hm (by decide)) (by decide)
    (fun hm => absurd hm (by decide)) rfl (by decide)


/-! ### C15: the candidate stage -/

/-- C15: with a CandidateSet active outside password fields, a key-down other
than bare Shift is handled as follows.  Hanja-lock off: the result is the
candidate handler's own result reported as consumed, so no later stage runs; a
key navigation does not recognise is consumed with the session unchanged and no
host call.  Hanja-lock on: a key navigation does not recognise goes on to the
hotkey stage, and when it is no hotkey and carries no Control/Alt/Super modifier
in Hangul mode, to normal composition. -/
theorem C15_candidate_stage {σ : Type} (ic : Composer σ) (cfg : Config)
    (env : Env) (h : IBusHangulEngine σ) (keyval keycode modifiers : Nat)
    (hdown : modifiers &&& IBUS_RELEASE_MASK = 0)
    (hshift : keyval ≠ IBUS_Shift_L ∧ keyval ≠ IBUS_Shift_R)
    (hpurpose : h.input_purpose ≠ IBUS_INPUT_PURPOSE_PASSWORD)
    (hlist : h.hanja_list ≠ none) :
    (h.hanja_mode = false →
      ibus_hangul_engine_process_key_event ic cfg env h keyval keycode modifiers =
        (ibus_hangul_engine_process_candidate_key_event ic cfg env h keyval modifiers).map
          (fun r => { engine := r.engine, cmds := r.cmds, retval := true }) ∧
      (candidate_key_recognised cfg h.hanja_mode keyval = false →
        ibus_hangul_engine_process_key_event ic cfg env h keyval keycode modifiers =
          some { engine := h, cmds := [], retval := true })) ∧
    (h.hanja_mode = true → candidate_key_recognised cfg h.hanja_mode keyval = false →
      ibus_hangul_engine_process_key_event ic cfg env h keyval keycode modifiers =
        process_key_event_hotkeys ic cfg env h keyval keycode modifiers ∧
      (composing_key cfg keyval modifiers → h.input_mode ≠ INPUT_MODE_LATIN →
        ibus_hangul_engine_process_key_event ic cfg env h keyval keycode modifiers =
          process_key_event_compose ic cfg env h keyval keycode modifiers)) := by
  refine ⟨fun hm => ⟨process_key_event_candidate_stage ic cfg env h keyval keycode modifiers
    hdown hshift hpurpose hlist hm, fun hrec => ?_⟩, fun hm hrec => ⟨?_, fun hkey hinput => ?_⟩⟩
  · rw [process_key_event_candidate_stage ic cfg env h keyval keycode modifiers hdown hshift
      hpurpose hlist hm, process_candidate_key_event_unrecognised ic cfg env h keyval modifiers
      hrec]
    rfl
  · exact process_key_event_fall_through ic cfg env h keyval keycode modifiers hdown hshift
      hpurpose (Or.inr ⟨hm, hrec⟩)
  · rw [process_key_event_fall_through ic cfg env h keyval keycode modifiers hdown hshift
      hpurpose (Or.inr ⟨hm, hrec⟩),
      process_key_event_hotkeys_compose ic cfg env h keyval keycode modifiers hkey hinput,
      process_key_event_compose_eq]

/-- C15 on a session with the candidate 可 shown and hanja-lock off: the
letter a, which navigation does not know, is consumed and nothing changes. -/
theorem C15_candidate_stage_witness :
    ibus_hangul_engine_process_key_event sample_composer sample_config sample_env
        syllable_engine 0x61 30 0 =
      some { engine := syllable_engine, cmds := [], retval := true } :=
  ((C15_candidate_stage sample_composer sample_config sample_env syllable_engine 0x61 30 0
    (by decide) (by decide) (by decide) (by decide)).1 rfl).2 (by decide)

/-! ### C16: the hanja key -/

/-- C16 fails as stated: with the candidate 可 shown and hanja-lock off, the
key-down of F9 (a hanja binding) is consumed by the candidate stage and the
CandidateSet stays open. -/
theorem C16_counterexample :
    hotkey_list_match sample_config.hanja_keys IBUS_F9 0 = true ∧
    syllable_engine.hanja_list ≠ none ∧
    (ibus_hangul_engine_process_key_event sample_composer sample_config sample_env
        syllable_engine IBUS_F9 67 0).map (fun r => (r.retval, r.engine.hanja_list)) =
      some (true, syllable_engine.hanja_list) := by
  decide

/-- C16, amended: outside password fields and in Hangul mode, a key-down that
matches a hanja binding and is not taken by an earlier rule (a bare modifier of
the switch or hanja list, a switch, on or off binding) is consumed.  With no
CandidateSet active it runs the lookup.  With one active the candidate stage
sees the key first.  A key candidate navigation has a branch for is handled as
that navigation key and the binding has no effect of its own: with hanja-lock
off the result is the navigation's result reported consumed, with hanja-lock on
it is the navigation's result, which reports consumed.  For any other key, with
hanja-lock on the binding closes the CandidateSet, and with hanja-lock off the
candidate stage consumes the key and the CandidateSet stays as it is.  With no
CandidateSet active the handler returns, reporting the key consumed, when the
dictionary never answers with an empty list and the host's surrounding text has
caret and anchor within the text. -/
theorem C16_hanja_key {σ : Type} (ic : Composer σ) (cfg : Config)
    (env : Env) (h : IBusHangulEngine σ) (keyval keycode modifiers : Nat)
    (hdown : modifiers &&& IBUS_RELEASE_MASK = 0)
    (hshift : keyval ≠ IBUS_Shift_L ∧ keyval ≠ IBUS_Shift_R)
    (hpurpose : h.input_purpose ≠ IBUS_INPUT_PURPOSE_PASSWORD)
    (hinput : h.input_mode ≠ INPUT_MODE_LATIN)
    (hmatch : hotkey_list_match cfg.hanja_keys keyval modifiers = true)
    (hfirst : hotkey_list_has_modifier cfg.switch_keys keyval = false ∧
      hotkey_list_match cfg.switch_keys keyval modifiers = false ∧
      hotkey_list_match cfg.on_keys keyval modifiers = false ∧
      hotkey_list_match cfg.off_keys keyval modifiers = false ∧
      hotkey_list_has_modifier cfg.hanja_keys keyval = false) :
    (h.hanja_list = none →
      ibus_hangul_engine_process_key_event ic cfg env h keyval keycode modifiers =
        (ibus_hangul_engine_update_lookup_table ic cfg env h).map
          (fun r => { engine := r.1, cmds := r.2, retval := true })) ∧
    (h.hanja_list ≠ none → h.hanja_mode = true →
      candidate_key_recognised cfg h.hanja_mode keyval = false →
      ibus_hangul_engine_process_key_event ic cfg env h keyval keycode modifiers =
        some { engine := (ibus_hangul_engine_hide_lookup_table h).1,
               cmds := (ibus_hangul_engine_hide_lookup_table h).2, retval := true } ∧
      (ibus_hangul_engine_hide_lookup_table h).1.hanja_list = none) ∧
    (h.hanja_list ≠ none → h.hanja_mode = false →
      candidate_key_recognised cfg h.hanja_mode keyval = false →
      ibus_hangul_engine_process_key_event ic cfg env h keyval keycode modifiers =
        some { engine := h, cmds := [], retval := true }) ∧
    (h.hanja_list ≠ none → h.hanja_mode = false →
      ibus_hangul_engine_process_key_event ic cfg env h keyval keycode modifiers =
        (ibus_hangul_engine_process_candidate_key_event ic cfg env h keyval modifiers).map
          (fun r => { engine := r.engine, cmds := r.cmds, retval := true })) ∧
    (h.hanja_list ≠ none → h.hanja_mode = true →
      candidate_key_recognised cfg h.hanja_mode keyval = true →
      ibus_hangul_engine_process_key_event ic cfg env h keyval keycode modifiers =
        ibus_hangul_engine_process_candidate_key_event ic cfg env h keyval modifiers ∧
      ∀ r, ibus_hangul_engine_process_candidate_key_event ic cfg env h keyval modifiers =
          some r → r.retval = true) ∧
    (h.hanja_list = none → DictionaryLaws cfg →
      surrounding_text_valid env.surrounding_text_lookup →
      ∃ r, ibus_hangul_engine_process_key_event ic cfg env h keyval keycode modifiers =
        some r ∧ r.retval = true) := by
  obtain ⟨k1, k2, k3⟩ := hanja_key_spec ic cfg env h keyval keycode modifiers hdown hshift
    hpurpose hinput hmatch hfirst
  refine ⟨k1, k2, k3,
    fun hl hm => process_key_event_candidate_stage ic cfg env h keyval keycode modifiers hdown
      hshift hpurpose hl hm,
    fun hl _ hrec => process_key_event_candidate_recognised ic cfg env h keyval keycode
      modifiers hdown hshift hpurpose hl hrec,
    fun hl hdict hvalid => ?_⟩
  obtain ⟨r, hr⟩ := update_lookup_table_total ic cfg env h hdict (Or.inr hvalid)
  rw [k1 hl, hr]
  exact ⟨_, rfl, rfl⟩

/-- C16 on a session that composed 가 with no CandidateSet: F9 is consumed and
the lookup opens the CandidateSet with 可. -/
theorem C16_hanja_key_witness :
    (ibus_hangul_engine_process_key_event sample_composer sample_config sample_env
        syllable_typed_engine IBUS_F9 67 0).map (fun r => (r.retval, r.engine.hanja_list)) =
      some (true, some [{ key := [0xAC00], value := [0x53EF], comment := [] }]) := by
  rw [(C16_hanja_key sample_composer sample_config sample_env syllable_typed_engine IBUS_F9 67 0
    (by decide) (by decide) (by decide) (by decide) (by decide) (by decide)).1 rfl]
  decide

/-! ### C17: the mode-switch key -/

/-- C17 fails under the setting that disables the Latin mode: the key-down of
the Hangul key (a switch binding) is consumed and inputMode stays Hangul. -/
theorem C17_counterexample :
    hotkey_list_match disable_latin_config.switch_keys IBUS_Hangul 0 = true ∧
    (sample_engine PREEDIT_MODE_SYLLABLE).input_mode = INPUT_MODE_HANGUL ∧
    (ibus_hangul_engine_process_key_event sample_composer disable_latin_config sample_env
        (sample_engine PREEDIT_MODE_SYLLABLE) IBUS_Hangul 122 0).map
      (fun r => (r.retval, r.engine.input_mode)) = some (true, INPUT_MODE_HANGUL) := by
  decide

/-- C17, amended: a key-down that matches a mode-switch binding and is not a bare
modifier of the switch list (no password field, no active CandidateSet) is
consumed.  Unless the Latin mode is disabled it toggles inputMode, Hangul
becoming Latin and Latin becoming Hangul, and a second such press restores the
original inputMode; when the Latin mode is disabled inputMode is left as it is. -/
theorem C17_mode_switch {σ : Type} (ic : Composer σ) (cfg : Config)
    (env : Env) (h : IBusHangulEngine σ) (keyval keycode modifiers : Nat)
    (hdown : modifiers &&& IBUS_RELEASE_MASK = 0)
    (hshift : keyval ≠ IBUS_Shift_L ∧ keyval ≠ IBUS_Shift_R)
    (hpurpose : h.input_purpose ≠ IBUS_INPUT_PURPOSE_PASSWORD)
    (hlist : h.hanja_list = none)
    (hmod : hotkey_list_has_modifier cfg.switch_keys keyval = false)
    (hmatch : hotkey_list_match cfg.switch_keys keyval modifiers = true)
    (hmode : h.input_mode = INPUT_MODE_HANGUL ∨ h.input_mode = INPUT_MODE_LATIN) :
    ∃ r, ibus_hangul_engine_process_key_event ic cfg env h keyval keycode modifiers = some r ∧
      r.retval = true ∧
      (cfg.disable_latin_mode = true → r.engine.input_mode = h.input_mode) ∧
      (cfg.disable_latin_mode = false →
        (h.input_mode = INPUT_MODE_HANGUL → r.engine.input_mode = INPUT_MODE_LATIN) ∧
        (h.input_mode = INPUT_MODE_LATIN → r.engine.input_mode = INPUT_MODE_HANGUL) ∧
        ∃ r2, ibus_hangul_engine_process_key_event ic cfg env r.engine keyval keycode modifiers =
            some r2 ∧ r2.retval = true ∧ r2.engine.input_mode = h.input_mode) :=
  mode_switch_spec ic cfg env h keyval keycode modifiers hdown hshift hpurpose hlist hmod hmatch
    hmode

/-- C17 on a fresh session with the default settings and the Hangul key. -/
theorem C17_mode_switch_witness :
    ∃ r, ibus_hangul_engine_process_key_event sample_composer sample_config sample_env
        (sample_engine PREEDIT_MODE_SYLLABLE) IBUS_Hangul 122 0 = some r ∧
      r.retval = true ∧
      (sample_config.disable_latin_mode = true →
        r.engine.input_mode = (sample_engine PREEDIT_MODE_SYLLABLE).input_mode) ∧
      (sample_config.disable_latin_mode = false →
        ((sample_engine PREEDIT_MODE_SYLLABLE).input_mode = INPUT_MODE_HANGUL →
          r.engine.input_mode = INPUT_MODE_LATIN) ∧
        ((sample_engine PREEDIT_MODE_SYLLABLE).input_mode = INPUT_MODE_LATIN →
          r.engine.input_mode = INPUT_MODE_HANGUL) ∧
        ∃ r2, ibus_hangul_engine_process_key_event sample_composer sample_config sample_env
            r.engine IBUS_Hangul 122 0 = some r2 ∧ r2.retval = true ∧
          r2.engine.input_mode = (sample_engine PREEDIT_MODE_SYLLABLE).input_mode) :=
  C17_mode_switch sample_composer sample_config sample_env (sample_engine PREEDIT_MODE_SYLLABLE)
    IBUS_Hangul 122 0 (by decide) (by decide) (by decide) rfl (by decide) (by decide)
    (Or.inl rfl)


/-! ### C18: key releases and bare Shift -/

/-- C18: every key-release event and every key-down of Shift_L or Shift_R is
returned unconsumed with the session unchanged and no host call issued, in
every state and under every configuration. -/
theorem C18_release_and_shift {σ : Type} (ic : Composer σ) (cfg : Config) (env : Env)
    (h : IBusHangulEngine σ) (keyval keycode modifiers : Nat)
    (hkey : modifiers &&& IBUS_RELEASE_MASK ≠ 0 ∨ keyval = IBUS_Shift_L ∨
      keyval = IBUS_Shift_R) :
    ibus_hangul_engine_process_key_event ic cfg env h keyval keycode modifiers =
      some { engine := h, cmds := [], retval := false } := by
  unfold ibus_hangul_engine_process_key_event
  rcases hkey with h1 | h2
  · rw [if_pos h1]
  · by_cases h1 : modifiers &&& IBUS_RELEASE_MASK ≠ 0
    · rw [if_pos h1]
    · rw [if_neg h1, if_pos h2]

/-- C18 on the release of the hanja key F9 while the candidate 可 is shown. -/
theorem C18_release_and_shift_witness :
    ibus_hangul_engine_process_key_event sample_composer sample_config sample_env
        syllable_engine IBUS_F9 67 IBUS_RELEASE_MASK =
      some { engine := syllable_engine, cmds := [], retval := false } :=
  C18_release_and_shift sample_composer sample_config sample_env syllable_engine IBUS_F9 67
    IBUS_RELEASE_MASK (Or.inl (by decide))

/-! ### C19: password fields -/

/-- C19: when the input purpose is password, every key-down other than bare Shift
returns the parent (pass-through) handler's verdict with the session unchanged
and no host call of the engine's own; the result is the same under every
configuration, so no hotkey list has a say. -/
theorem C19_password {σ : Type} (ic : Composer σ) (cfg : Config) (env : Env)
    (h : IBusHangulEngine σ) (keyval keycode modifiers : Nat)
    (hdown : modifiers &&& IBUS_RELEASE_MASK = 0)
    (hshift : keyval ≠ IBUS_Shift_L ∧ keyval ≠ IBUS_Shift_R)
    (hpurpose : h.input_purpose = IBUS_INPUT_PURPOSE_PASSWORD) :
    ibus_hangul_engine_process_key_event ic cfg env h keyval keycode modifiers =
      some { engine := h, cmds := [], retval := env.parent_process_key_event } ∧
    ∀ cfg2 : Config,
      ibus_hangul_engine_process_key_event ic cfg2 env h keyval keycode modifiers =
        ibus_hangul_engine_process_key_event ic cfg env h keyval keycode modifiers := by
  have key : ∀ c : Config,
      ibus_hangul_engine_process_key_event ic c env h keyval keycode modifiers =
        some { engine := h, cmds := [], retval := env.parent_process_key_event } := by
    intro c
    unfold ibus_hangul_engine_process_key_event
    simp [hdown, hshift.1, hshift.2, hpurpose]
  exact ⟨key cfg, fun cfg2 => (key cfg2).trans (key cfg).symm⟩

/-- C19 on a password field with the Hangul key, a switch binding: the key goes
to the parent handler and the input mode is not switched. -/
theorem C19_password_witness :
    hotkey_list_match sample_config.switch_keys IBUS_Hangul 0 = true ∧
    ibus_hangul_engine_process_key_event sample_composer sample_config sample_env
        password_engine IBUS_Hangul 122 0 =
      some { engine := password_engine, cmds := [],
             retval := sample_env.parent_process_key_event } :=
  ⟨by decide, (C19_password sample_composer sample_config sample_env password_engine
    IBUS_Hangul 122 0 (by decide) (by decide) rfl).1⟩

/-! ### C20: BackSpace under a buffered preedit mode -/

/-- C20: a BackSpace key-down that reaches normal composition under a buffered
preedit mode returns.  If the composer's backspace succeeds PendingBuffer is
unchanged.  If it fails and PendingBuffer is non-empty, PendingBuffer loses
exactly its last codepoint and the key counts as consumed (verdict true, nothing
forwarded, TRUE returned).  If it fails and PendingBuffer is empty, PendingBuffer
stays empty and the key counts as unconsumed (verdict false: forwarded when
event forwarding is on, FALSE returned when it is off). -/
theorem C20_backspace_buffered {σ : Type} (ic : Composer σ) (cfg : Config)
    (env : Env) (h : IBusHangulEngine σ) (keycode modifiers : Nat)
    (hkey : composing_key cfg IBUS_BackSpace modifiers)
    (hpurpose : h.input_purpose ≠ IBUS_INPUT_PURPOSE_PASSWORD)
    (hinput : h.input_mode ≠ INPUT_MODE_LATIN)
    (hreach : h.hanja_list = none ∨
      (h.hanja_mode = true ∧ candidate_key_recognised cfg h.hanja_mode IBUS_BackSpace = false))
    (hdict : h.hanja_mode = true → DictionaryLaws cfg)
    (hmode : h.preedit_mode ≠ PREEDIT_MODE_NONE) :
    ∃ r, ibus_hangul_engine_process_key_event ic cfg env h IBUS_BackSpace keycode modifiers =
        some r ∧
      ((ic.hangul_ic_backspace h.context).2 = true → r.engine.preedit = h.preedit) ∧
      ((ic.hangul_ic_backspace h.context).2 = false → h.preedit ≠ [] →
        r.engine.preedit = h.preedit.dropLast ∧
        composition_verdict ic cfg h IBUS_BackSpace keycode modifiers = true ∧
        r.retval = true ∧ forwards r.cmds = []) ∧
      ((ic.hangul_ic_backspace h.context).2 = false → h.preedit = [] →
        r.engine.preedit = [] ∧
        composition_verdict ic cfg h IBUS_BackSpace keycode modifiers = false ∧
        r.retval = cfg.use_event_forwarding ∧
        forwards r.cmds =
          (if cfg.use_event_forwarding = true then [(IBUS_BackSpace, keycode, modifiers)]
           else [])) := by
  have he : composition_entry ic env h = some h := by
    simp only [composition_entry, hmode, if_false]
  obtain ⟨r, hr, p1, p2, p3⟩ := process_key_event_composition_spec ic cfg env h
    IBUS_BackSpace keycode modifiers hkey hpurpose hinput hreach hdict h he
    (fun _ => Or.inl ⟨rfl, hmode⟩)
  have p4 := p3 rfl hmode
  refine ⟨r, hr, fun hb => ?_, fun hb hne => ?_, fun hb he => ?_⟩
  · rw [p4, if_neg (by simp [hb])]
  · have hv : composition_verdict ic cfg h IBUS_BackSpace keycode modifiers = true := by
      have hl : 0 < h.preedit.length := List.length_pos.mpr hne
      simp [composition_verdict, hb, ustring_length, hl]
    refine ⟨by rw [p4, if_pos hb], hv, by rw [p1, hv]; simp, ?_⟩
    rw [p2, if_neg (by simp [hv])]
  · have hv : composition_verdict ic cfg h IBUS_BackSpace keycode modifiers = false := by
      simp [composition_verdict, hb, ustring_length, he]
    refine ⟨by rw [p4, if_pos hb, he]; rfl, hv, by rw [p1, hv]; simp, ?_⟩
    rw [p2]
    simp [hv]

/-- C20 on a session with three pending codepoints and an empty composer: the
composer's backspace fails, the last codepoint is erased and the key counts as
consumed. -/
theorem C20_backspace_buffered_witness :
    ∃ r, ibus_hangul_engine_process_key_event sample_composer sample_config sample_env
        pending_engine IBUS_BackSpace 14 0 = some r ∧
      r.engine.preedit = [0xAC00, 0xB098] ∧ r.retval = true ∧ forwards r.cmds = [] := by
  obtain ⟨r, hr, _, p2, _⟩ := C20_backspace_buffered sample_composer sample_config sample_env
    pending_engine 14 0 (by decide) (by decide) (by decide) (Or.inl rfl)
    (fun hm => absurd hm (by decide)) (by decide)
  obtain ⟨q1, _, q3, q4⟩ := p2 (by decide) (by decide)
  exact ⟨r, hr, q1, q3, q4⟩

/-! ### Caps-lock step, transition callback, hotkey lists -/

theorem normalize_keyval_caps_lock (cfg : Config) (translit : Bool)
    (keyval keycode modifiers : Nat) :
    normalize_keyval cfg translit keyval keycode modifiers =
      caps_lock_swap modifiers
        (if translit = false then
          match cfg.keymap with
          | some keymap => keymap keycode modifiers
          | none => keyval
         else keyval) := by
  rfl

theorem caps_lock_swap_spec (modifiers keyval : Nat) :
    caps_lock_swap modifiers keyval =
      (if modifiers &&& IBUS_LOCK_MASK ≠ 0 then
        if 0x41 ≤ keyval ∧ keyval ≤ 0x5a then keyval + 32
        else if 0x61 ≤ keyval ∧ keyval ≤ 0x7a then keyval - 32
        else keyval
       else keyval) := by
  unfold caps_lock_swap isupper tolower toupper
  by_cases hl : modifiers &&& IBUS_LOCK_MASK ≠ 0
  · rw [if_pos hl, if_pos hl]
    simp only [decide_eq_true_eq]
    split_ifs <;> omega
  · rw [if_neg hl, if_neg hl]

theorem caps_lock_swap_twice (modifiers keyval : Nat) :
    caps_lock_swap modifiers (caps_lock_swap modifiers keyval) = keyval := by
  simp only [caps_lock_swap_spec]
  by_cases hl : modifiers &&& IBUS_LOCK_MASK ≠ 0
  · simp only [if_pos hl]
    split_ifs <;> omega
  · simp only [if_neg hl]

theorem on_transition_spec {σ : Type} (ic : Composer σ) (cfg : Config)
    (hangul_is_choseong hangul_is_jungseong : Nat → Bool) (hic : σ) (c : Nat) :
    ibus_hangul_engine_on_transition ic cfg hangul_is_choseong hangul_is_jungseong hic c =
      (cfg.auto_reorder ||
        !((hangul_is_choseong c &&
            (ic.hangul_ic_has_jungseong hic || ic.hangul_ic_has_jongseong hic)) ||
          (hangul_is_jungseong c && ic.hangul_ic_has_jongseong hic))) := by
  unfold ibus_hangul_engine_on_transition
  cases cfg.auto_reorder <;> cases hangul_is_choseong c <;> cases hangul_is_jungseong c <;>
    cases ic.hangul_ic_has_jungseong hic <;> cases ic.hangul_ic_has_jongseong hic <;> simp

theorem hotkey_list_match_iff (list : HotkeyList) (keyval modifiers : Nat) :
    hotkey_list_match list keyval modifiers = true ↔
      ∃ ev ∈ list.keys, ev.keyval = keyval ∧
        ev.modifiers = modifiers &&& (IBUS_SHIFT_MASK ||| IBUS_CONTROL_MASK ||| IBUS_MOD1_MASK |||
          IBUS_MOD3_MASK ||| IBUS_MOD4_MASK ||| IBUS_MOD5_MASK) := by
  simp [hotkey_list_match, key_event_list_match, List.any_eq_true]

theorem hotkey_list_append_from_string_foldl (parse : List Char → Option (Nat × Nat))
    (items : List (List Char)) (acc : HotkeyList) :
    items.foldl (hotkey_list_append_from_string parse) acc =
      { all_modifiers := ((items.filterMap parse).map Prod.snd).foldl (· ||| ·) acc.all_modifiers,
        keys := acc.keys ++
          (items.filterMap parse).map (fun p => { keyval := p.1, modifiers := p.2 }) } := by
  induction items generalizing acc with
  | nil => simp
  | cons item rest ih =>
    rw [List.foldl_cons, ih]
    unfold hotkey_list_append_from_string
    cases hp : parse item with
    | none => simp [hp]
    | some p =>
      obtain ⟨k, m⟩ := p
      simp [hp, hotkey_list_append, key_event_list_append]

theorem hotkey_list_set_from_string_spec (parse : List Char → Option (Nat × Nat))
    (list : HotkeyList) (str : List Char) :
    hotkey_list_set_from_string parse list str =
      { all_modifiers :=
          (((g_strsplit str ',' 0).filterMap parse).map Prod.snd).foldl (· ||| ·) 0,
        keys := ((g_strsplit str ',' 0).filterMap parse).map
          (fun p => { keyval := p.1, modifiers := p.2 }) } := by
  unfold hotkey_list_set_from_string
  simp only [hotkey_list_append_from_string_foldl, List.nil_append]

theorem mask_ignores_lock (m : Nat) :
    (m ||| IBUS_LOCK_MASK ||| IBUS_MOD2_MASK) &&&
        (IBUS_SHIFT_MASK ||| IBUS_CONTROL_MASK ||| IBUS_MOD1_MASK ||| IBUS_MOD3_MASK |||
          IBUS_MOD4_MASK ||| IBUS_MOD5_MASK) =
      m &&& (IBUS_SHIFT_MASK ||| IBUS_CONTROL_MASK ||| IBUS_MOD1_MASK ||| IBUS_MOD3_MASK |||
          IBUS_MOD4_MASK ||| IBUS_MOD5_MASK) := by
  simp only [IBUS_LOCK_MASK, IBUS_MOD2_MASK, IBUS_SHIFT_MASK, IBUS_CONTROL_MASK, IBUS_MOD1_MASK,
    IBUS_MOD3_MASK, IBUS_MOD4_MASK, IBUS_MOD5_MASK]
  rw [Nat.and_distrib_right, Nat.and_distrib_right]
  have h1 : (2 : Nat) &&& (1 ||| 4 ||| 8 ||| 32 ||| 64 ||| 128) = 0 := by decide
  have h2 : (16 : Nat) &&& (1 ||| 4 ||| 8 ||| 32 ||| 64 ||| 128) = 0 := by decide
  rw [h1, h2, Nat.or_zero, Nat.or_zero]

/-! ### The lookup key -/

theorem substring_before_caret (txt : List Nat) (c : Nat) (hc : c ≤ txt.length) :
    h_ibus_text_get_substring (some txt) ((c : Int) - 32) c =
      some (some (last_codepoints (min 32 c) (txt.take c))) := by
  unfold h_ibus_text_get_substring last_codepoints
  have hlim : ¬ ((txt.length : Int) + 1 = 0) := by omega
  simp only [hlim, if_false]
  have e1 : max (0 : Int) (c : Int) = c := by omega
  have e2 : min (max (0 : Int) ((c : Int) - 32)) (c : Int) = ((c - 32 : Nat) : Int) := by omega
  have e3 : ((((c : Int) - max 0 ((c : Int) - 32)).natAbs : Nat) : Int) = ((min 32 c : Nat) : Int) := by
    omega
  rw [e1, e2, e3]
  have e4 : ¬ (((c - 32 : Nat) : Int) + ((min 32 c : Nat) : Int) > (txt.length : Int) + 1) := by
    omega
  have e5 : ¬ (((min 32 c : Nat) : Int) < 0) := by omega
  simp only [e4, if_false, e5, Int.toNat_ofNat, List.length_take, Option.some.injEq]
  rw [List.drop_take]
  congr 1
  · omega
  · congr 1
    omega

theorem substring_selection (txt : List Nat) (c a : Nat) (hc : c ≤ txt.length)
    (ha : a ≤ txt.length) :
    h_ibus_text_get_substring (some txt) c a =
      some (some ((txt.drop (min c a)).take (max c a - min c a))) := by
  unfold h_ibus_text_get_substring
  have hlim : ¬ ((txt.length : Int) + 1 = 0) := by omega
  simp only [hlim, if_false]
  have e1 : max (0 : Int) (c : Int) = c := by omega
  have e1a : max (0 : Int) (a : Int) = a := by omega
  have e2 : min (c : Int) (a : Int) = ((min c a : Nat) : Int) := by omega
  have e3 : ((((a : Int) - (c : Int)).natAbs : Nat) : Int) = ((max c a - min c a : Nat) : Int) := by
    omega
  rw [e1, e1a, e2, e3]
  have e4 : ¬ (((min c a : Nat) : Int) + ((max c a - min c a : Nat) : Int) >
      (txt.length : Int) + 1) := by
    omega
  have e5 : ¬ (((max c a - min c a : Nat) : Int) < 0) := by omega
  simp only [e4, if_false, e5, Int.toNat_ofNat]


theorem hanja_key_and_method_spec {σ : Type} (ic : Composer σ) (st : SurroundingText)
    (h : IBusHangulEngine σ) (txt : List Nat)
    (htext : st.text = some txt) (hc : st.cursor_pos ≤ txt.length)
    (ha : st.anchor_pos ≤ txt.length) :
    (h.preedit_mode ≠ PREEDIT_MODE_NONE →
      h.preedit ++ ic.hangul_ic_get_preedit_string h.context ≠ [] →
      hanja_key_and_method ic st h =
        some (if h.preedit_mode = PREEDIT_MODE_WORD ∨ h.hanja_mode = true then
          (some (h.preedit ++ ic.hangul_ic_get_preedit_string h.context), LOOKUP_METHOD_PREFIX)
        else
          (some (last_codepoints (min 32 st.cursor_pos) (txt.take st.cursor_pos) ++
            (h.preedit ++ ic.hangul_ic_get_preedit_string h.context)), LOOKUP_METHOD_SUFFIX))) ∧
    (h.preedit ++ ic.hangul_ic_get_preedit_string h.context = [] →
      hanja_key_and_method ic st h =
        some (if st.anchor_pos ≠ st.cursor_pos then
          (some ((txt.drop (min st.cursor_pos st.anchor_pos)).take
            (max st.cursor_pos st.anchor_pos - min st.cursor_pos st.anchor_pos)),
            LOOKUP_METHOD_EXACT)
        else
          (some (last_codepoints (min 32 st.cursor_pos) (txt.take st.cursor_pos)),
            LOOKUP_METHOD_SUFFIX))) := by
  have hsub := substring_before_caret txt st.cursor_pos hc
  have hsel := substring_selection txt st.cursor_pos st.anchor_pos hc ha
  have hfrom : (if st.cursor_pos ≠ st.anchor_pos then
        (h_ibus_text_get_substring st.text st.cursor_pos st.anchor_pos).map
          (fun key => (key, LOOKUP_METHOD_EXACT))
      else
        (h_ibus_text_get_substring st.text ((st.cursor_pos : Int) - 32) st.cursor_pos).map
          (fun key => (key, LOOKUP_METHOD_SUFFIX))) =
      some (if st.anchor_pos ≠ st.cursor_pos then
          (some ((txt.drop (min st.cursor_pos st.anchor_pos)).take
            (max st.cursor_pos st.anchor_pos - min st.cursor_pos st.anchor_pos)),
            LOOKUP_METHOD_EXACT)
        else
          (some (last_codepoints (min 32 st.cursor_pos) (txt.take st.cursor_pos)),
            LOOKUP_METHOD_SUFFIX)) := by
    rw [htext, hsub, hsel]
    by_cases hne : st.cursor_pos = st.anchor_pos
    · simp [hne]
    · have hne2 : ¬ st.anchor_pos = st.cursor_pos := fun e => hne e.symm
      simp [hne, hne2]
  constructor
  · intro hmode ht
    have hlen : ustring_length (ustring_append_ucs4 h.preedit
        (ic.hangul_ic_get_preedit_string h.context)) > 0 := by
      simp only [ustring_length, ustring_append_ucs4]
      exact List.length_pos.mpr ht
    unfold hanja_key_and_method
    simp only [hmode, ne_eq, not_false_eq_true, if_true, hlen, htext, hsub]
    split_ifs <;> rfl
  · intro ht
    have hlen : ¬ ustring_length (ustring_append_ucs4 h.preedit
        (ic.hangul_ic_get_preedit_string h.context)) > 0 := by
      simp only [ustring_length, ustring_append_ucs4, ht, List.length_nil, gt_iff_lt,
        lt_self_iff_false, not_false_eq_true]
    unfold hanja_key_and_method
    by_cases hmode : h.preedit_mode = PREEDIT_MODE_NONE
    · simp only [hmode, ne_eq, not_true_eq_false, if_false]
      exact hfrom
    · simp only [hmode, ne_eq, not_false_eq_true, if_true, hlen, if_false]
      exact hfrom

theorem update_hanja_list_spec {σ : Type} (ic : Composer σ) (cfg : Config) (env : Env)
    (h : IBusHangulEngine σ) (key : List Nat) (method : LookupMethod)
    (hkm : hanja_key_and_method ic env.surrounding_text_lookup h = some (some key, method)) :
    ∃ h1, ibus_hangul_engine_update_hanja_list ic cfg env h = some h1 ∧
      h1.last_lookup_method = method ∧
      h1.hanja_list = ibus_hangul_engine_lookup_hanja_table cfg (some key) method := by
  have hsame : hanja_key_and_method ic env.surrounding_text_lookup
      ({ h with hanja_list := none } : IBusHangulEngine σ) =
      hanja_key_and_method ic env.surrounding_text_lookup h := rfl
  unfold ibus_hangul_engine_update_hanja_list
  simp only [hsame, hkm]
  exact ⟨_, rfl, rfl, rfl⟩

/-! ### Candidate commit after a Suffix lookup -/

set_option maxHeartbeats 1000000 in
theorem commit_candidate_suffix_erase {σ : Type} (ic : Composer σ) (h : IBusHangulEngine σ)
    (key value : List Nat) (r : Nat)
    (hmethod : h.last_lookup_method = LOOKUP_METHOD_SUFFIX)
    (hmode : h.preedit_mode ≠ PREEDIT_MODE_NONE)
    (hr : (key.length : Int) - ((ic.hangul_ic_get_preedit_string h.context).length : Int) = r)
    (hpos : 0 < r) (hle : r ≤ h.preedit.length) :
    (commit_candidate ic h key value).1.preedit = h.preedit.drop r := by
  have hm : ¬ h.last_lookup_method = LOOKUP_METHOD_PREFIX := by rw [hmethod]; decide
  have herase : ustring_erase h.preedit 0 r = h.preedit.drop r := by
    simp [ustring_erase, hle]
  simp only [commit_candidate, hm, if_false, hmode, ne_eq, not_false_eq_true, and_true,
    ustring_length]
  by_cases hq : (0 : Int) < ((ic.hangul_ic_get_preedit_string h.context).length : Int)
  · have k1 : (key.length : Int) - ((ic.hangul_ic_get_preedit_string h.context).length : Int) =
        (r : Int) := hr
    have k2 : ¬ ((r : Int) > (h.preedit.length : Int)) := by omega
    have k3 : (r : Int) > 0 := by omega
    simp only [gt_iff_lt, hq, if_true, and_false, if_false, k1] at *
    simp only [k2, k3, if_true, if_false, Int.toNat_ofNat, herase]
  · have hq0 : ((ic.hangul_ic_get_preedit_string h.context).length : Int) = 0 := by omega
    have k1 : (key.length : Int) = (r : Int) := by omega
    have k2 : ¬ ((r : Int) > (h.preedit.length : Int)) := by omega
    have k3 : (r : Int) > 0 := by omega
    simp only [gt_iff_lt, hq, if_false, false_and, k1] at *
    simp only [k2, k3, if_true, if_false, Int.toNat_ofNat, herase]

/-! ### The display invariant of the buffered preedit modes -/

theorem host_preedit_append (d : PreeditDisplay) (a b : List Cmd) :
    host_preedit d (a ++ b) = host_preedit (host_preedit d a) b := by
  induction a generalizing d with
  | nil => rfl
  | cons c cs ih => cases c <;> simp [host_preedit, ih]

theorem host_preedit_update_preedit_text {σ : Type} (ic : Composer σ) (h : IBusHangulEngine σ)
    (d : PreeditDisplay) (hmode : h.preedit_mode ≠ PREEDIT_MODE_NONE) :
    host_preedit d (ibus_hangul_engine_update_preedit_text ic h) = logical_preedit ic h := by
  unfold ibus_hangul_engine_update_preedit_text logical_preedit
  simp only [hmode, if_false, ustring_length, ustring_append_ucs4]
  by_cases ht : h.preedit ++ ic.hangul_ic_get_preedit_string h.context = []
  · simp [ht, host_preedit]
  · have hl : (h.preedit ++ ic.hangul_ic_get_preedit_string h.context).length > 0 :=
      List.length_pos.mpr ht
    simp only [hl, if_true, ht, if_false, host_preedit]

theorem display_synced_update {σ : Type} (ic : Composer σ) (h : IBusHangulEngine σ)
    (d : PreeditDisplay) (cmds : List Cmd) (hmode : h.preedit_mode ≠ PREEDIT_MODE_NONE) :
    DisplaySynced ic h (host_preedit d (cmds ++ ibus_hangul_engine_update_preedit_text ic h)) := by
  rw [host_preedit_append, host_preedit_update_preedit_text ic h _ hmode]
  exact ⟨hmode, rfl⟩

theorem display_synced_congr {σ : Type} (ic : Composer σ) (h h2 : IBusHangulEngine σ)
    (d : PreeditDisplay) (hinv : DisplaySynced ic h d)
    (hp : h2.preedit = h.preedit) (hc : h2.context = h.context)
    (hm : h2.preedit_mode = h.preedit_mode) : DisplaySynced ic h2 d := by
  obtain ⟨i1, i2⟩ := hinv
  refine ⟨by rw [hm]; exact i1, ?_⟩
  rw [i2]
  unfold logical_preedit
  rw [hp, hc]

theorem host_preedit_hide_lookup_table {σ : Type} (h : IBusHangulEngine σ) (d : PreeditDisplay) :
    host_preedit d (ibus_hangul_engine_hide_lookup_table h).2 = d := by
  simp only [ibus_hangul_engine_hide_lookup_table]
  split_ifs <;> rfl

theorem host_preedit_update_lookup_table_ui {σ : Type} (h : IBusHangulEngine σ)
    (cmds : List Cmd) (d : PreeditDisplay)
    (hr : ibus_hangul_engine_update_lookup_table_ui h = some cmds) :
    host_preedit d cmds = d := by
  unfold ibus_hangul_engine_update_lookup_table_ui at hr
  cases hl : h.hanja_list with
  | none => simp [hl] at hr
  | some list =>
    simp only [hl] at hr
    split at hr
    · simp at hr
    · simp only [Option.some.injEq] at hr
      subst hr
      rfl

theorem hide_lookup_table_display {σ : Type} (ic : Composer σ) (h : IBusHangulEngine σ)
    (d : PreeditDisplay) (hinv : DisplaySynced ic h d) :
    DisplaySynced ic (ibus_hangul_engine_hide_lookup_table h).1
      (host_preedit d (ibus_hangul_engine_hide_lookup_table h).2) := by
  rw [host_preedit_hide_lookup_table]
  exact display_synced_congr ic h _ d hinv (by simp) (by simp) (by simp)

theorem flush_display {σ : Type} (ic : Composer σ) (h : IBusHangulEngine σ)
    (d : PreeditDisplay) (hmode : h.preedit_mode ≠ PREEDIT_MODE_NONE) :
    DisplaySynced ic (ibus_hangul_engine_flush ic h).1
      (host_preedit d (ibus_hangul_engine_flush ic h).2) := by
  have hm : (ibus_hangul_engine_flush ic h).1.preedit_mode ≠ PREEDIT_MODE_NONE := by
    rw [flush_preedit_mode]; exact hmode
  exact display_synced_update ic (ibus_hangul_engine_flush ic h).1 d _ hm

theorem process_edit_and_commit_display {σ : Type} (ic : Composer σ) (h : IBusHangulEngine σ)
    (d : PreeditDisplay) (hmode : h.preedit_mode ≠ PREEDIT_MODE_NONE) :
    DisplaySynced ic (ibus_hangul_engine_process_edit_and_commit ic h).1
      (host_preedit d (ibus_hangul_engine_process_edit_and_commit ic h).2) := by
  have hm : (ibus_hangul_engine_process_edit_and_commit ic h).1.preedit_mode ≠
      PREEDIT_MODE_NONE := by
    rw [process_edit_and_commit_preedit_mode]; exact hmode
  exact display_synced_update ic (ibus_hangul_engine_process_edit_and_commit ic h).1 d _ hm


theorem commit_candidate_display {σ : Type} (ic : Composer σ) (h : IBusHangulEngine σ)
    (key value : List Nat) (d : PreeditDisplay) (hmode : h.preedit_mode ≠ PREEDIT_MODE_NONE) :
    DisplaySynced ic (commit_candidate ic h key value).1
      (host_preedit d (commit_candidate ic h key value).2) := by
  have hm : (commit_candidate ic h key value).1.preedit_mode ≠ PREEDIT_MODE_NONE := by
    rw [commit_candidate_preedit_mode]; exact hmode
  exact display_synced_update ic (commit_candidate ic h key value).1 d _ hm

theorem host_preedit_apply_hanja_list {σ : Type} (h : IBusHangulEngine σ)
    (r : IBusHangulEngine σ × List Cmd) (d : PreeditDisplay)
    (hr : ibus_hangul_engine_apply_hanja_list h = some r) :
    host_preedit d r.2 = d := by
  unfold ibus_hangul_engine_apply_hanja_list at hr
  cases hl : h.hanja_list with
  | none =>
    simp only [hl, Option.some.injEq] at hr
    subst hr
    rfl
  | some list =>
    simp only [hl] at hr
    split at hr
    · simp at hr
    · rename_i cmds hui
      simp only [Option.some.injEq] at hr
      subst hr
      exact host_preedit_update_lookup_table_ui _ cmds d hui

theorem update_lookup_table_display {σ : Type} (ic : Composer σ) (cfg : Config) (env : Env)
    (h : IBusHangulEngine σ) (d : PreeditDisplay) (r : IBusHangulEngine σ × List Cmd)
    (hr : ibus_hangul_engine_update_lookup_table ic cfg env h = some r)
    (hinv : DisplaySynced ic h d) :
    DisplaySynced ic r.1 (host_preedit d r.2) := by
  obtain ⟨h1, hu, hr⟩ := update_lookup_table_some ic cfg env h r hr
  obtain ⟨u1, u2, u3, _⟩ := update_hanja_list_frame ic cfg env h h1 hu
  have hinv1 : DisplaySynced ic h1 d :=
    display_synced_congr ic h _ d hinv u1 u2 u3
  split_ifs at hr with hl
  · cases ha : ibus_hangul_engine_apply_hanja_list h1 with
    | none => simp [ha] at hr
    | some a =>
      simp only [ha, Option.some.injEq] at hr
      subst hr
      obtain ⟨⟨a1, a2, a3, _, _⟩, _, _⟩ := apply_hanja_list_some _ _ ha
      simp only [host_preedit_append, host_preedit_apply_hanja_list _ a _ ha,
        host_preedit_update_preedit_text ic _ d hinv1.1]
      exact display_synced_congr ic _ a.1 _ ⟨hinv1.1, rfl⟩ a1 a2 a3
  · simp only [Option.some.injEq] at hr
    subst hr
    exact hide_lookup_table_display ic _ d hinv1

theorem candidate_commit_and_refresh_display {σ : Type} (ic : Composer σ) (cfg : Config)
    (env : Env) (h : IBusHangulEngine σ) (d : PreeditDisplay) (r : Outcome σ)
    (hr : candidate_commit_and_refresh ic cfg env h = some r)
    (hmode : h.preedit_mode ≠ PREEDIT_MODE_NONE) :
    DisplaySynced ic r.engine (host_preedit d r.cmds) := by
  unfold candidate_commit_and_refresh at hr
  cases hc : ibus_hangul_engine_commit_current_candidate ic h with
  | none => simp [hc] at hr
  | some r0 =>
    obtain ⟨key, value, rfl⟩ := commit_current_candidate_some ic h r0 hc
    have s0 := commit_candidate_display ic h key value d hmode
    simp only [hc] at hr
    split_ifs at hr
    · split at hr
      · simp at hr
      · rename_i r2 hr2
        simp only [Option.some.injEq] at hr
        subst hr
        simp only [host_preedit_append]
        exact update_lookup_table_display ic cfg env _ _ r2 hr2 s0
    · simp only [Option.some.injEq] at hr
      subst hr
      simp only [host_preedit_append]
      exact hide_lookup_table_display ic _ _ s0

theorem candidate_navigate_display {σ : Type} (ic : Composer σ)
    (move : IBusLookupTable → IBusLookupTable) (h : IBusHangulEngine σ) (d : PreeditDisplay)
    (r : Outcome σ) (hr : candidate_navigate move h = some r)
    (hinv : DisplaySynced ic h d) :
    DisplaySynced ic r.engine (host_preedit d r.cmds) := by
  unfold candidate_navigate at hr
  simp only at hr
  split at hr
  · simp at hr
  · rename_i cmds hui
    simp only [Option.some.injEq] at hr
    subst hr
    simp only [host_preedit_update_lookup_table_ui _ cmds d hui]
    exact display_synced_congr ic h _ d hinv rfl rfl rfl

theorem process_candidate_key_event_display {σ : Type} (ic : Composer σ) (cfg : Config)
    (env : Env) (h : IBusHangulEngine σ) (d : PreeditDisplay) (keyval modifiers : Nat)
    (r : Outcome σ)
    (hr : ibus_hangul_engine_process_candidate_key_event ic cfg env h keyval modifiers = some r)
    (hinv : DisplaySynced ic h d) :
    DisplaySynced ic r.engine (host_preedit d r.cmds) := by
  unfold ibus_hangul_engine_process_candidate_key_event at hr
  by_cases h1 : keyval = IBUS_Escape
  · simp only [h1, if_true, Option.some.injEq] at hr
    subst hr
    have hm : (ibus_hangul_engine_hide_lookup_table h).1.preedit_mode ≠ PREEDIT_MODE_NONE := by
      rw [hide_lookup_table_preedit_mode]; exact hinv.1
    exact display_synced_update ic _ d _ hm
  · simp only [h1, if_false] at hr
    by_cases h2 : keyval = IBUS_Return
    · simp only [h2, if_true] at hr
      exact candidate_commit_and_refresh_display ic cfg env h d r hr hinv.1
    · simp only [h2, if_false] at hr
      by_cases h3 : keyval ≥ IBUS_1 ∧ keyval ≤ IBUS_9
      · simp only [h3, and_self, if_true] at hr
        by_cases h4 : ibus_lookup_table_get_page_size h.table = 0
        · simp [h4] at hr
        · simp only [h4, if_false] at hr
          exact candidate_commit_and_refresh_display ic cfg env _ d r hr hinv.1
      · simp only [h3, if_false] at hr
        by_cases h5 : keyval = IBUS_Page_Up
        · simp only [h5, if_true] at hr
          exact candidate_navigate_display ic _ h d r hr hinv
        · simp only [h5, if_false] at hr
          by_cases h6 : keyval = IBUS_Page_Down
          · simp only [h6, if_true] at hr
            exact candidate_navigate_display ic _ h d r hr hinv
          · simp only [h6, if_false] at hr
            cases ha : candidate_arrow_move cfg keyval with
            | some move =>
              simp only [ha] at hr
              exact candidate_navigate_display ic _ h d r hr hinv
            | none =>
              simp only [ha] at hr
              cases hv : (if h.hanja_mode = false then candidate_vi_move cfg keyval
                  else none) with
              | some move =>
                simp only [hv] at hr
                exact candidate_navigate_display ic _ h d r hr hinv
              | none =>
                simp only [hv, Option.some.injEq] at hr
                subst hr
                exact hinv


theorem process_key_event_return_display {σ : Type} (ic : Composer σ) (cfg : Config)
    (h : IBusHangulEngine σ) (cmds : List Cmd) (retval : Bool) (keyval keycode modifiers : Nat)
    (d : PreeditDisplay)
    (hinv : DisplaySynced ic h (host_preedit d cmds)) :
    DisplaySynced ic
      (process_key_event_return cfg h cmds retval keyval keycode modifiers).engine
      (host_preedit d
        (process_key_event_return cfg h cmds retval keyval keycode modifiers).cmds) := by
  unfold process_key_event_return
  split_ifs with hf hr
  · simp only [host_preedit_append]
    exact hinv
  · simp only [List.append_nil]
    exact hinv
  · exact hinv

theorem refresh_after_backspace_display {σ : Type} (ic : Composer σ) (cfg : Config) (env : Env)
    (h : IBusHangulEngine σ) (d : PreeditDisplay) (r : IBusHangulEngine σ × List Cmd)
    (hr : (if h.hanja_mode = true then
             if ibus_hangul_engine_has_preedit ic h = true then
               ibus_hangul_engine_update_lookup_table ic cfg env h
             else some (ibus_hangul_engine_hide_lookup_table h)
           else some (h, [])) = some r)
    (hinv : DisplaySynced ic h d) :
    DisplaySynced ic r.1 (host_preedit d r.2) := by
  split_ifs at hr
  · exact update_lookup_table_display ic cfg env h d r hr hinv
  · simp only [Option.some.injEq] at hr
    subst hr
    exact hide_lookup_table_display ic h d hinv
  · simp only [Option.some.injEq] at hr
    subst hr
    exact hinv

theorem refresh_after_key_display {σ : Type} (ic : Composer σ) (cfg : Config) (env : Env)
    (h : IBusHangulEngine σ) (d : PreeditDisplay) (r : IBusHangulEngine σ × List Cmd)
    (hr : (if h.hanja_mode = true then ibus_hangul_engine_update_lookup_table ic cfg env h
           else some (h, [])) = some r)
    (hinv : DisplaySynced ic h d) :
    DisplaySynced ic r.1 (host_preedit d r.2) := by
  split_ifs at hr
  · exact update_lookup_table_display ic cfg env h d r hr hinv
  · simp only [Option.some.injEq] at hr
    subst hr
    exact hinv

theorem process_key_event_edit_display {σ : Type} (ic : Composer σ) (cfg : Config) (env : Env)
    (h : IBusHangulEngine σ) (d : PreeditDisplay) (keyval keycode modifiers : Nat)
    (r : Outcome σ)
    (hr : process_key_event_edit ic cfg env h keyval keycode modifiers = some r)
    (hmode : h.preedit_mode ≠ PREEDIT_MODE_NONE) :
    DisplaySynced ic r.engine (host_preedit d r.cmds) := by
  unfold process_key_event_edit at hr
  by_cases hbs : keyval = IBUS_BackSpace
  · simp only [hbs, if_true] at hr
    generalize hb : ic.hangul_ic_backspace h.context = b at hr
    generalize hh2 : (if b.2 = false ∧ ustring_length h.preedit > 0 then
        ({ h with context := b.1, preedit := ustring_erase h.preedit (ustring_length h.preedit - 1) 1 } :
          IBusHangulEngine σ)
      else ({ h with context := b.1 } : IBusHangulEngine σ)) = h2 at hr
    have e1 : h2.preedit_mode = h.preedit_mode := by
      rw [← hh2]; split_ifs <;> rfl
    have hm2 : h2.preedit_mode ≠ PREEDIT_MODE_NONE := by rw [e1]; exact hmode
    simp only [eq_false hm2, if_false] at hr
    have s3 : DisplaySynced ic h2
        (host_preedit d (ibus_hangul_engine_update_preedit_text ic h2)) := by
      have := display_synced_update ic h2 d [] hm2
      simpa using this
    split at hr
    · simp at hr
    · rename_i r4 hr4
      simp only [Option.some.injEq] at hr
      subst hr
      apply process_key_event_return_display
      simp only [host_preedit_append]
      exact refresh_after_backspace_display ic cfg env _ _ r4 hr4 s3
  · simp only [hbs, if_false] at hr
    generalize hkey : normalize_keyval cfg (ic.hangul_ic_is_transliteration h.context) keyval
      keycode modifiers = key at hr
    generalize hp : ic.hangul_ic_process h.context key = p at hr
    have s3 := process_edit_and_commit_display ic ({ h with context := p.1 } : IBusHangulEngine σ)
      d hmode
    simp only [eq_false hmode, if_false] at hr
    split at hr
    · simp at hr
    · rename_i r4 hr4
      simp only [Option.some.injEq] at hr
      subst hr
      have s4 := refresh_after_key_display ic cfg env _ _ r4 hr4 s3
      apply process_key_event_return_display
      by_cases hret : p.2 = false
      · simp only [hret, if_true]
        rw [host_preedit_append]
        exact flush_display ic r4.1 _ s4.1
      · simp only [hret, if_false, List.append_nil, host_preedit_append]
        exact s4

theorem set_input_mode_display {σ : Type} (ic : Composer σ) (cfg : Config)
    (h : IBusHangulEngine σ) (d : PreeditDisplay) (input_mode : Int)
    (hmode : h.preedit_mode ≠ PREEDIT_MODE_NONE) :
    DisplaySynced ic (ibus_hangul_engine_set_input_mode ic cfg h input_mode).1
      (host_preedit d (ibus_hangul_engine_set_input_mode ic cfg h input_mode).2) := by
  have s := flush_display ic h d hmode
  unfold ibus_hangul_engine_set_input_mode
  split_ifs
  · exact s
  · simp only [host_preedit_append]
    exact display_synced_congr ic _ _ _ s rfl rfl rfl

theorem process_key_event_hotkeys_display {σ : Type} (ic : Composer σ) (cfg : Config)
    (env : Env) (h : IBusHangulEngine σ) (d : PreeditDisplay) (keyval keycode modifiers : Nat)
    (r : Outcome σ)
    (hr : process_key_event_hotkeys ic cfg env h keyval keycode modifiers = some r)
    (hinv : DisplaySynced ic h d) :
    DisplaySynced ic r.engine (host_preedit d r.cmds) := by
  unfold process_key_event_hotkeys at hr
  by_cases h1 : hotkey_list_has_modifier cfg.switch_keys keyval = true
  · simp only [h1, if_true, Option.some.injEq, ne_eq, not_false_eq_true] at hr
    subst hr
    exact hinv
  simp only [h1, if_false, Bool.false_eq_true, ne_eq, not_true_eq_false, not_false_eq_true, if_true] at hr
  by_cases h2 : hotkey_list_match cfg.switch_keys keyval modifiers = true
  · simp only [h2, if_true, Option.some.injEq, ne_eq, not_false_eq_true] at hr
    subst hr
    exact set_input_mode_display ic cfg h d _ hinv.1
  simp only [h2, if_false, Bool.false_eq_true, ne_eq, not_true_eq_false, not_false_eq_true, if_true] at hr
  by_cases h3 : hotkey_list_match cfg.on_keys keyval modifiers = true
  · simp only [h3, if_true, Option.some.injEq, ne_eq, not_false_eq_true] at hr
    subst hr
    exact set_input_mode_display ic cfg h d _ hinv.1
  simp only [h3, if_false, Bool.false_eq_true, ne_eq, not_true_eq_false, not_false_eq_true, if_true] at hr
  by_cases h4 : h.input_mode = INPUT_MODE_LATIN
  · simp only [h4, if_true, Option.some.injEq, ne_eq, not_false_eq_true] at hr
    subst hr
    exact hinv
  simp only [h4, if_false, Bool.false_eq_true, ne_eq, not_true_eq_false, not_false_eq_true, if_true] at hr
  by_cases h5 : hotkey_list_match cfg.off_keys keyval modifiers = true
  · simp only [h5, if_true, Option.some.injEq, ne_eq, not_false_eq_true] at hr
    subst hr
    exact set_input_mode_display ic cfg h d _ hinv.1
  simp only [h5, if_false, Bool.false_eq_true, ne_eq, not_true_eq_false, not_false_eq_true, if_true] at hr
  by_cases h6 : hotkey_list_has_modifier cfg.hanja_keys keyval = true
  · simp only [h6, if_true, Option.some.injEq, ne_eq, not_false_eq_true] at hr
    subst hr
    exact hinv
  simp only [h6, if_false, Bool.false_eq_true, ne_eq, not_true_eq_false, not_false_eq_true, if_true] at hr
  by_cases h7 : hotkey_list_match cfg.hanja_keys keyval modifiers = true
  · simp only [h7, if_true, ne_eq, not_false_eq_true] at hr
    by_cases h8 : h.hanja_list = none
    · simp only [h8, if_true, ne_eq, not_false_eq_true] at hr
      split at hr
      · simp at hr
      · rename_i r1 hr1
        simp only [Option.some.injEq] at hr
        subst hr
        exact update_lookup_table_display ic cfg env h d r1 hr1 hinv
    · simp only [h8, if_false, Option.some.injEq] at hr
      subst hr
      exact hide_lookup_table_display ic h d hinv
  simp only [h7, if_false, Bool.false_eq_true, ne_eq, not_true_eq_false, not_false_eq_true, if_true] at hr
  by_cases h9 : modifiers &&& (IBUS_CONTROL_MASK ||| IBUS_MOD1_MASK ||| IBUS_MOD3_MASK |||
      IBUS_MOD4_MASK ||| IBUS_MOD5_MASK) ≠ 0
  · simp only [h9, if_true, Option.some.injEq, ne_eq, not_false_eq_true] at hr
    subst hr
    exact flush_display ic h d hinv.1
  simp only [h9, if_false, Bool.false_eq_true, ne_eq, not_true_eq_false, not_false_eq_true, if_true] at hr
  unfold process_key_event_compose at hr
  simp only [eq_false hinv.1, if_false] at hr
  exact process_key_event_edit_display ic cfg env h d keyval keycode modifiers r hr hinv.1

theorem process_key_event_display {σ : Type} (ic : Composer σ) (cfg : Config)
    (env : Env) (h : IBusHangulEngine σ) (d : PreeditDisplay) (keyval keycode modifiers : Nat)
    (r : Outcome σ)
    (hr : ibus_hangul_engine_process_key_event ic cfg env h keyval keycode modifiers = some r)
    (hinv : DisplaySynced ic h d) :
    DisplaySynced ic r.engine (host_preedit d r.cmds) := by
  unfold ibus_hangul_engine_process_key_event at hr
  by_cases h1 : modifiers &&& IBUS_RELEASE_MASK ≠ 0
  · simp only [h1, if_true, Option.some.injEq, ne_eq, not_false_eq_true] at hr
    subst hr
    exact hinv
  simp only [h1, if_false, Bool.false_eq_true, ne_eq, not_true_eq_false, not_false_eq_true, if_true] at hr
  by_cases h2 : keyval = IBUS_Shift_L ∨ keyval = IBUS_Shift_R
  · simp only [h2, if_true, Option.some.injEq, ne_eq, not_false_eq_true] at hr
    subst hr
    exact hinv
  simp only [h2, if_false, Bool.false_eq_true, ne_eq, not_true_eq_false, not_false_eq_true, if_true] at hr
  by_cases h3 : h.input_purpose = IBUS_INPUT_PURPOSE_PASSWORD
  · simp only [h3, if_true, Option.some.injEq, ne_eq, not_false_eq_true] at hr
    subst hr
    exact hinv
  simp only [h3, if_false, Bool.false_eq_true, ne_eq, not_true_eq_false, not_false_eq_true, if_true] at hr
  by_cases h4 : h.hanja_list ≠ none
  · simp only [h4, if_true, ne_eq, not_false_eq_true] at hr
    split at hr
    · simp at hr
    · rename_i r1 hr1
      have s1 := process_candidate_key_event_display ic cfg env h d keyval modifiers r1 hr1 hinv
      split_ifs at hr
      · simp only [Option.some.injEq] at hr
        subst hr
        exact s1
      · split at hr
        · simp at hr
        · rename_i r2 hr2
          simp only [Option.some.injEq] at hr
          subst hr
          simp only [host_preedit_append]
          exact process_key_event_hotkeys_display ic cfg env r1.engine _ keyval keycode modifiers
            r2 hr2 s1
      · simp only [Option.some.injEq] at hr
        subst hr
        exact s1
  · simp only [h4, if_false, Bool.false_eq_true, ne_eq, not_true_eq_false, not_false_eq_true, if_true] at hr
    exact process_key_event_hotkeys_display ic cfg env h d keyval keycode modifiers r hr hinv

theorem run_key_events_display {σ : Type} (ic : Composer σ) (cfg : Config)
    (events : List KeyInput) :
    ∀ (h : IBusHangulEngine σ) (d : PreeditDisplay) (r : IBusHangulEngine σ × List Cmd),
      run_key_events ic cfg h events = some r → DisplaySynced ic h d →
      DisplaySynced ic r.1 (host_preedit d r.2) := by
  induction events with
  | nil =>
    intro h d r hr hinv
    simp only [run_key_events, Option.some.injEq] at hr
    subst hr
    exact hinv
  | cons e es ih =>
    intro h d r hr hinv
    simp only [run_key_events] at hr
    split at hr
    · simp at hr
    · rename_i r1 hr1
      split at hr
      · simp at hr
      · rename_i r2 hr2
        simp only [Option.some.injEq] at hr
        subst hr
        simp only [host_preedit_append]
        exact ih r1.engine _ r2 hr2
          (process_key_event_display ic cfg e.env h d e.keyval e.keycode e.modifiers r1 hr1 hinv)

theorem caret_check_resets {σ : Type} (ic : Composer σ) (st : SurroundingText)
    (h : IBusHangulEngine σ) (text : List Nat)
    (htext : st.text = some text) (hcaret : st.cursor_pos = text.length)
    (hlen : 2 ≤ h.preedit.length) (hends : h.preedit <:+ text) :
    ibus_hangul_engine_check_caret_pos_sanity ic st h =
      some (reset_context_and_preedit ic h) := by
  rw [check_caret_pos_sanity_eq, htext]
  have hne : ¬ h.preedit = [] := by
    intro he
    rw [he] at hlen
    simp at hlen
  have htl : 2 ≤ text.length := le_trans hlen hends.length_le
  have hc0 : ¬ st.cursor_pos = 0 := by omega
  have hpre : ¬ h.preedit <+: text.drop (st.cursor_pos - 1) := by
    intro hp
    have := hp.length_le
    simp only [List.length_drop] at this
    omega
  have hb : ¬ (st.cursor_pos - 1 > text.length) := by omega
  simp only [hne, hc0, hpre, hb, or_self, if_false]

theorem ibus_hangul_init_exits (e : InitEnv) :
    ∃ status, ibus_hangul_init e = Completion.exited status ∧ (status = 0 ∨ status = -1) := by
  unfold ibus_hangul_init check_ibus_version
  cases e.standard_output with
  | none => exact ⟨-1, rfl, Or.inr rfl⟩
  | some output =>
    simp only
    split_ifs
    · exact ⟨-1, rfl, Or.inr rfl⟩
    · exact ⟨-1, rfl, Or.inr rfl⟩
    · exact ⟨0, rfl, Or.inl rfl⟩


theorem hanja_key_buffered {σ : Type} (ic : Composer σ) (st : SurroundingText)
    (h : IBusHangulEngine σ)
    (hmode : h.preedit_mode ≠ PREEDIT_MODE_NONE)
    (ht : h.preedit ++ ic.hangul_ic_get_preedit_string h.context ≠ []) :
    (h.preedit_mode = PREEDIT_MODE_WORD ∨ h.hanja_mode = true →
      hanja_key_and_method ic st h =
        some (some (h.preedit ++ ic.hangul_ic_get_preedit_string h.context),
          LOOKUP_METHOD_PREFIX)) ∧
    (¬ (h.preedit_mode = PREEDIT_MODE_WORD ∨ h.hanja_mode = true) →
      ∀ txt, st.text = some txt → st.cursor_pos ≤ txt.length →
      hanja_key_and_method ic st h =
        some (some (last_codepoints (min 32 st.cursor_pos) (txt.take st.cursor_pos) ++
          (h.preedit ++ ic.hangul_ic_get_preedit_string h.context)), LOOKUP_METHOD_SUFFIX)) := by
  have hlen : ustring_length (ustring_append_ucs4 h.preedit
      (ic.hangul_ic_get_preedit_string h.context)) > 0 := by
    simp only [ustring_length, ustring_append_ucs4]
    exact List.length_pos.mpr ht
  constructor
  · intro hw
    unfold hanja_key_and_method
    simp only [hmode, ne_eq, not_false_eq_true, if_true, hlen, hw]
    rfl
  · intro hw txt htext hc
    unfold hanja_key_and_method
    simp only [hmode, ne_eq, not_false_eq_true, if_true, hlen, hw, if_false, htext,
      substring_before_caret txt st.cursor_pos hc]
    rfl

/-! ### C21: lookup key and lookup method -/

/-- C21: with t = PendingBuffer ++ composer preedit and, for a host that reports
a surrounding text with the caret inside it, L the last min (32, caret)
codepoints before the caret: when preeditMode is not None and t is non-empty
the resolver derives (t, Prefix) in mode Word or under hanja-lock and
(L ++ t, Suffix) otherwise; when t is empty it derives (the text between caret
and anchor, Exact) if the anchor differs from the caret and (L, Suffix)
otherwise; whenever a key is derived, the method is stored as lastLookupMethod
and the CandidateSet is the dictionary's answer for that key and method. -/
theorem C21_lookup_key_and_method {σ : Type} (ic : Composer σ) (cfg : Config) (env : Env)
    (h : IBusHangulEngine σ) :
    (h.preedit_mode ≠ PREEDIT_MODE_NONE →
      h.preedit ++ ic.hangul_ic_get_preedit_string h.context ≠ [] →
      (h.preedit_mode = PREEDIT_MODE_WORD ∨ h.hanja_mode = true →
        hanja_key_and_method ic env.surrounding_text_lookup h =
          some (some (h.preedit ++ ic.hangul_ic_get_preedit_string h.context),
            LOOKUP_METHOD_PREFIX)) ∧
      (¬ (h.preedit_mode = PREEDIT_MODE_WORD ∨ h.hanja_mode = true) →
        ∀ txt, env.surrounding_text_lookup.text = some txt →
        env.surrounding_text_lookup.cursor_pos ≤ txt.length →
        hanja_key_and_method ic env.surrounding_text_lookup h =
          some (some (last_codepoints (min 32 env.surrounding_text_lookup.cursor_pos)
              (txt.take env.surrounding_text_lookup.cursor_pos) ++
            (h.preedit ++ ic.hangul_ic_get_preedit_string h.context)),
            LOOKUP_METHOD_SUFFIX))) ∧
    (h.preedit ++ ic.hangul_ic_get_preedit_string h.context = [] →
      ∀ txt, env.surrounding_text_lookup.text = some txt →
      env.surrounding_text_lookup.cursor_pos ≤ txt.length →
      env.surrounding_text_lookup.anchor_pos ≤ txt.length →
      hanja_key_and_method ic env.surrounding_text_lookup h =
        some (if env.surrounding_text_lookup.anchor_pos ≠
            env.surrounding_text_lookup.cursor_pos then
          (some ((txt.drop (min env.surrounding_text_lookup.cursor_pos
              env.surrounding_text_lookup.anchor_pos)).take
            (max env.surrounding_text_lookup.cursor_pos env.surrounding_text_lookup.anchor_pos -
              min env.surrounding_text_lookup.cursor_pos env.surrounding_text_lookup.anchor_pos)),
            LOOKUP_METHOD_EXACT)
        else
          (some (last_codepoints (min 32 env.surrounding_text_lookup.cursor_pos)
            (txt.take env.surrounding_text_lookup.cursor_pos)), LOOKUP_METHOD_SUFFIX))) ∧
    (∀ key method,
      hanja_key_and_method ic env.surrounding_text_lookup h = some (some key, method) →
      ∃ h1, ibus_hangul_engine_update_hanja_list ic cfg env h = some h1 ∧
        h1.last_lookup_method = method ∧
        h1.hanja_list = ibus_hangul_engine_lookup_hanja_table cfg (some key) method) :=
  ⟨fun hmode ht => hanja_key_buffered ic env.surrounding_text_lookup h hmode ht,
    fun ht txt htext hc ha =>
      (hanja_key_and_method_spec ic env.surrounding_text_lookup h txt htext hc ha).2 ht,
    fun key method hkm => update_hanja_list_spec ic cfg env h key method hkm⟩

/-- C21 on a session in mode Syllable that composed 가 while the host text before
the caret is 나: the key is 나가, the method Suffix, and Suffix is stored as
lastLookupMethod. -/
theorem C21_lookup_key_and_method_witness :
    hanja_key_and_method sample_composer (host_env [0xB098]).surrounding_text_lookup
        syllable_typed_engine =
      some (some [0xB098, 0xAC00], LOOKUP_METHOD_SUFFIX) ∧
    (ibus_hangul_engine_update_hanja_list sample_composer sample_config (host_env [0xB098])
      syllable_typed_engine).map (fun h1 => h1.last_lookup_method) =
        some LOOKUP_METHOD_SUFFIX := by
  have k1 := ((C21_lookup_key_and_method sample_composer sample_config (host_env [0xB098])
      syllable_typed_engine).1 (by decide) (by decide)).2 (by decide) [0xB098] rfl (by decide)
  obtain ⟨h1, hu, hm, _⟩ := (C21_lookup_key_and_method sample_composer sample_config
      (host_env [0xB098]) syllable_typed_engine).2.2 [0xB098, 0xAC00] LOOKUP_METHOD_SUFFIX k1
  exact ⟨k1, by rw [hu]; exact congrArg some hm⟩

/-! ### C22: hotkey strings -/

/-- C22: `hotkey_list_set_from_string` replaces the list: the bindings afterwards
are the parsed comma-separated items of the string in their order, items the
parser rejects being skipped, allModifiers is the bitwise OR of the parsed
modifier masks starting from 0, and the result is the same for every previous
list. -/
theorem C22_hotkey_list_set_from_string (parse : List Char → Option (Nat × Nat))
    (list : HotkeyList) (str : List Char) :
    hotkey_list_set_from_string parse list str =
      { all_modifiers :=
          (((g_strsplit str ',' 0).filterMap parse).map Prod.snd).foldl (· ||| ·) 0,
        keys := ((g_strsplit str ',' 0).filterMap parse).map
          (fun p => { keyval := p.1, modifiers := p.2 }) } ∧
    ∀ previous : HotkeyList,
      hotkey_list_set_from_string parse previous str =
        hotkey_list_set_from_string parse list str := by
  refine ⟨hotkey_list_set_from_string_spec parse list str, fun previous => ?_⟩
  rw [hotkey_list_set_from_string_spec, hotkey_list_set_from_string_spec]

/-! ### C23: hotkey matching -/

/-- C23 fails as stated.  A binding stored with the capslock bit never matches,
although it agrees with the event once capslock and numlock are removed on both
sides; and an event that carries the Super bit matches a binding without it,
although the two differ after capslock and numlock are removed. -/
theorem C23_counterexample :
    (∃ ev ∈ (hotkey_list_append hotkey_list_init IBUS_space IBUS_LOCK_MASK).keys,
      ev.keyval = IBUS_space ∧
      without_lock_bits ev.modifiers = without_lock_bits IBUS_LOCK_MASK) ∧
    hotkey_list_match (hotkey_list_append hotkey_list_init IBUS_space IBUS_LOCK_MASK)
      IBUS_space IBUS_LOCK_MASK = false ∧
    hotkey_list_match (hotkey_list_append hotkey_list_init IBUS_F9 0) IBUS_F9
      IBUS_SUPER_MASK = true ∧
    ¬ ∃ ev ∈ (hotkey_list_append hotkey_list_init IBUS_F9 0).keys,
      ev.keyval = IBUS_F9 ∧ without_lock_bits ev.modifiers = without_lock_bits IBUS_SUPER_MASK := by
  decide

/-- C23, amended: hotkey matching keeps only the Shift, Control, Mod1, Mod3, Mod4
and Mod5 bits of the event's modifiers and compares them with the binding's
modifier mask as stored: `hotkey_list_match` succeeds exactly when some binding
has the same key value and a modifier mask equal to the event's modifiers
restricted to those six bits.  Hence capslock and numlock of the event never
matter. -/
theorem C23_hotkey_match (list : HotkeyList) (keyval modifiers : Nat) :
    (hotkey_list_match list keyval modifiers = true ↔
      ∃ ev ∈ list.keys, ev.keyval = keyval ∧
        ev.modifiers = modifiers &&& (IBUS_SHIFT_MASK ||| IBUS_CONTROL_MASK ||| IBUS_MOD1_MASK |||
          IBUS_MOD3_MASK ||| IBUS_MOD4_MASK ||| IBUS_MOD5_MASK)) ∧
    hotkey_list_match list keyval (modifiers ||| IBUS_LOCK_MASK ||| IBUS_MOD2_MASK) =
      hotkey_list_match list keyval modifiers := by
  refine ⟨hotkey_list_match_iff list keyval modifiers, ?_⟩
  simp only [hotkey_list_match, key_event_list_match, mask_ignores_lock]

/-- C23 on the built-in switch keys: Shift+space still matches with capslock and
numlock set on the event. -/
theorem C23_hotkey_match_witness :
    hotkey_list_match sample_config.switch_keys IBUS_space
        (IBUS_SHIFT_MASK ||| IBUS_LOCK_MASK ||| IBUS_MOD2_MASK) = true :=
  ((C23_hotkey_match sample_config.switch_keys IBUS_space IBUS_SHIFT_MASK).2).trans
    (by decide)

/-! ### C24: auto-reorder validation -/

/-- C24: the transition callback rejects a transition exactly when auto-reorder
is disabled and either the incoming jamo is an initial while the syllable
already has a medial or a final, or it is a medial while the syllable already
has a final; it accepts every other transition, and all of them when
auto-reorder is enabled. -/
theorem C24_on_transition {σ : Type} (ic : Composer σ) (cfg : Config)
    (hangul_is_choseong hangul_is_jungseong : Nat → Bool) (hic : σ) (c : Nat) :
    (ibus_hangul_engine_on_transition ic cfg hangul_is_choseong hangul_is_jungseong hic c =
        false ↔
      cfg.auto_reorder = false ∧
        ((hangul_is_choseong c = true ∧
            (ic.hangul_ic_has_jungseong hic = true ∨ ic.hangul_ic_has_jongseong hic = true)) ∨
          (hangul_is_jungseong c = true ∧ ic.hangul_ic_has_jongseong hic = true))) := by
  rw [on_transition_spec]
  cases cfg.auto_reorder <;> cases hangul_is_choseong c <;> cases hangul_is_jungseong c <;>
    cases ic.hangul_ic_has_jungseong hic <;> cases ic.hangul_ic_has_jongseong hic <;> simp


/-! ### C25: the preedit shown in the buffered modes -/

/-- C25: in a buffered preedit mode (preeditMode not None), if the preedit shown
by the host is the logical preedit (PendingBuffer ++ composer preedit, hidden
when empty, underlined over the first len (PendingBuffer) codepoints, inverted
from there on) before a key event, it is so after the event, for every key
event the handler returns from; the same holds after any sequence of key
events; and for a key that reaches normal composition the preedit sent during
the event is the logical preedit whatever was shown before. -/
theorem C25_preedit_display {σ : Type} (ic : Composer σ) (cfg : Config)
    (env : Env) (h : IBusHangulEngine σ) (shown : PreeditDisplay)
    (keyval keycode modifiers : Nat)
    (hinv : DisplaySynced ic h shown) :
    (∀ r, ibus_hangul_engine_process_key_event ic cfg env h keyval keycode modifiers = some r →
      DisplaySynced ic r.engine (host_preedit shown r.cmds) ∧
      (composing_key cfg keyval modifiers →
        h.input_purpose ≠ IBUS_INPUT_PURPOSE_PASSWORD → h.input_mode ≠ INPUT_MODE_LATIN →
        h.hanja_list = none →
        ∀ before : PreeditDisplay, DisplaySynced ic r.engine (host_preedit before r.cmds))) ∧
    (∀ events r, run_key_events ic cfg h events = some r →
      DisplaySynced ic r.1 (host_preedit shown r.2)) := by
  refine ⟨fun r hr => ⟨process_key_event_display ic cfg env h shown keyval keycode modifiers r
    hr hinv, fun hkey hpurpose hinput hlist before => ?_⟩,
    fun events r hr => run_key_events_display ic cfg events h shown r hr hinv⟩
  rw [process_key_event_of_composing ic cfg env h keyval keycode modifiers hkey hpurpose hlist
    hinput] at hr
  unfold process_key_event_compose at hr
  simp only [eq_false hinv.1, if_false] at hr
  exact process_key_event_edit_display ic cfg env h before keyval keycode modifiers r hr hinv.1

/-- C25 on a fresh session in mode Syllable with nothing shown: after the key r
the host shows the logical preedit of the new state. -/
theorem C25_preedit_display_witness :
    ∃ r, ibus_hangul_engine_process_key_event sample_composer sample_config sample_env
        (sample_engine PREEDIT_MODE_SYLLABLE) 0x72 27 0 = some r ∧
      DisplaySynced sample_composer r.engine
        (host_preedit { text := [], attrs := [], cursor_pos := 0, visible := false } r.cmds) := by
  obtain ⟨r, hr, _⟩ := process_key_event_composition_spec sample_composer sample_config
    sample_env (sample_engine PREEDIT_MODE_SYLLABLE) 0x72 27 0 (by decide) (by decide)
    (by decide) (Or.inl rfl) (fun hm => absurd hm (by decide))
    (sample_engine PREEDIT_MODE_SYLLABLE) (by decide) (fun hm => absurd hm (by decide))
  exact ⟨r, hr, ((C25_preedit_display sample_composer sample_config sample_env
    (sample_engine PREEDIT_MODE_SYLLABLE)
    { text := [], attrs := [], cursor_pos := 0, visible := false } 0x72 27 0
    ⟨by decide, by decide⟩).1 r hr).1⟩

/-! ### C26: start-up and the host version -/

/-- C26, what the code does: `ibus_hangul_init` never gets past
`check_ibus_version`, which ends the process with `exit (0)` when a version was
detected and with `exit (-1)` when detection failed; no setting is read.  With
the version command not runnable the status is -1, with the output
"IBus 1.5.29" it is 0. -/
theorem C26_init_exits :
    (∀ e : InitEnv, ∃ status,
      ibus_hangul_init e = Completion.exited status ∧ (status = 0 ∨ status = -1)) ∧
    ibus_hangul_init (sample_init_env none) = Completion.exited (-1) ∧
    ibus_hangul_init (sample_init_env (some "IBus 1.5.29".toList)) = Completion.exited 0 :=
  ⟨ibus_hangul_init_exits, rfl, rfl⟩


/-! ### C27: candidate commit after a Suffix lookup -/

/-- C27, what the code does: with lastLookupMethod Suffix and preeditMode not
None, when the key length that remains after the composer's preedit is removed
is r with 0 < r <= len (PendingBuffer), the candidate commit erases the FIRST r
codepoints of PendingBuffer: afterwards PendingBuffer is its former last
len (PendingBuffer) - r codepoints, not its former first ones. -/
theorem C27_suffix_commit {σ : Type} (ic : Composer σ) (h : IBusHangulEngine σ)
    (list : HanjaList) (cand : Hanja) (r : Nat)
    (hlist : h.hanja_list = some list)
    (hcand : list[ibus_lookup_table_get_cursor_pos h.table]? = some cand)
    (hmethod : h.last_lookup_method = LOOKUP_METHOD_SUFFIX)
    (hmode : h.preedit_mode ≠ PREEDIT_MODE_NONE)
    (hr : (cand.key.length : Int) -
      ((ic.hangul_ic_get_preedit_string h.context).length : Int) = r)
    (hpos : 0 < r) (hle : r ≤ h.preedit.length) :
    (ibus_hangul_engine_commit_current_candidate ic h).map (fun res => res.1.preedit) =
      some (h.preedit.drop r) := by
  rw [commit_current_candidate_eq ic h list cand hlist hcand, Option.map_some',
    commit_candidate_suffix_erase ic h cand.key cand.value r hmethod hmode hr hpos hle]

/-- C27 at the failing input: PendingBuffer 가나다, empty composer, candidate key
다 found by a Suffix lookup; the commit leaves 나다 in PendingBuffer, where
removing the trailing key would leave 가나. -/
theorem C27_suffix_commit_witness :
    (ibus_hangul_engine_commit_current_candidate sample_composer suffix_engine).map
        (fun res => res.1.preedit) = some [0xB098, 0xB2E4] :=
  C27_suffix_commit sample_composer suffix_engine
    [{ key := [0xB2E4], value := [0x591A], comment := [] }]
    { key := [0xB2E4], value := [0x591A], comment := [] } 1 rfl rfl rfl (by decide) (by decide)
    (by decide) (by decide)

/-! ### C28: the caret check with a longer PendingBuffer -/

/-- C28, what the code does: when PendingBuffer holds two or more codepoints,
the caret is at the end of the host text and the host text ends with
PendingBuffer's content, the caret check resets the composer and clears
PendingBuffer: it compares with the text that starts one codepoint before the
caret. -/
theorem C28_caret_check_resets {σ : Type} (ic : Composer σ) (st : SurroundingText)
    (h : IBusHangulEngine σ) (text : List Nat)
    (htext : st.text = some text) (hcaret : st.cursor_pos = text.length)
    (hlen : 2 ≤ h.preedit.length) (hends : h.preedit <:+ text) :
    ibus_hangul_engine_check_caret_pos_sanity ic st h =
      some (reset_context_and_preedit ic h) ∧
    (ibus_hangul_engine_check_caret_pos_sanity ic st h).map (fun h1 => h1.preedit) =
      some [] :=
  ⟨caret_check_resets ic st h text htext hcaret hlen hends,
    by rw [caret_check_resets ic st h text htext hcaret hlen hends]; rfl⟩

/-- C28 at the failing input: composer and PendingBuffer hold the jamo U+1112
U+119E, which is also the host text before the caret; the check empties
both. -/
theorem C28_caret_check_resets_witness :
    ibus_hangul_engine_check_caret_pos_sanity sample_composer
        (host_env [0x1112, 0x119E]).surrounding_text_check two_codepoint_engine =
      some { two_codepoint_engine with
        context := { preedit := [], commit := [] }, preedit := [] } :=
  (C28_caret_check_resets sample_composer (host_env [0x1112, 0x119E]).surrounding_text_check
    two_codepoint_engine [0x1112, 0x119E] rfl rfl (by decide) (by decide)).1

/-! ### C29: caps-lock normalisation -/

/-- C29: the caps-lock step maps A-Z to a-z and a-z to A-Z when the caps-lock
modifier is set and leaves every other key value as it is (among them the six
values between Z and a); applied twice it gives the key value back; without the
caps-lock modifier it changes nothing.  The key value given to the composer is
this step applied to the key value the keymap step produced. -/
theorem C29_caps_lock (cfg : Config) (translit : Bool) (keyval keycode modifiers : Nat) :
    caps_lock_swap modifiers keyval =
      (if modifiers &&& IBUS_LOCK_MASK ≠ 0 then
        if 0x41 ≤ keyval ∧ keyval ≤ 0x5a then keyval + 32
        else if 0x61 ≤ keyval ∧ keyval ≤ 0x7a then keyval - 32
        else keyval
       else keyval) ∧
    caps_lock_swap modifiers (caps_lock_swap modifiers keyval) = keyval ∧
    normalize_keyval cfg translit keyval keycode modifiers =
      caps_lock_swap modifiers
        (if translit = false then
          match cfg.keymap with
          | some keymap => keymap keycode modifiers
          | none => keyval
         else keyval) :=
  ⟨caps_lock_swap_spec modifiers keyval, caps_lock_swap_twice modifiers keyval,
    normalize_keyval_caps_lock cfg translit keyval keycode modifiers⟩

/-! ### C30: digit selection and the bounds of the candidate list -/

/-- C30, the code at the failing input: one candidate, cursor at 0, page size 9;
the digit 2 selects index 1, where the list has no key and no value, and the
candidate commit aborts. -/
theorem C30_digit_out_of_range :
    syllable_engine.hanja_list.map List.length = some 1 ∧
    ibus_lookup_table_get_cursor_pos syllable_engine.table = 0 ∧
    ibus_lookup_table_get_page_size syllable_engine.table = 9 ∧
    syllable_engine.hanja_list.bind (fun list => hanja_list_get_nth_value list (0 / 9 * 9 + (2 - 1)))
      = none ∧
    (ibus_hangul_engine_process_key_event sample_composer sample_config sample_env
      syllable_engine (IBUS_1 + (2 - 1)) 3 0).isSome = false := by
  decide

end IBusHangul
